import Mathlib

/-!
Shallow embedding of the Maraffa single-hand environment
(src/env_maraffa.py), the public void-suit inference and the
determinizing Monte-Carlo policy (src/hero.py), together with proofs of
the specified properties.

Conventions of the embedding:
* Python arbitrary-precision ints that can be negative (sentinel -1
  fields such as trump_suit, lead_suit, trick slots, bonus_team) are
  modelled as Int; bit masks, card ids and seat numbers that stay
  non-negative are modelled as Nat.
* Python lists of fixed length are modelled as List with List.set /
  List.getD for indexed assignment and access.
* Python tuple indexing CARD_SUIT[c] / SUIT_MASKS[s] admits negative
  indices (index -1 reads the last entry); the embedding reproduces this
  with an Int.emod before indexing, which agrees with the source for
  every index the program can produce.
-/

namespace Maraffa

def NUM_PLAYERS : Nat := 4
def NUM_SUITS : Nat := 4
def NUM_RANKS : Nat := 10
def NUM_CARDS : Nat := 40
def NUM_TRICKS : Nat := 10

/-- RANK_STRENGTH from the source: strength of internal rank r. -/
def RANK_STRENGTH : List Int := [9, 8, 7, 6, 5, 4, 3, 2, 1, 0]

/-- RANK_POINTS_THIRDS from the source: point value of internal rank r, in thirds. -/
def RANK_POINTS_THIRDS : List Nat := [1, 1, 3, 1, 1, 1, 0, 0, 0, 0]

/-- CARD_SUIT[c] = (c mod 40) / 10; the emod reproduces Python negative
tuple indexing (CARD_SUIT[-1] is the suit of card 39). -/
def cardSuit (c : Int) : Int := (c % 40) / 10

/-- CARD_RANK[c] = c mod 10 (Python c % NUM_RANKS, and the same value under
negative tuple indexing since 10 divides 40). -/
def cardRank (c : Int) : Int := c % 10

/-- CARD_STRENGTH[c] = RANK_STRENGTH[CARD_RANK[c]]. -/
def cardStrength (c : Int) : Int := RANK_STRENGTH.getD (cardRank c).toNat 0

/-- CARD_POINTS_THIRDS[c] = RANK_POINTS_THIRDS[CARD_RANK[c]]. -/
def cardPoints (c : Int) : Nat := RANK_POINTS_THIRDS.getD (cardRank c).toNat 0

/-- SUIT_MASKS[s]: bit mask of the ten cards of suit s, built exactly like
the source loop. -/
def suitMask (s : Nat) : Nat :=
  (List.range 10).foldl (fun m r => m ||| (1 <<< (s * 10 + r))) 0

/-- SUIT_MASKS accessed at an Int index (Python tuple indexing; the emod
reproduces the negative-index case SUIT_MASKS[-1] = SUIT_MASKS[3]). -/
def suitMaskAt (s : Int) : Nat := suitMask (s % 4).toNat

/-- MARAFFA_MASKS[s]: ranks 3, 2, A are rank indices 0, 1, 2. -/
def maraffaMask (s : Nat) : Nat :=
  (1 <<< (s * 10)) ||| (1 <<< (s * 10 + 1)) ||| (1 <<< (s * 10 + 2))

/-- team_of(player) = player & 1; on Python ints this equals player mod 2
(Int.emod matches Python % for a positive modulus). -/
def teamOf (p : Int) : Int := p % 2

/-- Fuelled helper for lowBit; the fuel only drives structural recursion
(so that concrete states evaluate inside the kernel) and is always
sufficient at the call site. -/
def lowBitAux : Nat → Nat → Nat
  | 0, _ => 0
  | f + 1, m => if m % 2 = 1 then 0 else if m = 0 then 0 else lowBitAux f (m / 2) + 1

/-- Index of the lowest set bit of m (number of trailing zeros); this is
what the source computes as (m & -m).bit_length() - 1. -/
def lowBit (m : Nat) : Nat := lowBitAux m m

theorem lowBitAux_congr : ∀ m f g : Nat, m ≤ f → m ≤ g →
    lowBitAux f m = lowBitAux g m := by
  intro m
  induction m using Nat.strong_induction_on with
  | _ m ih =>
    intro f g hf hg
    match m, f, g, hf, hg with
    | 0, 0, 0, _, _ => rfl
    | 0, 0, g + 1, _, _ => simp [lowBitAux]
    | 0, f + 1, 0, _, _ => simp [lowBitAux]
    | 0, f + 1, g + 1, _, _ => simp [lowBitAux]
    | m + 1, f + 1, g + 1, hf, hg =>
      simp only [lowBitAux]
      by_cases hodd : (m + 1) % 2 = 1
      · simp [hodd]
      · have hlt : (m + 1) / 2 < m + 1 := Nat.div_lt_self (Nat.succ_pos m) (by decide)
        have := ih ((m + 1) / 2) hlt f g (by omega) (by omega)
        simp [hodd, this]

theorem lowBit_eq (m : Nat) :
    lowBit m = if m % 2 = 1 then 0 else if m = 0 then 0 else lowBit (m / 2) + 1 := by
  by_cases h0 : m = 0
  · subst h0; rfl
  · unfold lowBit
    match m, h0 with
    | m + 1, _ =>
      simp only [lowBitAux]
      by_cases hodd : (m + 1) % 2 = 1
      · simp [hodd]
      · have hlt : (m + 1) / 2 < m + 1 := Nat.div_lt_self (Nat.succ_pos m) (by decide)
        have := lowBitAux_congr ((m + 1) / 2) m ((m + 1) / 2) (by omega) (le_refl _)
        simp [hodd, this]

theorem testBit_one_shiftLeft (k i : Nat) : (1 <<< k).testBit i = decide (i = k) := by
  rw [Nat.testBit_shiftLeft]
  by_cases h : i = k
  · subst h
    simp [Nat.testBit_zero]
  · rcases Nat.lt_or_ge i k with hlt | hge
    · have hnk : ¬ (k ≤ i) := by omega
      simp [hnk, h]
    · have h2 : i - k ≠ 0 := by omega
      have h3 : Nat.testBit 1 (i - k) = false := by
        rw [← Bool.not_eq_true, Nat.testBit_one_eq_true_iff_self_eq_zero]
        exact h2
      simp [hge, h3, h]

theorem lowBit_testBit : ∀ m : Nat, m ≠ 0 → m.testBit (lowBit m) = true := by
  intro m
  induction m using Nat.strong_induction_on with
  | _ m ih =>
    intro hm
    rw [lowBit_eq]
    by_cases hodd : m % 2 = 1
    · simp [hodd, Nat.testBit_zero]
    · simp only [hodd, if_false, hm]
      have hlt : m / 2 < m := Nat.div_lt_self (Nat.pos_of_ne_zero hm) (by decide)
      have hne : m / 2 ≠ 0 := by omega
      have := ih (m / 2) hlt hne
      simpa [Nat.testBit_succ] using this

theorem xor_pow_lt {m : Nat} {k : Nat} (h : m.testBit k = true) :
    m ^^^ (1 <<< k) < m := by
  apply Nat.lt_of_testBit k
  · simp [Nat.testBit_xor, testBit_one_shiftLeft, h]
  · exact h
  · intro j hj
    have hk : decide (j = k) = false := by simp; omega
    rw [Nat.testBit_xor, testBit_one_shiftLeft, hk]
    simp

/-- Fuelled helper for iterCards; on each pass the mask strictly
decreases, so fuel m is always sufficient. -/
def iterCardsAux : Nat → Nat → List Nat
  | 0, _ => []
  | f + 1, m =>
      if m = 0 then []
      else lowBit m :: iterCardsAux f (m ^^^ (1 <<< lowBit m))

/-- iter_cards(mask): emit the indices of the set bits of the mask, lowest
first, clearing each emitted bit (the source clears via m ^= m & -m). -/
def iterCards (m : Nat) : List Nat := iterCardsAux m m

theorem iterCardsAux_congr : ∀ m f g : Nat, m ≤ f → m ≤ g →
    iterCardsAux f m = iterCardsAux g m := by
  intro m
  induction m using Nat.strong_induction_on with
  | _ m ih =>
    intro f g hf hg
    by_cases hm : m = 0
    · subst hm
      match f, g with
      | 0, 0 => rfl
      | 0, g + 1 => simp [iterCardsAux]
      | f + 1, 0 => simp [iterCardsAux]
      | f + 1, g + 1 => simp [iterCardsAux]
    · obtain ⟨f, rfl⟩ : ∃ k, f = k + 1 := ⟨f - 1, by omega⟩
      obtain ⟨g, rfl⟩ : ∃ k, g = k + 1 := ⟨g - 1, by omega⟩
      simp only [iterCardsAux, hm, if_false]
      have hlt : m ^^^ (1 <<< lowBit m) < m := xor_pow_lt (lowBit_testBit m hm)
      rw [ih _ hlt f g (by omega) (by omega)]

theorem iterCards_eq (m : Nat) :
    iterCards m = if m = 0 then [] else lowBit m :: iterCards (m ^^^ (1 <<< lowBit m)) := by
  by_cases hm : m = 0
  · subst hm; rfl
  · unfold iterCards
    match m, hm with
    | m + 1, hm =>
      simp only [iterCardsAux, hm, if_false, reduceCtorEq]
      have hlt : (m + 1) ^^^ (1 <<< lowBit (m + 1)) < m + 1 :=
        xor_pow_lt (lowBit_testBit (m + 1) hm)
      rw [iterCardsAux_congr _ m _ (by omega) (le_refl _)]

theorem mem_iterCards : ∀ (m : Nat) (i : Nat), i ∈ iterCards m ↔ m.testBit i = true := by
  intro m
  induction m using Nat.strong_induction_on with
  | _ m ih =>
    intro i
    by_cases hm : m = 0
    · subst hm; simp [iterCards, iterCardsAux, Nat.zero_testBit]
    · rw [iterCards_eq, if_neg hm]
      have hbit := lowBit_testBit m hm
      have hlt := xor_pow_lt hbit
      rw [List.mem_cons, ih _ hlt i]
      simp only [Nat.testBit_xor, testBit_one_shiftLeft]
      by_cases hik : i = lowBit m
      · subst hik
        simp [hbit]
      · simp [hik]

/-- The full 40-card mask. -/
def FULL_MASK : Nat := (1 <<< 40) - 1

theorem and_eq_zero_iff_testBit (a b : Nat) :
    a &&& b = 0 ↔ ∀ i, ¬(a.testBit i = true ∧ b.testBit i = true) := by
  constructor
  · intro h i ⟨ha, hb⟩
    have : (a &&& b).testBit i = true := by
      rw [Nat.testBit_and, ha, hb]
      rfl
    rw [h, Nat.zero_testBit] at this
    exact Bool.false_ne_true this
  · intro h
    apply Nat.eq_of_testBit_eq
    intro i
    rw [Nat.testBit_and, Nat.zero_testBit]
    by_cases ha : a.testBit i = true
    · by_cases hb : b.testBit i = true
      · exact absurd ⟨ha, hb⟩ (h i)
      · rw [Bool.not_eq_true] at hb
        simp [ha, hb]
    · rw [Bool.not_eq_true] at ha
      simp [ha]

theorem testBit_lt_of_lt_two_pow {m i n : Nat} (h : m < 2 ^ n)
    (hb : m.testBit i = true) : i < n := by
  by_contra hge
  have : m.testBit i = false := Nat.testBit_lt_two_pow (lt_of_lt_of_le h (Nat.pow_le_pow_right (by decide) (by omega)))
  rw [this] at hb
  exact Bool.false_ne_true hb

theorem testBit_FULL_MASK (i : Nat) : FULL_MASK.testBit i = decide (i < 40) := by
  have : FULL_MASK = 2 ^ 40 - 1 := by decide
  rw [this, Nat.testBit_two_pow_sub_one]

theorem testBit_suitMask (s c : Nat) :
    (suitMask s).testBit c = true ↔ s * 10 ≤ c ∧ c < s * 10 + 10 := by
  have h10 : List.range 10 = [0, 1, 2, 3, 4, 5, 6, 7, 8, 9] := rfl
  rw [suitMask, h10]
  simp only [List.foldl_cons, List.foldl_nil]
  simp only [Nat.testBit_or, Nat.zero_testBit, testBit_one_shiftLeft, Bool.or_eq_true,
    Bool.false_or, decide_eq_true_eq]
  omega

/-- Suit of a card id below 40, as a plain Nat computation. -/
theorem cardSuit_ofNat (c : Nat) (h : c < 40) : cardSuit (c : Int) = ((c / 10 : Nat) : Int) := by
  unfold cardSuit
  have h1 : ((c : Int) % 40) = (c : Int) := Int.emod_eq_of_lt (by positivity) (by exact_mod_cast h)
  rw [h1]
  push_cast
  rfl

theorem getD_set_self {α} (l : List α) (i : Nat) (v d : α) (h : i < l.length) :
    (l.set i v).getD i d = v := by
  rw [List.getD_eq_getElem _ _ (by simpa using h)]
  simp

theorem getD_set_ne {α} (l : List α) (i j : Nat) (hij : i ≠ j) (v d : α) :
    (l.set i v).getD j d = l.getD j d := by
  rcases Nat.lt_or_ge j l.length with hj | hj
  · rw [List.getD_eq_getElem _ _ (by simpa using hj), List.getD_eq_getElem _ _ hj]
    rw [List.getElem_set_ne (by omega)]
  · rw [List.getD_eq_default _ _ (by simpa using hj), List.getD_eq_default _ _ hj]

/-- Suits of valid cards lie in 0..3. -/
theorem cardSuit_range (c : Int) (h0 : 0 ≤ c) (h40 : c < 40) :
    0 ≤ cardSuit c ∧ cardSuit c < 4 := by
  unfold cardSuit
  omega

/-- Strengths of valid cards lie in 0..9 and are determined by the rank. -/
theorem cardStrength_ofNat (n : Nat) (h : n < 40) :
    cardStrength (n : Int) = 9 - ((n % 10 : Nat) : Int) := by
  revert h
  have : ∀ n : Nat, n < 40 → cardStrength (n : Int) = 9 - ((n % 10 : Nat) : Int) := by decide
  exact this n

theorem cardStrength_nonneg (n : Nat) (h : n < 40) : 0 ≤ cardStrength (n : Int) := by
  rw [cardStrength_ofNat n h]
  have : n % 10 < 10 := Nat.mod_lt _ (by decide)
  omega

/-- Two distinct valid cards of the same suit have distinct strengths. -/
theorem cardStrength_injective_on_suit (m n : Nat) (hm : m < 40) (hn : n < 40)
    (hne : m ≠ n) (hsuit : cardSuit (m : Int) = cardSuit (n : Int)) :
    cardStrength (m : Int) ≠ cardStrength (n : Int) := by
  rw [cardSuit_ofNat m hm, cardSuit_ofNat n hn] at hsuit
  rw [cardStrength_ofNat m hm, cardStrength_ofNat n hn]
  have hs : m / 10 = n / 10 := by exact_mod_cast hsuit
  intro h
  have : m % 10 = n % 10 := by omega
  omega

/-! ## The environment state (MaraffaEnv attributes after construction). -/

structure Env where
  hands : List Nat
  current_player : Nat
  declarer : Nat
  choose_trump_phase : Bool
  trump_suit : Int
  trick_cards : List Int
  trick_players : List Int
  trick_len : Nat
  lead_suit : Int
  trick_index : Nat
  scores_thirds : List Nat
  bonus_team : Int
  played_mask : Nat
  trick_history : List (Int × List Int × List Int)
  done : Bool
deriving DecidableEq

/-- The dealing loop of reset: hands[i & 3] |= 1 << c for i, c in
enumerate(deck); i & 3 is written i % 4. -/
def dealHands : List Nat → Nat → List Nat → List Nat
  | [], _, hs => hs
  | c :: rest, i, hs =>
      dealHands rest (i + 1) (hs.set (i % 4) (hs.getD (i % 4) 0 ||| (1 <<< c)))

/-- The state produced by reset, as a function of the shuffled deck and the
randomly drawn declarer. -/
def initialEnv (deck : List Nat) (declarer : Nat) : Env :=
  { hands := dealHands deck 0 [0, 0, 0, 0]
    current_player := declarer
    declarer := declarer
    choose_trump_phase := true
    trump_suit := -1
    trick_cards := [-1, -1, -1, -1]
    trick_players := [-1, -1, -1, -1]
    trick_len := 0
    lead_suit := -1
    trick_index := 0
    scores_thirds := [0, 0]
    bonus_team := -1
    played_mask := 0
    trick_history := []
    done := false }

/-- legal_actions(player). -/
def legalActions (e : Env) (player : Nat) : List Nat :=
  if e.choose_trump_phase then
    if player = e.current_player then [0, 1, 2, 3] else []
  else
    let hand := e.hands.getD player 0
    if e.trick_len = 0 then iterCards hand
    else
      let led := hand &&& suitMaskAt e.lead_suit
      if led ≠ 0 then iterCards led else iterCards hand

/-- _declare_trump(suit). -/
def declareTrump (e : Env) (suit : Nat) : Env :=
  let maraffa := maraffaMask suit
  let t0 := e.hands.getD 0 0 ||| e.hands.getD 2 0
  let t1 := e.hands.getD 1 0 ||| e.hands.getD 3 0
  { e with
      trump_suit := (suit : Int)
      choose_trump_phase := false
      bonus_team :=
        if t0 &&& maraffa = maraffa then 0
        else if t1 &&& maraffa = maraffa then 1
        else -1 }

/-- The winner-selection loop of _resolve_trick, over the enumerated trick
cards with accumulator (best_i, best_s). -/
def bestEligible (hasTrump : Bool) (trump lead : Int) :
    List (Nat × Int) → Nat → Int → Nat
  | [], bi, _ => bi
  | (i, c) :: rest, bi, bs =>
      let suit := cardSuit c
      let skip : Bool := if hasTrump then suit != trump else suit != lead
      if skip then bestEligible hasTrump trump lead rest bi bs
      else if cardStrength c > bs then bestEligible hasTrump trump lead rest i (cardStrength c)
      else bestEligible hasTrump trump lead rest bi bs

/-- _resolve_trick: returns (winner, trick value in thirds). -/
def resolveTrick (e : Env) : Int × Nat :=
  let hasTrump := e.trick_cards.any (fun c => cardSuit c == e.trump_suit)
  let bi := bestEligible hasTrump e.trump_suit e.lead_suit e.trick_cards.enum 0 (-1)
  let winner := e.trick_players.getD bi 0
  let thirds := (e.trick_cards.map cardPoints).sum
  (winner, thirds)

/-- _play_card(player, card). -/
def playCard (e : Env) (player : Nat) (card : Nat) : Env :=
  let hands := e.hands.set player (e.hands.getD player 0 ^^^ (1 <<< card))
  let played := e.played_mask ||| (1 <<< card)
  let pos := e.trick_len
  let tc := e.trick_cards.set pos (card : Int)
  let tp := e.trick_players.set pos (player : Int)
  let tl := e.trick_len + 1
  let ls := if pos = 0 then cardSuit (card : Int) else e.lead_suit
  if tl < 4 then
    { e with
        hands := hands, played_mask := played, trick_cards := tc,
        trick_players := tp, trick_len := tl, lead_suit := ls,
        current_player := (player + 1) % 4 }
  else
    let e1 : Env :=
      { e with
          hands := hands, played_mask := played, trick_cards := tc,
          trick_players := tp, trick_len := tl, lead_suit := ls }
    let wt := resolveTrick e1
    let winner := wt.1
    let thirds := wt.2
    let ti := (teamOf winner).toNat
    let e2 : Env :=
      { e1 with
          trick_history := e1.trick_history ++ [(e1.lead_suit, e1.trick_players, e1.trick_cards)]
          scores_thirds := e1.scores_thirds.set ti (e1.scores_thirds.getD ti 0 + thirds)
          trick_index := e1.trick_index + 1
          trick_cards := [-1, -1, -1, -1]
          trick_players := [-1, -1, -1, -1]
          trick_len := 0
          lead_suit := -1
          current_player := winner.toNat }
    if e2.trick_index = 10 then
      if e2.bonus_team = 0 ∨ e2.bonus_team = 1 then
        { e2 with
            done := true
            scores_thirds :=
              e2.scores_thirds.set e2.bonus_team.toNat
                (e2.scores_thirds.getD e2.bonus_team.toNat 0 + 9) }
      else { e2 with done := true }
    else e2

/-- step(action): returns the next state (in the source, the observation of
the mutated environment; here the mutated environment itself). -/
def stepEnv (e : Env) (action : Nat) : Env :=
  if e.done then e
  else if e.choose_trump_phase then
    let e1 := declareTrump e action
    { e1 with current_player := e1.declarer }
  else playCard e e.current_player action

/-- Eligibility of a card for winning the current trick: it must follow
the trump suit when a trump was played, else the lead suit. -/
def eligCard (ht : Bool) (trump lead c : Int) : Prop :=
  if ht then cardSuit c = trump else cardSuit c = lead

instance (ht : Bool) (trump lead c : Int) : Decidable (eligCard ht trump lead c) := by
  unfold eligCard
  infer_instance

theorem skip_iff_not_elig (ht : Bool) (trump lead c : Int) :
    ((if ht then cardSuit c != trump else cardSuit c != lead) = true) ↔
      ¬ eligCard ht trump lead c := by
  unfold eligCard
  cases ht <;> simp [bne_iff_ne]

theorem bestEligible_le (ht : Bool) (trump lead : Int) :
    ∀ (l : List (Nat × Int)) (bi : Nat) (bs : Int),
      (∀ ic ∈ l, eligCard ht trump lead ic.2 → cardStrength ic.2 ≤ bs) →
      bestEligible ht trump lead l bi bs = bi := by
  intro l
  induction l with
  | nil => intro bi bs _; rfl
  | cons hd tl ih =>
    intro bi bs hall
    obtain ⟨i, c⟩ := hd
    by_cases hskip : (if ht then cardSuit c != trump else cardSuit c != lead) = true
    · simp only [bestEligible, hskip, if_true]
      exact ih bi bs (fun jd hm h => hall jd (List.mem_cons_of_mem _ hm) h)
    · have helig : eligCard ht trump lead c := by
        by_contra hne
        exact hskip ((skip_iff_not_elig ht trump lead c).mpr hne)
      have hle : cardStrength c ≤ bs := hall (i, c) (List.mem_cons_self _ _) helig
      have hnotgt : ¬ (cardStrength c > bs) := by omega
      simp only [bestEligible, hskip, if_false, hnotgt]
      exact ih bi bs (fun jd hm h => hall jd (List.mem_cons_of_mem _ hm) h)

theorem bestEligible_argmax (ht : Bool) (trump lead : Int) :
    ∀ (l : List (Nat × Int)) (bi : Nat) (bs : Int),
      (∃ ic ∈ l, eligCard ht trump lead ic.2 ∧ bs < cardStrength ic.2) →
      ∃ ic ∈ l, bestEligible ht trump lead l bi bs = ic.1 ∧
        eligCard ht trump lead ic.2 ∧ bs < cardStrength ic.2 ∧
        ∀ jd ∈ l, eligCard ht trump lead jd.2 → cardStrength jd.2 ≤ cardStrength ic.2 := by
  intro l
  induction l with
  | nil => rintro bi bs ⟨ic, hmem, _⟩; cases hmem
  | cons hd tl ih =>
    intro bi bs hex
    obtain ⟨i, c⟩ := hd
    by_cases hskip : (if ht then cardSuit c != trump else cardSuit c != lead) = true
    · have hnelig : ¬ eligCard ht trump lead c := (skip_iff_not_elig ht trump lead c).mp hskip
      obtain ⟨ic, hmem, helig, hgt⟩ := hex
      have hmem' : ic ∈ tl := by
        rcases List.mem_cons.mp hmem with rfl | h
        · exact absurd helig hnelig
        · exact h
      obtain ⟨w, hw, hres, hwe, hwgt, hmax⟩ := ih bi bs ⟨ic, hmem', helig, hgt⟩
      refine ⟨w, List.mem_cons_of_mem _ hw, ?_, hwe, hwgt, ?_⟩
      · simpa only [bestEligible, hskip, if_true] using hres
      · intro jd hjd hje
        rcases List.mem_cons.mp hjd with rfl | h
        · exact absurd hje hnelig
        · exact hmax jd h hje
    · have helig : eligCard ht trump lead c := by
        by_contra hne
        exact hskip ((skip_iff_not_elig ht trump lead c).mpr hne)
      by_cases hgt : cardStrength c > bs
      · by_cases h2 : ∃ jd ∈ tl, eligCard ht trump lead jd.2 ∧ cardStrength c < cardStrength jd.2
        · obtain ⟨w, hw, hres, hwe, hwgt, hmax⟩ := ih i (cardStrength c) h2
          refine ⟨w, List.mem_cons_of_mem _ hw, ?_, hwe, by omega, ?_⟩
          · simpa only [bestEligible, hskip, if_false, hgt, if_true] using hres
          · intro jd hjd hje
            rcases List.mem_cons.mp hjd with rfl | h
            · show cardStrength c ≤ cardStrength w.2
              omega
            · exact hmax jd h hje
        · push_neg at h2
          have hres : bestEligible ht trump lead ((i, c) :: tl) bi bs = i := by
            simp only [bestEligible, hskip, if_false, hgt, if_true]
            exact bestEligible_le ht trump lead tl i (cardStrength c)
              (fun jd hm hj => h2 jd hm hj)
          refine ⟨(i, c), List.mem_cons_self _ _, hres, helig, hgt, ?_⟩
          intro jd hjd hje
          rcases List.mem_cons.mp hjd with rfl | h
          · exact le_refl _
          · exact h2 jd h hje
      · obtain ⟨ic, hmem, helig2, hgt2⟩ := hex
        have hmem' : ic ∈ tl := by
          rcases List.mem_cons.mp hmem with rfl | h
          · have : bs < cardStrength c := hgt2
            omega
          · exact h
        obtain ⟨w, hw, hres, hwe, hwgt, hmax⟩ := ih bi bs ⟨ic, hmem', helig2, hgt2⟩
        refine ⟨w, List.mem_cons_of_mem _ hw, ?_, hwe, hwgt, ?_⟩
        · simpa only [bestEligible, hskip, if_false, hgt, ite_false] using hres
        · intro jd hjd hje
          rcases List.mem_cons.mp hjd with rfl | h
          · show cardStrength c ≤ cardStrength w.2
            omega
          · exact hmax jd h hje

/-- The claim-side description of a trick having a trump card among the
played cards. -/
def trickHasTrump (trump : Int) (cards : List Int) : Prop :=
  ∃ c ∈ cards, cardSuit c = trump

instance (trump : Int) (cards : List Int) : Decidable (trickHasTrump trump cards) := by
  unfold trickHasTrump
  infer_instance

/-- The claim-side eligibility of position i: its card must be of the trump
suit when some trump card was played, else of the lead suit. -/
def eligAt (trump lead : Int) (cards : List Int) (i : Nat) : Prop :=
  if trickHasTrump trump cards then cardSuit (cards.getD i (-1)) = trump
  else cardSuit (cards.getD i (-1)) = lead

instance (trump lead : Int) (cards : List Int) (i : Nat) :
    Decidable (eligAt trump lead cards i) :=
  if h : trickHasTrump trump cards then
    decidable_of_iff (cardSuit (cards.getD i (-1)) = trump) (by unfold eligAt; simp [h])
  else
    decidable_of_iff (cardSuit (cards.getD i (-1)) = lead) (by unfold eligAt; simp [h])

/-- The claim-side winner description: position i is eligible and strictly
strongest among the eligible positions. -/
def winsAt (trump lead : Int) (cards : List Int) (i : Nat) : Prop :=
  i < cards.length ∧ eligAt trump lead cards i ∧
    ∀ j, j < cards.length → j ≠ i → eligAt trump lead cards j →
      cardStrength (cards.getD j (-1)) < cardStrength (cards.getD i (-1))

instance (trump lead : Int) (cards : List Int) (i : Nat) :
    Decidable (winsAt trump lead cards i) := by
  unfold winsAt
  infer_instance

/-! ## Derived quantities used in statements and invariants. -/

def handOf (e : Env) (p : Nat) : Nat := e.hands.getD p 0

def sumScores (e : Env) : Nat := e.scores_thirds.getD 0 0 + e.scores_thirds.getD 1 0

/-- Total point value (in thirds) of the cards of a mask. -/
def maskPoints (m : Nat) : Nat :=
  ∑ c in Finset.range 40, if m.testBit c then cardPoints (c : Int) else 0

/-- Number of cards (ids 0..39) present in a mask. -/
def countMask (m : Nat) : Nat :=
  ∑ c in Finset.range 40, if m.testBit c then 1 else 0

/-- Point value (in thirds) of the cards currently on the table. -/
def trickPoints (e : Env) : Nat :=
  ((List.range e.trick_len).map (fun i => cardPoints (e.trick_cards.getD i (-1)))).sum

theorem maskPoints_zero : maskPoints 0 = 0 := by
  simp [maskPoints, Nat.zero_testBit]

theorem countMask_zero : countMask 0 = 0 := by
  simp [countMask, Nat.zero_testBit]

theorem maskPoints_or (m : Nat) (c : Nat) (hc : c < 40) (hfresh : m.testBit c = false) :
    maskPoints (m ||| (1 <<< c)) = maskPoints m + cardPoints (c : Int) := by
  unfold maskPoints
  have hsum : ∀ i ∈ Finset.range 40,
      (if (m ||| (1 <<< c)).testBit i then cardPoints (i : Int) else 0) =
        (if m.testBit i then cardPoints (i : Int) else 0) +
          (if i = c then cardPoints (i : Int) else 0) := by
    intro i _
    rw [Nat.testBit_or, testBit_one_shiftLeft]
    by_cases hic : i = c
    · subst hic
      simp [hfresh]
    · simp [hic]
  rw [Finset.sum_congr rfl hsum, Finset.sum_add_distrib, Finset.sum_ite_eq']
  simp [Finset.mem_range.mpr hc]

theorem countMask_or (m : Nat) (c : Nat) (hc : c < 40) (hfresh : m.testBit c = false) :
    countMask (m ||| (1 <<< c)) = countMask m + 1 := by
  unfold countMask
  have hsum : ∀ i ∈ Finset.range 40,
      (if (m ||| (1 <<< c)).testBit i then (1 : Nat) else 0) =
        (if m.testBit i then (1 : Nat) else 0) + (if i = c then (1 : Nat) else 0) := by
    intro i _
    rw [Nat.testBit_or, testBit_one_shiftLeft]
    by_cases hic : i = c
    · subst hic
      simp [hfresh]
    · simp [hic]
  rw [Finset.sum_congr rfl hsum, Finset.sum_add_distrib, Finset.sum_ite_eq']
  simp [Finset.mem_range.mpr hc]

theorem countMask_le (m : Nat) : countMask m ≤ 40 := by
  have h : countMask m ≤ ∑ _c in Finset.range 40, 1 := by
    apply Finset.sum_le_sum
    intro i _
    split <;> omega
  simpa using h

theorem eq_FULL_of_countMask (m : Nat) (hm : m < 2 ^ 40) (h : countMask m = 40) :
    m = FULL_MASK := by
  have hle : ∀ i ∈ Finset.range 40, (if m.testBit i then (1 : Nat) else 0) ≤ 1 := by
    intro i _
    split <;> omega
  have h40 : ∑ i in Finset.range 40, (if m.testBit i then (1 : Nat) else 0) =
      ∑ _i in Finset.range 40, 1 := by
    unfold countMask at h
    rw [h]
    simp
  have hall := (Finset.sum_eq_sum_iff_of_le hle).mp h40
  apply Nat.eq_of_testBit_eq
  intro i
  rw [testBit_FULL_MASK]
  by_cases hi : i < 40
  · have := hall i (Finset.mem_range.mpr hi)
    simp only [hi, decide_True]
    by_cases hb : m.testBit i = true
    · exact hb
    · rw [Bool.not_eq_true] at hb
      rw [hb] at this
      simp at this
  · have : m.testBit i = false := Nat.testBit_lt_two_pow
      (lt_of_lt_of_le hm (Nat.pow_le_pow_right (by decide) (by omega)))
    simp [this, hi]

theorem resolveTrick_congr (a b : Env) (h1 : a.trick_cards = b.trick_cards)
    (h2 : a.trick_players = b.trick_players) (h3 : a.trump_suit = b.trump_suit)
    (h4 : a.lead_suit = b.lead_suit) : resolveTrick a = resolveTrick b := by
  unfold resolveTrick
  rw [h1, h2, h3, h4]

theorem teamOf_toNat_lt (w : Int) : (teamOf w).toNat < 2 := by
  unfold teamOf
  omega

theorem teamOf_nonneg (w : Int) : 0 ≤ teamOf w := by
  unfold teamOf
  omega

/-- C1: for every completed trick of four distinct valid card ids whose
first card matches the lead suit, trick resolution yields a unique winner,
namely the player at the unique eligible position of maximal strength
(trump-suit positions when a trump was played, else lead-suit positions),
and the trick value - the sum of the four card point values in thirds -
is credited entirely to the winning team (the separate end-of-hand bonus
aside). -/
theorem C1_trick_resolution
    (e : Env) (pl c0 c1 c2 c3 p0 p1 p2 : Nat) (x y : Int) (s0 s1 : Nat)
    (htc : e.trick_cards = [(c0 : Int), (c1 : Int), (c2 : Int), x])
    (htp : e.trick_players = [(p0 : Int), (p1 : Int), (p2 : Int), y])
    (hs : e.scores_thirds = [s0, s1])
    (htl : e.trick_len = 3)
    (hv0 : c0 < 40) (hv1 : c1 < 40) (hv2 : c2 < 40) (hv3 : c3 < 40)
    (hd01 : c0 ≠ c1) (hd02 : c0 ≠ c2) (hd03 : c0 ≠ c3)
    (hd12 : c1 ≠ c2) (hd13 : c1 ≠ c3) (hd23 : c2 ≠ c3)
    (hlead : e.lead_suit = cardSuit (c0 : Int)) :
    ∃ i,
      winsAt e.trump_suit e.lead_suit [(c0 : Int), (c1 : Int), (c2 : Int), (c3 : Int)] i ∧
      (∀ j, winsAt e.trump_suit e.lead_suit [(c0 : Int), (c1 : Int), (c2 : Int), (c3 : Int)] j →
        j = i) ∧
      resolveTrick { e with
          trick_cards := [(c0 : Int), (c1 : Int), (c2 : Int), (c3 : Int)],
          trick_players := [(p0 : Int), (p1 : Int), (p2 : Int), (pl : Int)],
          trick_len := 4 } =
        (([(p0 : Int), (p1 : Int), (p2 : Int), (pl : Int)]).getD i (-1),
          ([(c0 : Int), (c1 : Int), (c2 : Int), (c3 : Int)].map cardPoints).sum) ∧
      (∀ u, u < 2 →
        (playCard e pl c3).scores_thirds.getD u 0 =
          e.scores_thirds.getD u 0 +
            (if (teamOf (([(p0 : Int), (p1 : Int), (p2 : Int), (pl : Int)]).getD i (-1))).toNat = u
              then ([(c0 : Int), (c1 : Int), (c2 : Int), (c3 : Int)].map cardPoints).sum else 0) +
            (if e.trick_index + 1 = 10 ∧ e.bonus_team = (u : Int) then 9 else 0)) := by
  set cards : List Int := [(c0 : Int), (c1 : Int), (c2 : Int), (c3 : Int)] with hcards
  set players : List Int := [(p0 : Int), (p1 : Int), (p2 : Int), (pl : Int)] with hplayers
  set ht : Bool := cards.any (fun c => cardSuit c == e.trump_suit) with hhtdef
  have hHT : ht = true ↔ trickHasTrump e.trump_suit cards := by
    rw [hhtdef]
    simp [trickHasTrump, List.any_eq_true]
  -- eligCard over the loop Bool agrees with the claim-side eligAt
  have hEC : ∀ i : Nat, eligCard ht e.trump_suit e.lead_suit (cards.getD i (-1)) ↔
      eligAt e.trump_suit e.lead_suit cards i := by
    intro i
    unfold eligCard eligAt
    by_cases hp : trickHasTrump e.trump_suit cards
    · rw [if_pos hp, if_pos (hHT.mpr hp)]
    · have : ht = false := by
        rcases Bool.eq_false_or_eq_true ht with h | h
        · exact absurd (hHT.mp h) hp
        · exact h
      rw [if_neg hp, this]
      simp
  -- validity facts of the four positions
  have hvalid : ∀ i, i < 4 → ∃ n : Nat, n < 40 ∧ cards.getD i (-1) = (n : Int) := by
    intro i hi
    interval_cases i
    · exact ⟨c0, hv0, rfl⟩
    · exact ⟨c1, hv1, rfl⟩
    · exact ⟨c2, hv2, rfl⟩
    · exact ⟨c3, hv3, rfl⟩
  have hstrength_nonneg : ∀ i, i < 4 → 0 ≤ cardStrength (cards.getD i (-1)) := by
    intro i hi
    obtain ⟨n, hn, heq⟩ := hvalid i hi
    rw [heq]
    exact cardStrength_nonneg n hn
  have hdist : ∀ i j, i < 4 → j < 4 → i ≠ j → cards.getD i (-1) ≠ cards.getD j (-1) := by
    have d01 : (c0 : Int) ≠ (c1 : Int) := by exact_mod_cast hd01
    have d02 : (c0 : Int) ≠ (c2 : Int) := by exact_mod_cast hd02
    have d03 : (c0 : Int) ≠ (c3 : Int) := by exact_mod_cast hd03
    have d12 : (c1 : Int) ≠ (c2 : Int) := by exact_mod_cast hd12
    have d13 : (c1 : Int) ≠ (c3 : Int) := by exact_mod_cast hd13
    have d23 : (c2 : Int) ≠ (c3 : Int) := by exact_mod_cast hd23
    intro i j hi hj hij
    interval_cases i <;> interval_cases j <;>
      simp only [hcards, List.getD_cons_zero, List.getD_cons_succ] <;>
      first
        | exact absurd rfl hij
        | exact d01
        | exact d01.symm
        | exact d02
        | exact d02.symm
        | exact d03
        | exact d03.symm
        | exact d12
        | exact d12.symm
        | exact d13
        | exact d13.symm
        | exact d23
        | exact d23.symm
  -- strict dominance among eligible positions via distinct strengths
  have hstrict : ∀ i j, i < 4 → j < 4 → i ≠ j →
      eligAt e.trump_suit e.lead_suit cards i → eligAt e.trump_suit e.lead_suit cards j →
      cardStrength (cards.getD j (-1)) ≤ cardStrength (cards.getD i (-1)) →
      cardStrength (cards.getD j (-1)) < cardStrength (cards.getD i (-1)) := by
    intro i j hi hj hij hei hej hle
    obtain ⟨m, hm, hmeq⟩ := hvalid i hi
    obtain ⟨n, hn, hneq⟩ := hvalid j hj
    have hsuits : cardSuit (cards.getD i (-1)) = cardSuit (cards.getD j (-1)) := by
      unfold eligAt at hei hej
      by_cases hp : trickHasTrump e.trump_suit cards
      · rw [if_pos hp] at hei hej
        rw [hei, hej]
      · rw [if_neg hp] at hei hej
        rw [hei, hej]
    have hne : cards.getD i (-1) ≠ cards.getD j (-1) := hdist i j hi hj hij
    rw [hmeq, hneq] at hsuits hne hle ⊢
    have : (m : Int) ≠ (n : Int) := hne
    have hmn : m ≠ n := by exact_mod_cast this
    have := cardStrength_injective_on_suit n m hn hm (Ne.symm hmn) hsuits.symm
    omega
  -- existence of an eligible position of positive strength
  have henum : cards.enum = [(0, (c0 : Int)), (1, (c1 : Int)), (2, (c2 : Int)), (3, (c3 : Int))] := rfl
  have hex : ∃ ic ∈ cards.enum, eligCard ht e.trump_suit e.lead_suit ic.2 ∧
      (-1 : Int) < cardStrength ic.2 := by
    by_cases hp : trickHasTrump e.trump_suit cards
    · obtain ⟨c, hcmem, hcsuit⟩ := hp
      have : c = (c0 : Int) ∨ c = (c1 : Int) ∨ c = (c2 : Int) ∨ c = (c3 : Int) := by
        simpa [hcards] using hcmem
      rcases this with rfl | rfl | rfl | rfl
      · refine ⟨(0, (c0 : Int)), by rw [henum]; simp, ?_, ?_⟩
        · rw [show ((0, (c0 : Int)) : Nat × Int).2 = cards.getD 0 (-1) from rfl, hEC 0]
          unfold eligAt
          rw [if_pos ⟨(c0 : Int), by simp [hcards], hcsuit⟩]
          exact hcsuit
        · show (-1 : Int) < cardStrength ((c0 : Nat) : Int)
          have := cardStrength_nonneg c0 hv0
          omega
      · refine ⟨(1, (c1 : Int)), by rw [henum]; simp, ?_, ?_⟩
        · rw [show ((1, (c1 : Int)) : Nat × Int).2 = cards.getD 1 (-1) from rfl, hEC 1]
          unfold eligAt
          rw [if_pos ⟨(c1 : Int), by simp [hcards], hcsuit⟩]
          exact hcsuit
        · show (-1 : Int) < cardStrength ((c1 : Nat) : Int)
          have := cardStrength_nonneg c1 hv1
          omega
      · refine ⟨(2, (c2 : Int)), by rw [henum]; simp, ?_, ?_⟩
        · rw [show ((2, (c2 : Int)) : Nat × Int).2 = cards.getD 2 (-1) from rfl, hEC 2]
          unfold eligAt
          rw [if_pos ⟨(c2 : Int), by simp [hcards], hcsuit⟩]
          exact hcsuit
        · show (-1 : Int) < cardStrength ((c2 : Nat) : Int)
          have := cardStrength_nonneg c2 hv2
          omega
      · refine ⟨(3, (c3 : Int)), by rw [henum]; simp, ?_, ?_⟩
        · rw [show ((3, (c3 : Int)) : Nat × Int).2 = cards.getD 3 (-1) from rfl, hEC 3]
          unfold eligAt
          rw [if_pos ⟨(c3 : Int), by simp [hcards], hcsuit⟩]
          exact hcsuit
        · show (-1 : Int) < cardStrength ((c3 : Nat) : Int)
          have := cardStrength_nonneg c3 hv3
          omega
    · refine ⟨(0, (c0 : Int)), by rw [henum]; simp, ?_, ?_⟩
      · rw [show ((0, (c0 : Int)) : Nat × Int).2 = cards.getD 0 (-1) from rfl, hEC 0]
        unfold eligAt
        rw [if_neg hp]
        exact hlead.symm
      · show (-1 : Int) < cardStrength ((c0 : Nat) : Int)
        have := cardStrength_nonneg c0 hv0
        omega
  obtain ⟨ic, hicmem, hres, hice, hicgt, hmax⟩ :=
    bestEligible_argmax ht e.trump_suit e.lead_suit cards.enum 0 (-1) hex
  -- identify the winning position
  have hic : ic.1 < 4 ∧ ic.2 = cards.getD ic.1 (-1) := by
    rw [henum, List.mem_cons, List.mem_cons, List.mem_cons, List.mem_singleton] at hicmem
    rcases hicmem with h | h | h | h <;> rw [h] <;> exact ⟨by omega, rfl⟩
  obtain ⟨hilt, hival⟩ := hic
  have hielig : eligAt e.trump_suit e.lead_suit cards ic.1 := by
    rw [← hEC ic.1, ← hival]
    exact hice
  have himax : ∀ j, j < 4 → j ≠ ic.1 → eligAt e.trump_suit e.lead_suit cards j →
      cardStrength (cards.getD j (-1)) < cardStrength (cards.getD ic.1 (-1)) := by
    intro j hj hne hej
    have hmem : (j, cards.getD j (-1)) ∈ cards.enum := by
      rw [henum]
      interval_cases j <;> simp [hcards]
    have hle := hmax (j, cards.getD j (-1)) hmem (by rw [show ((j, cards.getD j (-1)) : Nat × Int).2 = cards.getD j (-1) from rfl, hEC j]; exact hej)
    rw [show ((j, cards.getD j (-1)) : Nat × Int).2 = cards.getD j (-1) from rfl, hival] at hle
    exact hstrict ic.1 j hilt hj (Ne.symm hne) hielig hej hle
  have hwins : winsAt e.trump_suit e.lead_suit cards ic.1 := by
    refine ⟨by simpa [hcards] using hilt, hielig, ?_⟩
    intro j hj hne hej
    exact himax j (by simpa [hcards] using hj) hne hej
  refine ⟨ic.1, hwins, ?_, ?_, ?_⟩
  · -- uniqueness
    intro j hj
    by_contra hne
    obtain ⟨hjlt, hjelig, hjmax⟩ := hj
    have h1 := hjmax ic.1 (by simpa [hcards] using hilt) (fun h => hne h.symm) hielig
    have h2 := himax j (by simpa [hcards] using hjlt) hne hjelig
    omega
  · -- the resolveTrick equation
    have hlen : ic.1 < players.length := by
      rw [hplayers]
      simp only [List.length_cons, List.length_nil]
      omega
    simp only [resolveTrick]
    rw [← hhtdef, hres]
    rw [List.getD_eq_getElem players 0 hlen, List.getD_eq_getElem players (-1) hlen]
  · -- the score accrual
    have hlen : ic.1 < players.length := by
      rw [hplayers]
      simp only [List.length_cons, List.length_nil]
      omega
    have hresC : resolveTrick { e with
        trick_cards := cards,
        trick_players := players,
        trick_len := 4 } = (players.getD ic.1 (-1), (cards.map cardPoints).sum) := by
      simp only [resolveTrick]
      rw [← hhtdef, hres]
      rw [List.getD_eq_getElem players 0 hlen, List.getD_eq_getElem players (-1) hlen]
    intro u hu
    obtain ⟨eh, ecp, edec, eph, etr, etc2, etp2, etl, els, eti, esc, ebt, epm, ehist, edn⟩ := e
    simp only at htc htp hs htl hlead hresC ⊢
    subst htc htp hs htl
    set w : Int := players.getD ic.1 (-1) with hwdef
    set t : Nat := (cards.map cardPoints).sum with htdef
    have hteam := teamOf_toNat_lt w
    simp only [playCard]
    norm_num
    have hRT : resolveTrick
        { hands := eh.set pl (eh[pl]?.getD 0 ^^^ 1 <<< c3), current_player := ecp,
          declarer := edec, choose_trump_phase := eph, trump_suit := etr,
          trick_cards := [(c0 : Int), (c1 : Int), (c2 : Int), (c3 : Int)],
          trick_players := [(p0 : Int), (p1 : Int), (p2 : Int), (pl : Int)],
          trick_len := 4, lead_suit := els, trick_index := eti,
          scores_thirds := [s0, s1], bonus_team := ebt,
          played_mask := epm ||| 1 <<< c3, trick_history := ehist, done := edn } = (w, t) :=
      (resolveTrick_congr
        { hands := eh.set pl (eh[pl]?.getD 0 ^^^ 1 <<< c3), current_player := ecp,
          declarer := edec, choose_trump_phase := eph, trump_suit := etr,
          trick_cards := [(c0 : Int), (c1 : Int), (c2 : Int), (c3 : Int)],
          trick_players := [(p0 : Int), (p1 : Int), (p2 : Int), (pl : Int)],
          trick_len := 4, lead_suit := els, trick_index := eti,
          scores_thirds := [s0, s1], bonus_team := ebt,
          played_mask := epm ||| 1 <<< c3, trick_history := ehist, done := edn }
        { hands := eh, current_player := ecp,
          declarer := edec, choose_trump_phase := eph, trump_suit := etr,
          trick_cards := cards, trick_players := players,
          trick_len := 4, lead_suit := els, trick_index := eti,
          scores_thirds := [s0, s1], bonus_team := ebt,
          played_mask := epm, trick_history := ehist, done := edn }
        (by rw [hcards]) (by rw [hplayers]) rfl rfl).trans hresC
    rw [hRT]
    by_cases hfin : eti + 1 = 10
    · simp only [hfin, if_true, true_and]
      by_cases hb : ebt = 0 ∨ ebt = 1
      · rw [if_pos hb]
        rcases hb with hb | hb <;>
          rcases (show (teamOf w).toNat = 0 ∨ (teamOf w).toNat = 1 by omega) with htw | htw <;>
          interval_cases u <;>
            simp [hb, htw, List.set, List.getD]
      · rw [if_neg hb]
        have hbu : ¬ (ebt = (u : Int)) := by
          interval_cases u <;> simp_all
        rcases (show (teamOf w).toNat = 0 ∨ (teamOf w).toNat = 1 by omega) with htw | htw <;>
          interval_cases u <;>
            simp [htw, hbu, List.set, List.getD] <;> omega
    · simp only [hfin, if_false, false_and]
      have hnot : ¬ (eti + 1 = 10 ∧ ebt = (u : Int)) := by
        intro hcontra
        exact hfin hcontra.1
      rcases (show (teamOf w).toNat = 0 ∨ (teamOf w).toNat = 1 by omega) with htw | htw <;>
        interval_cases u <;>
          simp [htw, hnot, List.set, List.getD]
/-- A concrete state used to witness C1: three cards on the table, player 3
to complete the trick. -/
def witEnvC1 : Env :=
  { hands := [0, 0, 0, 0], current_player := 3, declarer := 0, choose_trump_phase := false,
    trump_suit := 0, trick_cards := [0, 10, 20, -1], trick_players := [0, 1, 2, -1],
    trick_len := 3, lead_suit := 0, trick_index := 0, scores_thirds := [0, 0],
    bonus_team := -1, played_mask := 0, trick_history := [], done := false }

theorem C1_trick_resolution_witness :
    ∃ i,
      winsAt witEnvC1.trump_suit witEnvC1.lead_suit
        [(0 : Int), (10 : Int), (20 : Int), (30 : Int)] i ∧
      (∀ j, winsAt witEnvC1.trump_suit witEnvC1.lead_suit
          [(0 : Int), (10 : Int), (20 : Int), (30 : Int)] j → j = i) ∧
      resolveTrick { witEnvC1 with
          trick_cards := [(0 : Int), (10 : Int), (20 : Int), (30 : Int)],
          trick_players := [(0 : Int), (1 : Int), (2 : Int), (3 : Int)],
          trick_len := 4 } =
        (([(0 : Int), (1 : Int), (2 : Int), (3 : Int)]).getD i (-1),
          ([(0 : Int), (10 : Int), (20 : Int), (30 : Int)].map cardPoints).sum) ∧
      (∀ u, u < 2 →
        (playCard witEnvC1 3 30).scores_thirds.getD u 0 =
          witEnvC1.scores_thirds.getD u 0 +
            (if (teamOf (([(0 : Int), (1 : Int), (2 : Int), (3 : Int)]).getD i (-1))).toNat = u
              then ([(0 : Int), (10 : Int), (20 : Int), (30 : Int)].map cardPoints).sum else 0) +
            (if witEnvC1.trick_index + 1 = 10 ∧ witEnvC1.bonus_team = (u : Int) then 9
              else 0)) :=
  C1_trick_resolution witEnvC1 3 0 10 20 30 0 1 2 (-1) (-1) 0 0
    (by decide) (by decide) (by decide) (by decide)
    (by decide) (by decide) (by decide) (by decide)
    (by decide) (by decide) (by decide) (by decide) (by decide) (by decide)
    (by decide)

/-! ## Reachable states and the inductive well-formedness invariant. -/

/-- States reachable from a fresh deal (reset with some shuffled deck and
declarer) by applying only actions legal for the current player. -/
inductive Reachable : Env → Prop
  | init (deck : List Nat) (declarer : Nat) (hdeck : deck.Perm (List.range 40))
      (hdecl : declarer < 4) : Reachable (initialEnv deck declarer)
  | step (e : Env) (a : Nat) (hr : Reachable e)
      (ha : a ∈ legalActions e e.current_player) : Reachable (stepEnv e a)

/-- The inductive invariant of reachable states. -/
structure WF (e : Env) : Prop where
  hands_len : e.hands.length = 4
  scores_len : e.scores_thirds.length = 2
  tc_len : e.trick_cards.length = 4
  tp_len : e.trick_players.length = 4
  cp_lt : e.current_player < 4
  dcl_lt : e.declarer < 4
  tl_lt : e.trick_len < 4
  ti_le : e.trick_index ≤ 10
  hand_lt : ∀ p, e.hands.getD p 0 < 2 ^ 40
  played_lt : e.played_mask < 2 ^ 40
  disj : ∀ p q, p < 4 → q < 4 → p ≠ q → e.hands.getD p 0 &&& e.hands.getD q 0 = 0
  hp_disj : ∀ p, p < 4 → e.hands.getD p 0 &&& e.played_mask = 0
  union : e.hands.getD 0 0 ||| e.hands.getD 1 0 ||| e.hands.getD 2 0 ||| e.hands.getD 3 0 |||
    e.played_mask = FULL_MASK
  phase0 : e.choose_trump_phase = true →
    e.played_mask = 0 ∧ e.trick_len = 0 ∧ e.trick_index = 0 ∧ e.done = false
  done_iff : e.done = true ↔ e.trick_index = 10
  lead0 : e.trick_len = 0 → e.lead_suit = -1
  lead1 : e.trick_len ≠ 0 → e.lead_suit = cardSuit (e.trick_cards.getD 0 (-1)) ∧
    0 ≤ e.lead_suit ∧ e.lead_suit < 4
  slots : ∀ i, i < e.trick_len →
    0 ≤ e.trick_cards.getD i (-1) ∧ e.trick_cards.getD i (-1) < 40 ∧
    0 ≤ e.trick_players.getD i (-1) ∧ e.trick_players.getD i (-1) < 4 ∧
    e.played_mask.testBit (e.trick_cards.getD i (-1)).toNat = true
  count : countMask e.played_mask = 4 * e.trick_index + e.trick_len
  ledger : sumScores e + trickPoints e =
    maskPoints e.played_mask +
      (if e.done = true ∧ (e.bonus_team = 0 ∨ e.bonus_team = 1) then 9 else 0)
  hist : ∀ h ∈ e.trick_history, 0 ≤ h.1 ∧ h.1 < 4 ∧ h.2.1.length = 4 ∧ h.2.2.length = 4 ∧
    ∀ j, j < 4 → 0 ≤ h.2.1.getD j (-1) ∧ h.2.1.getD j (-1) < 4 ∧
      0 ≤ h.2.2.getD j (-1) ∧ h.2.2.getD j (-1) < 40
  void_hist : ∀ h ∈ e.trick_history, ∀ j, j < 4 →
    cardSuit (h.2.2.getD j (-1)) ≠ h.1 →
    e.hands.getD (h.2.1.getD j (-1)).toNat 0 &&& suitMaskAt h.1 = 0
  void_cur : ∀ i, i < e.trick_len →
    cardSuit (e.trick_cards.getD i (-1)) ≠ e.lead_suit →
    e.hands.getD (e.trick_players.getD i (-1)).toNat 0 &&& suitMaskAt e.lead_suit = 0

/-! Bit lemmas used by the preservation argument. -/

theorem testBit_xor_pow (h : Nat) (a i : Nat) :
    (h ^^^ (1 <<< a)).testBit i = ((h.testBit i).xor (decide (i = a))) := by
  rw [Nat.testBit_xor, testBit_one_shiftLeft]

theorem xor_pow_lt_two_pow {h : Nat} {a n : Nat} (hh : h < 2 ^ n) (ha : a < n) :
    h ^^^ (1 <<< a) < 2 ^ n := by
  have h1 : (1 <<< a) < 2 ^ n := by
    rw [Nat.shiftLeft_eq, one_mul]
    exact Nat.pow_lt_pow_right (by decide) ha
  exact Nat.xor_lt_two_pow hh h1

theorem or_pow_lt_two_pow {h : Nat} {a n : Nat} (hh : h < 2 ^ n) (ha : a < n) :
    h ||| (1 <<< a) < 2 ^ n := by
  have h1 : (1 <<< a) < 2 ^ n := by
    rw [Nat.shiftLeft_eq, one_mul]
    exact Nat.pow_lt_pow_right (by decide) ha
  exact Nat.or_lt_two_pow hh h1

/-- Removing a present card from a hand preserves empty intersections. -/
theorem erase_preserves_disjoint (h m a : Nat) (hz : h &&& m = 0)
    (hbit : h.testBit a = true) : (h ^^^ (1 <<< a)) &&& m = 0 := by
  rw [and_eq_zero_iff_testBit] at hz ⊢
  intro i ⟨hi, hmi⟩
  rw [testBit_xor_pow] at hi
  by_cases hia : i = a
  · subst hia
    rw [hbit] at hi
    simp at hi
  · have : decide (i = a) = false := by simp [hia]
    rw [this] at hi
    simp at hi
    exact hz i ⟨hi, hmi⟩

/-! The dealing loop of reset distributes the deck round-robin; its
characterisation yields the initial partition invariant. -/

theorem dealHands_length : ∀ (deck : List Nat) (i : Nat) (hs : List Nat),
    (dealHands deck i hs).length = hs.length := by
  intro deck
  induction deck with
  | nil => intro i hs; rfl
  | cons c rest ih =>
    intro i hs
    rw [dealHands, ih]
    simp

theorem dealHands_testBit : ∀ (deck : List Nat) (i : Nat) (hs : List Nat) (p b : Nat),
    hs.length = 4 → p < 4 →
    (((dealHands deck i hs).getD p 0).testBit b = true ↔
      ((hs.getD p 0).testBit b = true ∨
        ∃ j, j < deck.length ∧ deck.getD j 0 = b ∧ (i + j) % 4 = p)) := by
  intro deck
  induction deck with
  | nil =>
    intro i hs p b hlen hp
    simp [dealHands]
  | cons c rest ih =>
    intro i hs p b hlen hp
    rw [dealHands]
    have hmod : i % 4 < 4 := Nat.mod_lt _ (by decide)
    have hlen2 : (hs.set (i % 4) (hs.getD (i % 4) 0 ||| (1 <<< c))).length = 4 := by
      simpa using hlen
    rw [ih (i + 1) _ p b hlen2 hp]
    by_cases hpi : p = i % 4
    · subst hpi
      rw [getD_set_self hs (i % 4) _ 0 (by omega)]
      rw [Nat.testBit_or, testBit_one_shiftLeft]
      constructor
      · rintro (hb | ⟨j, hj, hdj, hjp⟩)
        · rcases Bool.or_eq_true_iff.mp hb with hb | hb
          · exact Or.inl hb
          · refine Or.inr ⟨0, by simp, ?_, ?_⟩
            · simp only [List.getD_cons_zero]
              have : b = c := by simpa using hb
              omega
            · omega
        · refine Or.inr ⟨j + 1, by simp; omega, ?_, ?_⟩
          · simpa [List.getD_cons_succ] using hdj
          · omega
      · rintro (hb | ⟨j, hj, hdj, hjp⟩)
        · exact Or.inl (by rw [hb]; simp)
        · match j, hj, hdj, hjp with
          | 0, _, hdj, hjp =>
            simp only [List.getD_cons_zero] at hdj
            subst hdj
            exact Or.inl (by simp)
          | j + 1, hj, hdj, hjp =>
            refine Or.inr ⟨j, by simp at hj; omega, ?_, by omega⟩
            simpa [List.getD_cons_succ] using hdj
    · rw [getD_set_ne hs (i % 4) p (fun h => hpi h.symm)]
      constructor
      · rintro (hb | ⟨j, hj, hdj, hjp⟩)
        · exact Or.inl hb
        · refine Or.inr ⟨j + 1, by simp; omega, ?_, by omega⟩
          simpa [List.getD_cons_succ] using hdj
      · rintro (hb | ⟨j, hj, hdj, hjp⟩)
        · exact Or.inl hb
        · match j, hj, hdj, hjp with
          | 0, _, hdj, hjp =>
            exact absurd (by omega : i % 4 = p) (fun h => hpi h.symm)
          | j + 1, hj, hdj, hjp =>
            refine Or.inr ⟨j, by simp at hj; omega, ?_, by omega⟩
            simpa [List.getD_cons_succ] using hdj

theorem dealHands_lt : ∀ (deck : List Nat) (i : Nat) (hs : List Nat),
    (∀ c ∈ deck, c < 40) → (∀ p, hs.getD p 0 < 2 ^ 40) →
    ∀ p, ((dealHands deck i hs).getD p 0) < 2 ^ 40 := by
  intro deck
  induction deck with
  | nil => intro i hs _ hlt p; exact hlt p
  | cons c rest ih =>
    intro i hs hmem hlt p
    rw [dealHands]
    apply ih
    · intro d hd
      exact hmem d (List.mem_cons_of_mem _ hd)
    · intro q
      rcases Nat.lt_or_ge q hs.length with hq | hq
      · by_cases hqi : q = i % 4
        · subst hqi
          rw [getD_set_self hs _ _ 0 hq]
          exact or_pow_lt_two_pow (hlt _) (hmem c (List.mem_cons_self _ _))
        · rw [getD_set_ne hs _ _ (fun h => hqi h.symm)]
          exact hlt q
      · rw [List.getD_eq_default _ _ (by simpa using hq)]
        positivity

theorem getD_zeros (p : Nat) : ([0, 0, 0, 0] : List Nat).getD p 0 = 0 := by
  match p with
  | 0 => rfl
  | 1 => rfl
  | 2 => rfl
  | 3 => rfl
  | n + 4 =>
    rw [List.getD_eq_default]
    simp

theorem initialEnv_wf (deck : List Nat) (declarer : Nat)
    (hdeck : deck.Perm (List.range 40)) (hdecl : declarer < 4) :
    WF (initialEnv deck declarer) := by
  have hlen40 : deck.length = 40 := by
    have := hdeck.length_eq
    simpa using this
  have hmem : ∀ c ∈ deck, c < 40 := by
    intro c hc
    have := hdeck.mem_iff.mp hc
    simpa using this
  have hnodup : deck.Nodup := hdeck.nodup_iff.mpr (List.nodup_range 40)
  have hzero : ∀ p, ([0, 0, 0, 0] : List Nat).getD p 0 < 2 ^ 40 := by
    intro p
    rw [getD_zeros]
    positivity
  have hchar : ∀ p b, p < 4 →
      (((initialEnv deck declarer).hands.getD p 0).testBit b = true ↔
        ∃ j, j < 40 ∧ deck.getD j 0 = b ∧ j % 4 = p) := by
    intro p b hp
    show ((dealHands deck 0 [0, 0, 0, 0]).getD p 0).testBit b = true ↔ _
    rw [dealHands_testBit deck 0 [0, 0, 0, 0] p b rfl hp]
    rw [getD_zeros]
    simp only [Nat.zero_testBit, Bool.false_eq_true, false_or, hlen40]
    constructor
    · rintro ⟨j, hj, hdj, hjp⟩
      exact ⟨j, hj, hdj, by omega⟩
    · rintro ⟨j, hj, hdj, hjp⟩
      exact ⟨j, hj, hdj, by omega⟩
  have hinj : ∀ j1 j2, j1 < 40 → j2 < 40 → deck.getD j1 0 = deck.getD j2 0 → j1 = j2 := by
    intro j1 j2 h1 h2 he
    rw [List.getD_eq_getElem deck 0 (show j1 < deck.length by omega)] at he
    rw [List.getD_eq_getElem deck 0 (show j2 < deck.length by omega)] at he
    exact hnodup.getElem_inj_iff.mp he
  refine ⟨?_, rfl, rfl, rfl, hdecl, hdecl, (show (0 : Nat) < 4 by decide),
    (show (0 : Nat) ≤ 10 by decide), ?_, ?_, ?_, ?_, ?_, ?_, ?_,
    ?_, ?_, ?_, ?_, ?_, ?_, ?_, ?_⟩
  · -- hands_len
    show (dealHands deck 0 [0, 0, 0, 0]).length = 4
    rw [dealHands_length]
    rfl
  · -- hand_lt
    intro p
    exact dealHands_lt deck 0 [0, 0, 0, 0] hmem hzero p
  · -- played_lt
    positivity
  · -- disj
    intro p q hp hq hpq
    rw [and_eq_zero_iff_testBit]
    intro b ⟨hbp, hbq⟩
    obtain ⟨j1, hj1, hd1, hp1⟩ := (hchar p b hp).mp hbp
    obtain ⟨j2, hj2, hd2, hp2⟩ := (hchar q b hq).mp hbq
    have : j1 = j2 := hinj j1 j2 hj1 hj2 (hd1.trans hd2.symm)
    subst this
    exact hpq (hp1.symm.trans hp2)
  · -- hp_disj
    intro p _
    show _ &&& 0 = 0
    exact Nat.and_zero _
  · -- union
    show _ ||| 0 = FULL_MASK
    rw [Nat.or_zero]
    apply Nat.eq_of_testBit_eq
    intro b
    rw [testBit_FULL_MASK]
    by_cases hb : b < 40
    · simp only [hb, decide_True]
      have : ∃ j, j < 40 ∧ deck.getD j 0 = b := by
        have hbmem : b ∈ deck := hdeck.mem_iff.mpr (by simpa using hb)
        obtain ⟨j, hj, he⟩ := List.mem_iff_getElem.mp hbmem
        exact ⟨j, by omega, by rw [List.getD_eq_getElem deck 0 hj]; exact he⟩
      obtain ⟨j, hj, hje⟩ := this
      have hmem4 : j % 4 < 4 := Nat.mod_lt _ (by decide)
      have := (hchar (j % 4) b hmem4).mpr ⟨j, hj, hje, rfl⟩
      simp only [Nat.testBit_or, Bool.or_eq_true]
      rcases (show j % 4 = 0 ∨ j % 4 = 1 ∨ j % 4 = 2 ∨ j % 4 = 3 by omega) with h | h | h | h <;>
        rw [h] at this
      · exact Or.inl (Or.inl (Or.inl this))
      · exact Or.inl (Or.inl (Or.inr this))
      · exact Or.inl (Or.inr this)
      · exact Or.inr this
    · simp only [hb, decide_False]
      simp only [Nat.testBit_or, Bool.or_eq_false_iff]
      have hnone : ∀ p, p < 4 → ((initialEnv deck declarer).hands.getD p 0).testBit b = false := by
        intro p hp
        rcases Bool.eq_false_or_eq_true (((initialEnv deck declarer).hands.getD p 0).testBit b)
          with h | h
        swap
        · exact h
        · obtain ⟨j, hj, hdj, _⟩ := (hchar p b hp).mp h
          have : deck.getD j 0 ∈ deck := by
            rw [List.getD_eq_getElem deck 0 (by omega)]
            exact List.getElem_mem _
          rw [hdj] at this
          exact absurd (hmem b this) hb
      exact ⟨⟨⟨hnone 0 (by decide), hnone 1 (by decide)⟩, hnone 2 (by decide)⟩,
        hnone 3 (by decide)⟩
  · -- phase0
    intro _
    exact ⟨rfl, rfl, rfl, rfl⟩
  · -- done_iff
    simp [initialEnv]
  · -- lead0
    intro _
    rfl
  · -- lead1
    intro h
    exact absurd rfl h
  · -- slots
    intro i hi
    exact absurd hi (by simp [initialEnv])
  · -- count
    show countMask 0 = 4 * 0 + 0
    rw [countMask_zero]
  · -- ledger
    show 0 + 0 + trickPoints _ = maskPoints 0 + _
    rw [maskPoints_zero]
    simp [trickPoints, initialEnv]
  · -- hist
    intro h hh
    exact absurd hh (by simp [initialEnv])
  · -- void_hist
    intro h hh
    exact absurd hh (by simp [initialEnv])
  · -- void_cur
    intro i hi
    exact absurd hi (by simp [initialEnv])

/-- A legal card action in the play phase is a card of the acting hand. -/
theorem legal_testBit (e : Env) (p a : Nat) (hphase : e.choose_trump_phase = false)
    (ha : a ∈ legalActions e p) : (e.hands.getD p 0).testBit a = true := by
  unfold legalActions at ha
  rw [hphase] at ha
  simp only [Bool.false_eq_true, if_false] at ha
  by_cases h0 : e.trick_len = 0
  · rw [if_pos h0] at ha
    exact (mem_iterCards _ a).mp ha
  · rw [if_neg h0] at ha
    by_cases hled : e.hands.getD p 0 &&& suitMaskAt e.lead_suit ≠ 0
    · rw [if_pos hled] at ha
      have := (mem_iterCards _ a).mp ha
      rw [Nat.testBit_and] at this
      exact (Bool.and_eq_true _ _).mp this |>.1
    · rw [if_neg hled] at ha
      exact (mem_iterCards _ a).mp ha

theorem rangeSum_set (l : List Int) (n : Nat) (c : Int) (hn : n < l.length) :
    ((List.range (n + 1)).map (fun i => cardPoints ((l.set n c).getD i (-1)))).sum =
      ((List.range n).map (fun i => cardPoints (l.getD i (-1)))).sum + cardPoints c := by
  rw [List.range_succ, List.map_append, List.sum_append]
  simp only [List.map_cons, List.map_nil, List.sum_cons, List.sum_nil]
  rw [getD_set_self l n c (-1) hn]
  congr 1
  apply congrArg
  apply List.map_congr_left
  intro i hi
  have : i < n := List.mem_range.mp hi
  rw [getD_set_ne l n i (by omega)]

theorem map_getD_range_sum (f : Int → Nat) : ∀ (l : List Int),
    ((List.range l.length).map (fun i => f (l.getD i (-1)))).sum = (l.map f).sum := by
  intro l
  induction l with
  | nil => rfl
  | cons a t ih =>
    show ((List.range (t.length + 1)).map _).sum = _
    rw [List.range_succ_eq_map]
    simp only [List.map_cons, List.sum_cons, List.map_map]
    show f ((a :: t).getD 0 (-1)) + _ = f a + (t.map f).sum
    rw [List.getD_cons_zero, ← ih]
    rfl

theorem scores_set_sum (sc : List Nat) (hl : sc.length = 2) (t i : Nat) (hi : i < 2) :
    (sc.set i (sc.getD i 0 + t)).getD 0 0 + (sc.set i (sc.getD i 0 + t)).getD 1 0 =
      sc.getD 0 0 + sc.getD 1 0 + t := by
  rcases (show i = 0 ∨ i = 1 by omega) with h | h <;> subst h
  · rw [getD_set_self sc 0 _ 0 (by omega), getD_set_ne sc 0 1 (by omega)]
    omega
  · rw [getD_set_self sc 1 _ 0 (by omega), getD_set_ne sc 1 0 (by omega)]
    omega

theorem scores_set_getD (sc : List Nat) (v : Nat) (i j : Nat) (hi : i < sc.length) :
    (sc.set i v).getD j 0 = if j = i then v else sc.getD j 0 := by
  by_cases h : j = i
  · subst h
    rw [getD_set_self sc j v 0 hi, if_pos rfl]
  · rw [getD_set_ne sc i j (fun hh => h hh.symm), if_neg h]

theorem ledger_if_false (d : Bool) (b : Int) (hd : d = false) :
    (if d = true ∧ (b = 0 ∨ b = 1) then (9 : Nat) else 0) = 0 := by
  simp [hd]

theorem wf_declare (e : Env) (a : Nat) (hwf : WF e) (hphase : e.choose_trump_phase = true) :
    WF { declareTrump e a with current_player := (declareTrump e a).declarer } := by
  obtain ⟨hp0, hp1, hp2, hp3⟩ := hwf.phase0 hphase
  refine ⟨hwf.hands_len, hwf.scores_len, hwf.tc_len, hwf.tp_len, hwf.dcl_lt, hwf.dcl_lt,
    hwf.tl_lt, hwf.ti_le, hwf.hand_lt, hwf.played_lt, hwf.disj, hwf.hp_disj, hwf.union,
    ?_, hwf.done_iff, hwf.lead0, hwf.lead1, hwf.slots, hwf.count, ?_,
    hwf.hist, hwf.void_hist, hwf.void_cur⟩
  · intro h
    have : False := by
      have h2 : ({ declareTrump e a with
        current_player := (declareTrump e a).declarer }).choose_trump_phase = false := rfl
      rw [h] at h2
      exact absurd h2 (by decide)
    exact this.elim
  · have hl := hwf.ledger
    rw [ledger_if_false e.done e.bonus_team hp3] at hl
    have hE : ({ declareTrump e a with
        current_player := (declareTrump e a).declarer }).done = e.done := rfl
    show sumScores e + trickPoints e = maskPoints e.played_mask + _
    rw [ledger_if_false _ _ (hE.trans hp3)]
    exact hl

theorem testBit_suitMaskAt (ls : Int) (h0 : 0 ≤ ls) (h4 : ls < 4) (c : Nat) :
    ((suitMaskAt ls).testBit c = true ↔ (c < 40 ∧ cardSuit (c : Int) = ls)) := by
  unfold suitMaskAt
  have hmod : ls % 4 = ls := Int.emod_eq_of_lt h0 h4
  rw [hmod, testBit_suitMask]
  obtain ⟨s, rfl⟩ : ∃ s : Nat, ls = (s : Int) := ⟨ls.toNat, (Int.toNat_of_nonneg h0).symm⟩
  have hs4 : s < 4 := by exact_mod_cast h4
  rw [Int.toNat_ofNat]
  constructor
  · rintro ⟨hl, hr⟩
    have hc40 : c < 40 := by omega
    refine ⟨hc40, ?_⟩
    rw [cardSuit_ofNat c hc40]
    have : c / 10 = s := by omega
    rw [this]
  · rintro ⟨hc40, hsuit⟩
    rw [cardSuit_ofNat c hc40] at hsuit
    have : c / 10 = s := by exact_mod_cast hsuit
    omega

/-- Playing off the lead suit is only legal when the hand has no card of
the lead suit. -/
theorem legal_offsuit (e : Env) (p a : Nat) (hphase : e.choose_trump_phase = false)
    (htl : e.trick_len ≠ 0) (hl0 : 0 ≤ e.lead_suit) (hl4 : e.lead_suit < 4)
    (ha : a ∈ legalActions e p) (hsuit : cardSuit (a : Int) ≠ e.lead_suit) :
    e.hands.getD p 0 &&& suitMaskAt e.lead_suit = 0 := by
  unfold legalActions at ha
  rw [hphase] at ha
  simp only [Bool.false_eq_true, if_false, if_neg htl] at ha
  by_cases hled : e.hands.getD p 0 &&& suitMaskAt e.lead_suit ≠ 0
  · rw [if_pos hled] at ha
    have hmem := (mem_iterCards _ a).mp ha
    rw [Nat.testBit_and] at hmem
    have h2 := (Bool.and_eq_true _ _).mp hmem |>.2
    have := (testBit_suitMaskAt e.lead_suit hl0 hl4 a).mp h2
    exact absurd this.2 hsuit
  · push_neg at hled
    exact hled

theorem bestEligible_cases (ht : Bool) (trump lead : Int) :
    ∀ (l : List (Nat × Int)) (bi : Nat) (bs : Int),
      bestEligible ht trump lead l bi bs = bi ∨
        ∃ ic ∈ l, bestEligible ht trump lead l bi bs = ic.1 := by
  intro l
  induction l with
  | nil => intro bi bs; exact Or.inl rfl
  | cons hd tl ih =>
    intro bi bs
    obtain ⟨i, c⟩ := hd
    by_cases hskip : (if ht then cardSuit c != trump else cardSuit c != lead) = true
    · rcases ih bi bs with h | ⟨ic, hm, hr⟩
      · exact Or.inl (by simp only [bestEligible, hskip, if_true]; exact h)
      · exact Or.inr ⟨ic, List.mem_cons_of_mem _ hm,
          by simp only [bestEligible, hskip, if_true]; exact hr⟩
    · by_cases hgt : cardStrength c > bs
      · rcases ih i (cardStrength c) with h | ⟨ic, hm, hr⟩
        · exact Or.inr ⟨(i, c), List.mem_cons_self _ _,
            by simp only [bestEligible, hskip, if_false, hgt, if_true]; exact h⟩
        · exact Or.inr ⟨ic, List.mem_cons_of_mem _ hm,
            by simp only [bestEligible, hskip, if_false, hgt, if_true]; exact hr⟩
      · rcases ih bi bs with h | ⟨ic, hm, hr⟩
        · exact Or.inl (by simp only [bestEligible, hskip, if_false, hgt, ite_false]; exact h)
        · exact Or.inr ⟨ic, List.mem_cons_of_mem _ hm,
            by simp only [bestEligible, hskip, if_false, hgt, ite_false]; exact hr⟩

/-- The winner index chosen by the resolution loop lies below 4 when the
trick lists have length 4. -/
theorem resolveTrick_winner_lt (e : Env) (htc : e.trick_cards.length = 4) :
    (let bi := bestEligible (e.trick_cards.any (fun c => cardSuit c == e.trump_suit))
        e.trump_suit e.lead_suit e.trick_cards.enum 0 (-1)
     bi < 4) := by
  rcases bestEligible_cases (e.trick_cards.any (fun c => cardSuit c == e.trump_suit))
      e.trump_suit e.lead_suit e.trick_cards.enum 0 (-1) with h | ⟨ic, hm, hr⟩
  · simp only [h]
    decide
  · simp only [hr]
    have := List.fst_lt_of_mem_enum hm
    omega

theorem resolveTrick_fst_range (e : Env) (htc : e.trick_cards.length = 4)
    (htp : e.trick_players.length = 4)
    (hent : ∀ j, j < 4 → 0 ≤ e.trick_players.getD j (-1) ∧ e.trick_players.getD j (-1) < 4) :
    0 ≤ (resolveTrick e).1 ∧ (resolveTrick e).1 < 4 := by
  have hbi := resolveTrick_winner_lt e htc
  simp only at hbi
  show 0 ≤ e.trick_players.getD _ 0 ∧ e.trick_players.getD _ 0 < 4
  rw [List.getD_eq_getElem e.trick_players 0 (by omega)]
  have := hent _ hbi
  rw [List.getD_eq_getElem e.trick_players (-1) (by omega)] at this
  exact this


set_option maxHeartbeats 1600000 in
theorem wf_play (e : Env) (a : Nat) (hwf : WF e) (hphase : e.choose_trump_phase = false)
    (hdone : e.done = false) (ha : a ∈ legalActions e e.current_player) :
    WF (playCard e e.current_player a) := by
  have hcp : e.current_player < 4 := hwf.cp_lt
  have hbit : (e.hands.getD e.current_player 0).testBit a = true :=
    legal_testBit e e.current_player a hphase ha
  have ha40 : a < 40 :=
    testBit_lt_of_lt_two_pow (hwf.hand_lt e.current_player) hbit
  have hfresh : e.played_mask.testBit a = false := by
    have hd := hwf.hp_disj e.current_player hcp
    rw [and_eq_zero_iff_testBit] at hd
    rcases Bool.eq_false_or_eq_true (e.played_mask.testBit a) with h | h
    · exact absurd ⟨hbit, h⟩ (hd a)
    · exact h
  -- facts of the updated hands and played mask
  have hhl := hwf.hands_len
  have hgetD : ∀ p, (e.hands.set e.current_player
      (e.hands.getD e.current_player 0 ^^^ (1 <<< a))).getD p 0 =
      if p = e.current_player then e.hands.getD e.current_player 0 ^^^ (1 <<< a)
      else e.hands.getD p 0 :=
    fun p => scores_set_getD e.hands _ e.current_player p (by omega)
  have hnewbit : ∀ i, (e.hands.getD e.current_player 0 ^^^ (1 <<< a)).testBit i =
      (((e.hands.getD e.current_player 0).testBit i).xor (decide (i = a))) :=
    fun i => testBit_xor_pow _ a i
  have hsetbit : ∀ p i, ((e.hands.set e.current_player
      (e.hands.getD e.current_player 0 ^^^ (1 <<< a))).getD p 0).testBit i = true →
      ((e.hands.getD p 0).testBit i = true ∧ ¬(p = e.current_player ∧ i = a)) := by
    intro p i hp
    rw [hgetD p] at hp
    by_cases hpc : p = e.current_player
    · rw [if_pos hpc, hnewbit i] at hp
      by_cases hia : i = a
      · subst hia
        rw [hbit] at hp
        simp at hp
      · refine ⟨?_, fun h => hia h.2⟩
        subst hpc
        simpa [hia] using hp
    · rw [if_neg hpc] at hp
      exact ⟨hp, fun h => hpc h.1⟩
  have hdisj2 : ∀ p q, p < 4 → q < 4 → p ≠ q →
      (e.hands.set e.current_player
        (e.hands.getD e.current_player 0 ^^^ (1 <<< a))).getD p 0 &&&
      (e.hands.set e.current_player
        (e.hands.getD e.current_player 0 ^^^ (1 <<< a))).getD q 0 = 0 := by
    intro p q hp hq hpq
    rw [and_eq_zero_iff_testBit]
    intro i ⟨hip, hiq⟩
    have h1 := (hsetbit p i hip).1
    have h2 := (hsetbit q i hiq).1
    have := hwf.disj p q hp hq hpq
    rw [and_eq_zero_iff_testBit] at this
    exact this i ⟨h1, h2⟩
  have hpd2 : ∀ p, p < 4 →
      (e.hands.set e.current_player
        (e.hands.getD e.current_player 0 ^^^ (1 <<< a))).getD p 0 &&&
      (e.played_mask ||| (1 <<< a)) = 0 := by
    intro p hp
    rw [and_eq_zero_iff_testBit]
    intro i ⟨hip, him⟩
    obtain ⟨h1, h2⟩ := hsetbit p i hip
    rw [Nat.testBit_or, testBit_one_shiftLeft] at him
    rcases Bool.or_eq_true_iff.mp him with hm | hm
    · have := hwf.hp_disj p hp
      rw [and_eq_zero_iff_testBit] at this
      exact this i ⟨h1, hm⟩
    · have hia : i = a := by simpa using hm
      subst hia
      by_cases hpc : p = e.current_player
      · exact h2 ⟨hpc, rfl⟩
      · have := hwf.disj p e.current_player hp hcp hpc
        rw [and_eq_zero_iff_testBit] at this
        exact this i ⟨h1, hbit⟩
  have hunion2 :
      (e.hands.set e.current_player
        (e.hands.getD e.current_player 0 ^^^ (1 <<< a))).getD 0 0 |||
      (e.hands.set e.current_player
        (e.hands.getD e.current_player 0 ^^^ (1 <<< a))).getD 1 0 |||
      (e.hands.set e.current_player
        (e.hands.getD e.current_player 0 ^^^ (1 <<< a))).getD 2 0 |||
      (e.hands.set e.current_player
        (e.hands.getD e.current_player 0 ^^^ (1 <<< a))).getD 3 0 |||
      (e.played_mask ||| (1 <<< a)) = FULL_MASK := by
    rw [← hwf.union]
    apply Nat.eq_of_testBit_eq
    intro i
    simp only [Nat.testBit_or, hgetD 0, hgetD 1, hgetD 2, hgetD 3]
    rcases (show e.current_player = 0 ∨ e.current_player = 1 ∨ e.current_player = 2 ∨
        e.current_player = 3 by omega) with h | h | h | h <;>
      rw [h] at hbit hnewbit ⊢ <;>
      simp only [reduceIte] <;>
      rw [hnewbit i, testBit_one_shiftLeft] <;>
      by_cases hia : i = a
    · subst hia; simp at hbit; simp [hbit]
    · simp [hia]
    · subst hia; simp at hbit; simp [hbit]
    · simp [hia]
    · subst hia; simp at hbit; simp [hbit]
    · simp [hia]
    · subst hia; simp at hbit; simp [hbit]
    · simp [hia]
  have hhand_lt2 : ∀ p, (e.hands.set e.current_player
      (e.hands.getD e.current_player 0 ^^^ (1 <<< a))).getD p 0 < 2 ^ 40 := by
    intro p
    rw [hgetD p]
    by_cases hpc : p = e.current_player
    · rw [if_pos hpc]
      exact xor_pow_lt_two_pow (hwf.hand_lt _) ha40
    · rw [if_neg hpc]
      exact hwf.hand_lt p
  have hplayed_lt2 : e.played_mask ||| (1 <<< a) < 2 ^ 40 :=
    or_pow_lt_two_pow hwf.played_lt ha40
  have hcount2 : countMask (e.played_mask ||| (1 <<< a)) =
      countMask e.played_mask + 1 := countMask_or _ a ha40 hfresh
  have hmaskpts2 : maskPoints (e.played_mask ||| (1 <<< a)) =
      maskPoints e.played_mask + cardPoints (a : Int) := maskPoints_or _ a ha40 hfresh
  have herase : ∀ m, e.hands.getD e.current_player 0 &&& m = 0 →
      (e.hands.getD e.current_player 0 ^^^ (1 <<< a)) &&& m = 0 :=
    fun m hm => erase_preserves_disjoint _ m a hm hbit
  have hvoidpres : ∀ (pp : Int) (m : Nat),
      e.hands.getD pp.toNat 0 &&& m = 0 →
      (e.hands.set e.current_player
        (e.hands.getD e.current_player 0 ^^^ (1 <<< a))).getD pp.toNat 0 &&& m = 0 := by
    intro pp m hm
    rw [hgetD]
    by_cases hpc : pp.toNat = e.current_player
    · rw [if_pos hpc]
      rw [hpc] at hm
      exact herase m hm
    · rw [if_neg hpc]
      exact hm
  have Hphase0 : e.choose_trump_phase = true →
      e.played_mask ||| (1 <<< a) = 0 ∧ e.trick_len + 1 = 0 ∧ e.trick_index = 0 ∧
        e.done = false := by
    intro h
    rw [hphase] at h
    exact absurd h (by decide)
  have Hlead0 : e.trick_len + 1 = 0 → (if e.trick_len = 0 then cardSuit ((a : Nat) : Int)
      else e.lead_suit) = -1 := by
    intro h
    exact absurd h (by omega)
  have Hlead1 : e.trick_len + 1 ≠ 0 →
      (if e.trick_len = 0 then cardSuit ((a : Nat) : Int) else e.lead_suit) =
        cardSuit ((e.trick_cards.set e.trick_len ((a : Nat) : Int)).getD 0 (-1)) ∧
      (0 ≤ (if e.trick_len = 0 then cardSuit ((a : Nat) : Int) else e.lead_suit)) ∧
      ((if e.trick_len = 0 then cardSuit ((a : Nat) : Int) else e.lead_suit) < 4) := by
    intro _
    have hanonneg : (0 : Int) ≤ ((a : Nat) : Int) := Int.natCast_nonneg a
    have ha40i : ((a : Nat) : Int) < 40 := by exact_mod_cast ha40
    by_cases h0 : e.trick_len = 0
    · rw [if_pos h0, h0,
        getD_set_self e.trick_cards 0 ((a : Nat) : Int) (-1) (by rw [hwf.tc_len]; omega)]
      exact ⟨rfl, (cardSuit_range _ hanonneg ha40i).1, (cardSuit_range _ hanonneg ha40i).2⟩
    · rw [if_neg h0,
        getD_set_ne e.trick_cards e.trick_len 0 (by omega) ((a : Nat) : Int) (-1)]
      exact hwf.lead1 h0
  have Hslots : ∀ i, i < e.trick_len + 1 →
      0 ≤ (e.trick_cards.set e.trick_len ((a : Nat) : Int)).getD i (-1) ∧
      (e.trick_cards.set e.trick_len ((a : Nat) : Int)).getD i (-1) < 40 ∧
      0 ≤ (e.trick_players.set e.trick_len ((e.current_player : Nat) : Int)).getD i (-1) ∧
      (e.trick_players.set e.trick_len ((e.current_player : Nat) : Int)).getD i (-1) < 4 ∧
      (e.played_mask ||| (1 <<< a)).testBit
        ((e.trick_cards.set e.trick_len ((a : Nat) : Int)).getD i (-1)).toNat = true := by
    intro i hi
    by_cases hitl : i < e.trick_len
    · obtain ⟨s1, s2, s3, s4, s5⟩ := hwf.slots i hitl
      rw [getD_set_ne e.trick_cards e.trick_len i (by omega) ((a : Nat) : Int) (-1)]
      rw [getD_set_ne e.trick_players e.trick_len i (by omega)
        ((e.current_player : Nat) : Int) (-1)]
      refine ⟨s1, s2, s3, s4, ?_⟩
      rw [Nat.testBit_or, s5]
      rfl
    · have hieq : i = e.trick_len := by omega
      rw [hieq]
      rw [getD_set_self e.trick_cards e.trick_len ((a : Nat) : Int) (-1)
        (by rw [hwf.tc_len]; exact hwf.tl_lt)]
      rw [getD_set_self e.trick_players e.trick_len ((e.current_player : Nat) : Int) (-1)
        (by rw [hwf.tp_len]; exact hwf.tl_lt)]
      refine ⟨by omega, by omega, by omega, by omega, ?_⟩
      rw [Int.toNat_ofNat]
      rw [Nat.testBit_or, testBit_one_shiftLeft]
      simp
  have Hcount : countMask (e.played_mask ||| (1 <<< a)) =
      4 * e.trick_index + (e.trick_len + 1) := by
    rw [hcount2, hwf.count]
    omega
  have Hledger : sumScores e + ((List.range (e.trick_len + 1)).map
        (fun i => cardPoints ((e.trick_cards.set e.trick_len ((a : Nat) : Int)).getD i (-1)))).sum =
      maskPoints (e.played_mask ||| (1 <<< a)) +
        (if e.done = true ∧ (e.bonus_team = 0 ∨ e.bonus_team = 1) then 9 else 0) := by
    rw [rangeSum_set e.trick_cards e.trick_len _ (by rw [hwf.tc_len]; exact hwf.tl_lt)]
    rw [hmaskpts2, ledger_if_false _ _ hdone]
    have hl := hwf.ledger
    rw [ledger_if_false _ _ hdone] at hl
    unfold trickPoints at hl
    omega
  have Hvoid_hist : ∀ h ∈ e.trick_history, ∀ j, j < 4 →
      cardSuit (h.2.2.getD j (-1)) ≠ h.1 →
      (e.hands.set e.current_player
        (e.hands.getD e.current_player 0 ^^^ (1 <<< a))).getD (h.2.1.getD j (-1)).toNat 0 &&&
        suitMaskAt h.1 = 0 := by
    intro h hh j hj hsuit
    exact hvoidpres _ _ (hwf.void_hist h hh j hj hsuit)
  have Hvoid_cur : ∀ i, i < e.trick_len + 1 →
      cardSuit ((e.trick_cards.set e.trick_len ((a : Nat) : Int)).getD i (-1)) ≠
        (if e.trick_len = 0 then cardSuit ((a : Nat) : Int) else e.lead_suit) →
      (e.hands.set e.current_player
        (e.hands.getD e.current_player 0 ^^^ (1 <<< a))).getD
          ((e.trick_players.set e.trick_len
            ((e.current_player : Nat) : Int)).getD i (-1)).toNat 0 &&&
        suitMaskAt (if e.trick_len = 0 then cardSuit ((a : Nat) : Int) else e.lead_suit) =
        0 := by
    intro i hi hsuit
    by_cases h0 : e.trick_len = 0
    · exfalso
      have hi1 : i = 0 := by omega
      apply hsuit
      rw [hi1, if_pos h0, h0,
        getD_set_self e.trick_cards 0 ((a : Nat) : Int) (-1) (by rw [hwf.tc_len]; omega)]
    · rw [if_neg h0] at hsuit ⊢
      obtain ⟨hle, hl0, hl4⟩ := hwf.lead1 h0
      by_cases hitl : i < e.trick_len
      · rw [getD_set_ne e.trick_cards e.trick_len i (by omega) ((a : Nat) : Int) (-1)] at hsuit
        rw [getD_set_ne e.trick_players e.trick_len i (by omega)
          ((e.current_player : Nat) : Int) (-1)]
        exact hvoidpres _ _ (hwf.void_cur i hitl hsuit)
      · have hieq : i = e.trick_len := by omega
        rw [hieq] at hsuit ⊢
        rw [getD_set_self e.trick_cards e.trick_len ((a : Nat) : Int) (-1)
          (by rw [hwf.tc_len]; exact hwf.tl_lt)] at hsuit
        rw [getD_set_self e.trick_players e.trick_len ((e.current_player : Nat) : Int) (-1)
          (by rw [hwf.tp_len]; exact hwf.tl_lt)]
        have hv := legal_offsuit e e.current_player a hphase h0 hl0 hl4 ha hsuit
        have := hvoidpres ((e.current_player : Nat) : Int) (suitMaskAt e.lead_suit)
          (by rw [Int.toNat_ofNat]; exact hv)
        exact this
  by_cases hlt : e.trick_len + 1 < 4
  · -- the trick is not yet full
    have hres1 : playCard e e.current_player a = { e with
        hands := e.hands.set e.current_player
          (e.hands.getD e.current_player 0 ^^^ (1 <<< a)),
        played_mask := e.played_mask ||| (1 <<< a),
        trick_cards := e.trick_cards.set e.trick_len ((a : Nat) : Int),
        trick_players := e.trick_players.set e.trick_len ((e.current_player : Nat) : Int),
        trick_len := e.trick_len + 1,
        lead_suit := if e.trick_len = 0 then cardSuit ((a : Nat) : Int) else e.lead_suit,
        current_player := (e.current_player + 1) % 4 } := by
      simp only [playCard, if_pos hlt]
    rw [hres1]
    exact ⟨by simpa using hhl, hwf.scores_len, by simpa using hwf.tc_len,
      by simpa using hwf.tp_len, Nat.mod_lt _ (by decide), hwf.dcl_lt, hlt, hwf.ti_le,
      hhand_lt2, hplayed_lt2, hdisj2, hpd2, hunion2, Hphase0, hwf.done_iff, Hlead0, Hlead1,
      Hslots, Hcount, Hledger, hwf.hist, Hvoid_hist, Hvoid_cur⟩
  · -- the fourth card completes the trick: it is resolved
    have htl3 : e.trick_len = 3 := by
      have := hwf.tl_lt
      omega
    set nh : List Nat := e.hands.set e.current_player
      (e.hands.getD e.current_player 0 ^^^ (1 <<< a)) with hnh
    set np : Nat := e.played_mask ||| (1 <<< a) with hnp
    set tc1 : List Int := e.trick_cards.set e.trick_len ((a : Nat) : Int) with htc1
    set tp1 : List Int := e.trick_players.set e.trick_len
      ((e.current_player : Nat) : Int) with htp1
    set ls1 : Int := (if e.trick_len = 0 then cardSuit ((a : Nat) : Int) else e.lead_suit)
      with hls1
    set E1 : Env := { e with
      hands := nh
      played_mask := np
      trick_cards := tc1
      trick_players := tp1
      trick_len := e.trick_len + 1
      lead_suit := ls1 } with hE1
    set w : Int := (resolveTrick E1).1 with hw
    set th : Nat := (resolveTrick E1).2 with hth
    set tm : Nat := (teamOf w).toNat with htm
    set sc1 : List Nat := e.scores_thirds.set tm (e.scores_thirds.getD tm 0 + th) with hsc1
    set hist1 : List (Int × List Int × List Int) :=
      e.trick_history ++ [(ls1, tp1, tc1)] with hhist1
    have hres2 : playCard e e.current_player a =
        (if e.trick_index + 1 = 10 then
          (if e.bonus_team = 0 ∨ e.bonus_team = 1 then
            { e with
              hands := nh
              played_mask := np
              trick_cards := [-1, -1, -1, -1]
              trick_players := [-1, -1, -1, -1]
              trick_len := 0
              lead_suit := -1
              trick_index := e.trick_index + 1
              current_player := w.toNat
              trick_history := hist1
              scores_thirds := sc1.set e.bonus_team.toNat (sc1.getD e.bonus_team.toNat 0 + 9)
              done := true }
          else
            { e with
              hands := nh
              played_mask := np
              trick_cards := [-1, -1, -1, -1]
              trick_players := [-1, -1, -1, -1]
              trick_len := 0
              lead_suit := -1
              trick_index := e.trick_index + 1
              current_player := w.toNat
              trick_history := hist1
              scores_thirds := sc1
              done := true })
        else
          { e with
            hands := nh
            played_mask := np
            trick_cards := [-1, -1, -1, -1]
            trick_players := [-1, -1, -1, -1]
            trick_len := 0
            lead_suit := -1
            trick_index := e.trick_index + 1
            current_player := w.toNat
            trick_history := hist1
            scores_thirds := sc1 }) := by
      simp only [playCard, if_neg hlt]
    have htc1len : tc1.length = 4 := by
      rw [htc1]
      simpa using hwf.tc_len
    have htp1len : tp1.length = 4 := by
      rw [htp1]
      simpa using hwf.tp_len
    have htp1ent : ∀ j, j < 4 → 0 ≤ tp1.getD j (-1) ∧ tp1.getD j (-1) < 4 := by
      intro j hj
      rcases Nat.lt_or_ge j e.trick_len with hjl | hjg
      · rw [htp1, getD_set_ne e.trick_players e.trick_len j (by omega)
          ((e.current_player : Nat) : Int) (-1)]
        obtain ⟨_, _, s3, s4, _⟩ := hwf.slots j hjl
        exact ⟨s3, s4⟩
      · have hj3 : j = e.trick_len := by omega
        rw [hj3, htp1, getD_set_self e.trick_players e.trick_len
          ((e.current_player : Nat) : Int) (-1) (by rw [hwf.tp_len]; exact hwf.tl_lt)]
        exact ⟨by omega, by omega⟩
    have hw4 : 0 ≤ w ∧ w < 4 := by
      rw [hw]
      exact resolveTrick_fst_range E1 htc1len htp1len htp1ent
    have hthv : th = (tc1.map cardPoints).sum := by
      rw [hth]
      rfl
    have hth2 : th = trickPoints e + cardPoints ((a : Nat) : Int) := by
      rw [hthv, ← map_getD_range_sum cardPoints tc1, htc1len]
      have hrs := rangeSum_set e.trick_cards e.trick_len ((a : Nat) : Int)
        (by rw [hwf.tc_len]; exact hwf.tl_lt)
      rw [htl3] at hrs
      rw [show (4 : Nat) = 3 + 1 from rfl]
      rw [htc1, htl3]
      have htpe : trickPoints e =
          ((List.range 3).map (fun i => cardPoints (e.trick_cards.getD i (-1)))).sum := by
        unfold trickPoints
        rw [htl3]
      rw [htpe]
      exact hrs
    have hsum1 : sc1.getD 0 0 + sc1.getD 1 0 = sumScores e + th := by
      rw [hsc1]
      have := scores_set_sum e.scores_thirds hwf.scores_len th tm
        (by rw [htm]; exact teamOf_toNat_lt w)
      rw [this]
      rfl
    have hsc1len : sc1.length = 2 := by
      rw [hsc1]
      simpa using hwf.scores_len
    have hti9 : e.trick_index ≤ 9 := by
      have hd := hwf.done_iff
      have hne : ¬ (e.trick_index = 10) := by
        intro h
        have := hd.mpr h
        rw [hdone] at this
        exact absurd this (by decide)
      have := hwf.ti_le
      omega
    have hcount4 : countMask np = 4 * (e.trick_index + 1) + 0 := by
      rw [Hcount]
      omega
    have hled0 : sumScores e + trickPoints e + cardPoints ((a : Nat) : Int) =
        maskPoints np := by
      have hl := hwf.ledger
      rw [ledger_if_false _ _ hdone] at hl
      omega
    have hls1e : ls1 = e.lead_suit := by
      rw [hls1, if_neg (by omega : ¬ (e.trick_len = 0))]
    have hlsr := hwf.lead1 (by omega : e.trick_len ≠ 0)
    have hentry : ∀ j, j < 4 → 0 ≤ tp1.getD j (-1) ∧ tp1.getD j (-1) < 4 ∧
        0 ≤ tc1.getD j (-1) ∧ tc1.getD j (-1) < 40 := by
      intro j hj
      obtain ⟨c1, c2, c3, c4, _⟩ := Hslots j (by omega)
      exact ⟨c3, c4, c1, c2⟩
    have hvoid_new : ∀ j, j < 4 → cardSuit (tc1.getD j (-1)) ≠ ls1 →
        nh.getD (tp1.getD j (-1)).toNat 0 &&& suitMaskAt ls1 = 0 := by
      intro j hj hs
      exact Hvoid_cur j (by omega) hs
    have hhist_all : ∀ h ∈ hist1, 0 ≤ h.1 ∧ h.1 < 4 ∧ h.2.1.length = 4 ∧ h.2.2.length = 4 ∧
        ∀ j, j < 4 → 0 ≤ h.2.1.getD j (-1) ∧ h.2.1.getD j (-1) < 4 ∧
          0 ≤ h.2.2.getD j (-1) ∧ h.2.2.getD j (-1) < 40 := by
      intro h hh
      rw [hhist1] at hh
      rcases List.mem_append.mp hh with hold | hnew
      · exact hwf.hist h hold
      · rw [List.mem_singleton] at hnew
        subst hnew
        refine ⟨by rw [hls1e]; exact hlsr.2.1, by rw [hls1e]; exact hlsr.2.2,
          htp1len, htc1len, hentry⟩
    have hvoid_all : ∀ h ∈ hist1, ∀ j, j < 4 →
        cardSuit (h.2.2.getD j (-1)) ≠ h.1 →
        nh.getD (h.2.1.getD j (-1)).toNat 0 &&& suitMaskAt h.1 = 0 := by
      intro h hh j hj hs
      rw [hhist1] at hh
      rcases List.mem_append.mp hh with hold | hnew
      · exact hvoidpres _ _ (hwf.void_hist h hold j hj hs)
      · rw [List.mem_singleton] at hnew
        subst hnew
        exact hvoid_new j hj hs
    have hphaseF : e.choose_trump_phase ≠ true := by
      rw [hphase]
      decide
    by_cases hti : e.trick_index + 1 = 10
    · by_cases hb : e.bonus_team = 0 ∨ e.bonus_team = 1
      · rw [hres2, if_pos hti, if_pos hb]
        have hbt2 : e.bonus_team.toNat < 2 := by
          rcases hb with h | h <;> rw [h] <;> decide
        have hsum2 : (sc1.set e.bonus_team.toNat (sc1.getD e.bonus_team.toNat 0 + 9)).getD 0 0 +
            (sc1.set e.bonus_team.toNat (sc1.getD e.bonus_team.toNat 0 + 9)).getD 1 0 =
            sumScores e + th + 9 := by
          have := scores_set_sum sc1 hsc1len 9 e.bonus_team.toNat hbt2
          omega
        refine ⟨by rw [hnh]; simpa using hhl, by simpa using hsc1len, rfl, rfl,
          by show w.toNat < 4; omega, hwf.dcl_lt, (by decide : (0 : Nat) < 4),
          (by omega : e.trick_index + 1 ≤ 10),
          hhand_lt2, hplayed_lt2, hdisj2, hpd2, hunion2, fun h => absurd h hphaseF,
          ⟨fun _ => hti, fun _ => rfl⟩, fun _ => rfl, fun h => absurd rfl h,
          fun i hi => absurd hi (by omega : ¬ i < 0), hcount4, ?_, hhist_all, hvoid_all,
          fun i hi => absurd hi (by omega : ¬ i < 0)⟩
        show (sc1.set e.bonus_team.toNat (sc1.getD e.bonus_team.toNat 0 + 9)).getD 0 0 +
            (sc1.set e.bonus_team.toNat (sc1.getD e.bonus_team.toNat 0 + 9)).getD 1 0 +
            ((List.range 0).map
              (fun i => cardPoints (([-1, -1, -1, -1] : List Int).getD i (-1)))).sum =
          maskPoints np + (if true = true ∧ (e.bonus_team = 0 ∨ e.bonus_team = 1) then 9 else 0)
        rw [if_pos ⟨rfl, hb⟩]
        simp only [List.range_zero, List.map_nil, List.sum_nil]
        omega
      · rw [hres2, if_pos hti, if_neg hb]
        refine ⟨by rw [hnh]; simpa using hhl, hsc1len, rfl, rfl,
          by show w.toNat < 4; omega, hwf.dcl_lt, (by decide : (0 : Nat) < 4),
          (by omega : e.trick_index + 1 ≤ 10),
          hhand_lt2, hplayed_lt2, hdisj2, hpd2, hunion2, fun h => absurd h hphaseF,
          ⟨fun _ => hti, fun _ => rfl⟩, fun _ => rfl, fun h => absurd rfl h,
          fun i hi => absurd hi (by omega : ¬ i < 0), hcount4, ?_, hhist_all, hvoid_all,
          fun i hi => absurd hi (by omega : ¬ i < 0)⟩
        show sc1.getD 0 0 + sc1.getD 1 0 +
            ((List.range 0).map
              (fun i => cardPoints (([-1, -1, -1, -1] : List Int).getD i (-1)))).sum =
          maskPoints np + (if true = true ∧ (e.bonus_team = 0 ∨ e.bonus_team = 1) then 9 else 0)
        rw [if_neg (fun hcon => hb hcon.2)]
        simp only [List.range_zero, List.map_nil, List.sum_nil]
        omega
    · rw [hres2, if_neg hti]
      refine ⟨by rw [hnh]; simpa using hhl, hsc1len, rfl, rfl,
        by show w.toNat < 4; omega, hwf.dcl_lt, (by decide : (0 : Nat) < 4),
        (by omega : e.trick_index + 1 ≤ 10),
        hhand_lt2, hplayed_lt2, hdisj2, hpd2, hunion2, fun h => absurd h hphaseF, ?_, fun _ => rfl,
        fun h => absurd rfl h,
        fun i hi => absurd hi (by omega : ¬ i < 0), hcount4, ?_, hhist_all, hvoid_all,
        fun i hi => absurd hi (by omega : ¬ i < 0)⟩
      · constructor
        · intro h
          rw [hdone] at h
          exact absurd h (by decide)
        · intro h
          exact absurd h hti
      · show sc1.getD 0 0 + sc1.getD 1 0 +
            ((List.range 0).map
              (fun i => cardPoints (([-1, -1, -1, -1] : List Int).getD i (-1)))).sum =
          maskPoints np + (if e.done = true ∧ (e.bonus_team = 0 ∨ e.bonus_team = 1) then 9 else 0)
        rw [ledger_if_false _ _ hdone]
        simp only [List.range_zero, List.map_nil, List.sum_nil]
        omega

/-- One step preserves the invariant when the action is legal. -/
theorem wf_step (e : Env) (a : Nat) (hwf : WF e)
    (ha : a ∈ legalActions e e.current_player) : WF (stepEnv e a) := by
  by_cases hd : e.done = true
  · have hstep : stepEnv e a = e := by
      simp [stepEnv, hd]
    rw [hstep]
    exact hwf
  · have hd2 : e.done = false := by
      rcases Bool.eq_false_or_eq_true e.done with h | h
      · exact absurd h hd
      · exact h
    by_cases hp : e.choose_trump_phase = true
    · have hstep : stepEnv e a =
          { declareTrump e a with current_player := (declareTrump e a).declarer } := by
        simp [stepEnv, hd2, hp]
      rw [hstep]
      exact wf_declare e a hwf hp
    · have hp2 : e.choose_trump_phase = false := by
        rcases Bool.eq_false_or_eq_true e.choose_trump_phase with h | h
        · exact absurd h hp
        · exact h
      have hstep : stepEnv e a = playCard e e.current_player a := by
        simp [stepEnv, hd2, hp2]
      rw [hstep]
      exact wf_play e a hwf hp2 hd2 ha

/-- Every reachable state satisfies the invariant. -/
theorem reachable_wf (e : Env) (hr : Reachable e) : WF e := by
  induction hr with
  | init deck declarer hdeck hdecl => exact initialEnv_wf deck declarer hdeck hdecl
  | step e a hr ha ih => exact wf_step e a ih ha

/-- C4: in every reachable state, the four hand masks are pairwise disjoint,
each is disjoint from the played-card mask, and their union with the played
mask is the full 40-card set. -/
theorem C4_hand_partition (e : Env) (hr : Reachable e) :
    (∀ p q, p < 4 → q < 4 → p ≠ q → e.hands.getD p 0 &&& e.hands.getD q 0 = 0) ∧
    (∀ p, p < 4 → e.hands.getD p 0 &&& e.played_mask = 0) ∧
    (e.hands.getD 0 0 ||| e.hands.getD 1 0 ||| e.hands.getD 2 0 ||| e.hands.getD 3 0 |||
      e.played_mask = FULL_MASK) := by
  have hwf := reachable_wf e hr
  exact ⟨hwf.disj, hwf.hp_disj, hwf.union⟩

theorem C4_hand_partition_witness :
    Reachable (initialEnv (List.range 40) 0) ∧
    ((∀ p q, p < 4 → q < 4 → p ≠ q →
        (initialEnv (List.range 40) 0).hands.getD p 0 &&&
          (initialEnv (List.range 40) 0).hands.getD q 0 = 0) ∧
      (∀ p, p < 4 → (initialEnv (List.range 40) 0).hands.getD p 0 &&&
        (initialEnv (List.range 40) 0).played_mask = 0) ∧
      ((initialEnv (List.range 40) 0).hands.getD 0 0 |||
        (initialEnv (List.range 40) 0).hands.getD 1 0 |||
        (initialEnv (List.range 40) 0).hands.getD 2 0 |||
        (initialEnv (List.range 40) 0).hands.getD 3 0 |||
        (initialEnv (List.range 40) 0).played_mask = FULL_MASK)) :=
  have hr : Reachable (initialEnv (List.range 40) 0) :=
    Reachable.init (List.range 40) 0 (List.Perm.refl _) (by decide)
  ⟨hr, C4_hand_partition (initialEnv (List.range 40) 0) hr⟩

/-! ## Concrete runs: a deck, an action script, and a legality checker. -/

/-- A concrete deck: position i carries card (i % 4) * 10 + i / 4, so player
p is dealt exactly the ten cards of suit p. -/
def demoDeck : List Nat := (List.range 40).map (fun i => (i % 4) * 10 + i / 4)

/-- Iterated stepping through a list of actions. -/
def runActs : Env → List Nat → Env
  | e, [] => e
  | e, a :: rest => runActs (stepEnv e a) rest

/-- Checks that every action of the list is legal for the player to move at
the state where it is taken. -/
def legalRun : Env → List Nat → Bool
  | _, [] => true
  | e, a :: rest => decide (a ∈ legalActions e e.current_player) && legalRun (stepEnv e a) rest

theorem runActs_reachable (e : Env) (hr : Reachable e) :
    ∀ acts : List Nat, legalRun e acts = true → Reachable (runActs e acts) := by
  intro acts
  induction acts generalizing e hr with
  | nil => intro _; exact hr
  | cons a rest ih =>
      intro hl
      rw [legalRun, Bool.and_eq_true] at hl
      exact ih (stepEnv e a) (Reachable.step e a hr (of_decide_eq_true hl.1)) hl.2

/-- Always play the first listed legal action. -/
def greedyActs : Env → Nat → List Nat
  | _, 0 => []
  | e, n + 1 =>
      let a := (legalActions e e.current_player).headD 0
      a :: greedyActs (stepEnv e a) n

def demoEnv : Env := initialEnv demoDeck 0

def demoActs : List Nat := greedyActs demoEnv 41

def demoFinal : Env := runActs demoEnv demoActs

/-- In a terminal state satisfying the invariant, the scores sum to the total
point mass of the deck, 32 thirds, plus 9 for a bonus team if one is set. -/
theorem done_sumScores (e : Env) (hwf : WF e) (hd : e.done = true) :
    sumScores e = 32 + (if e.bonus_team = 0 ∨ e.bonus_team = 1 then 9 else 0) := by
  have hti := hwf.done_iff.mp hd
  have hcount := hwf.count
  have hle := countMask_le e.played_mask
  rw [hti] at hcount
  have htl0 : e.trick_len = 0 := by omega
  have hfull : e.played_mask = FULL_MASK :=
    eq_FULL_of_countMask e.played_mask hwf.played_lt (by omega)
  have hled := hwf.ledger
  have htp : trickPoints e = 0 := by
    unfold trickPoints
    rw [htl0]
    rfl
  rw [hfull, htp] at hled
  have hmp : maskPoints FULL_MASK = 32 := by decide
  rw [hmp] at hled
  by_cases hb : e.bonus_team = 0 ∨ e.bonus_team = 1
  · rw [if_pos hb]
    rw [if_pos ⟨hd, hb⟩] at hled
    omega
  · rw [if_neg hb]
    rw [if_neg (fun hc => hb hc.2)] at hled
    omega

/-- C2 (corrected): in every terminal reachable state, the two team scores in
thirds sum to 32 — the whole deck is worth 32 thirds, not 120 — plus 9 thirds
when a bonus team was set. -/
theorem C2_score_conservation (e : Env) (hr : Reachable e) (hd : e.done = true) :
    sumScores e = 32 + (if e.bonus_team = 0 ∨ e.bonus_team = 1 then 9 else 0) :=
  done_sumScores e (reachable_wf e hr) hd

theorem C2_score_conservation_witness :
    Reachable demoFinal ∧ demoFinal.done = true ∧
      sumScores demoFinal =
        32 + (if demoFinal.bonus_team = 0 ∨ demoFinal.bonus_team = 1 then 9 else 0) :=
  have hr : Reachable demoFinal :=
    runActs_reachable demoEnv (Reachable.init demoDeck 0 (by decide) (by decide))
      demoActs (by decide)
  ⟨hr, by decide, C2_score_conservation demoFinal hr (by decide)⟩

/-- A full hand played to the terminal state using only legal actions whose
final scores sum to 41 thirds, not 120 plus the bonus: the claim's total of
120 is impossible, the deck only carries 32 thirds of points. -/
theorem C2_score_conservation_cex :
    Reachable demoFinal ∧ demoFinal.done = true ∧
      sumScores demoFinal ≠
        120 + (if demoFinal.bonus_team = 0 ∨ demoFinal.bonus_team = 1 then 9 else 0) :=
  ⟨runActs_reachable demoEnv (Reachable.init demoDeck 0 (by decide) (by decide))
      demoActs (by decide),
   by decide, by decide⟩

/-- The demo state right after the trump declaration: play phase, empty trick. -/
def demoPlay : Env := runActs demoEnv (greedyActs demoEnv 1)

/-- C3: in a play-phase state, an action is legal for player p exactly when
it is a card of p's hand that moreover matches the lead suit whenever the
trick is non-empty and p still holds a card of the lead suit; leading or
holding no lead-suit card allows the whole hand. -/
theorem C3_legal_actions (e : Env) (p a : Nat) (hr : Reachable e)
    (hphase : e.choose_trump_phase = false) (hdone : e.done = false) (hp : p < 4) :
    a ∈ legalActions e p ↔
      ((e.hands.getD p 0).testBit a = true ∧
        (e.trick_len ≠ 0 → e.hands.getD p 0 &&& suitMaskAt e.lead_suit ≠ 0 →
          cardSuit ((a : Nat) : Int) = e.lead_suit)) := by
  have hwf := reachable_wf e hr
  constructor
  · intro ha
    refine ⟨legal_testBit e p a hphase ha, ?_⟩
    intro htl hled
    obtain ⟨-, hl0, hl4⟩ := hwf.lead1 htl
    by_contra hsuit
    exact hled (legal_offsuit e p a hphase htl hl0 hl4 ha hsuit)
  · rintro ⟨hbit, himp⟩
    have ha40 : a < 40 := testBit_lt_of_lt_two_pow (hwf.hand_lt p) hbit
    unfold legalActions
    rw [hphase]
    simp only [Bool.false_eq_true, if_false]
    by_cases h0 : e.trick_len = 0
    · rw [if_pos h0]
      exact (mem_iterCards _ a).mpr hbit
    · rw [if_neg h0]
      by_cases hled : e.hands.getD p 0 &&& suitMaskAt e.lead_suit ≠ 0
      · rw [if_pos hled]
        obtain ⟨-, hl0, hl4⟩ := hwf.lead1 h0
        refine (mem_iterCards _ a).mpr ?_
        rw [Nat.testBit_and, hbit,
          (testBit_suitMaskAt e.lead_suit hl0 hl4 a).mpr ⟨ha40, himp h0 hled⟩]
        rfl
      · rw [if_neg hled]
        exact (mem_iterCards _ a).mpr hbit

theorem C3_legal_actions_witness :
    Reachable demoPlay ∧ demoPlay.choose_trump_phase = false ∧ demoPlay.done = false ∧
      (0 ∈ legalActions demoPlay 0 ↔
        ((demoPlay.hands.getD 0 0).testBit 0 = true ∧
          (demoPlay.trick_len ≠ 0 →
            demoPlay.hands.getD 0 0 &&& suitMaskAt demoPlay.lead_suit ≠ 0 →
            cardSuit ((0 : Nat) : Int) = demoPlay.lead_suit))) :=
  have hr : Reachable demoPlay :=
    runActs_reachable demoEnv (Reachable.init demoDeck 0 (by decide) (by decide))
      (greedyActs demoEnv 1) (by decide)
  ⟨hr, by decide, by decide,
    C3_legal_actions demoPlay 0 0 hr (by decide) (by decide) (by decide)⟩

/-- C5 (corrected): step performs no legality check at all. Applying an
action outside legal_actions in the play phase silently proceeds: the state
changes, the XOR removal toggles the unheld card INTO the hand, and the card
is marked as played. No error value exists anywhere in the transition
function. -/
theorem C5_invalid_action (e : Env) (a : Nat)
    (hphase : e.choose_trump_phase = false) (hdone : e.done = false)
    (hcp : e.current_player < e.hands.length) (htl : e.trick_len + 1 < 4)
    (hbit : (e.hands.getD e.current_player 0).testBit a = false) :
    a ∉ legalActions e e.current_player ∧ stepEnv e a ≠ e ∧
      ((stepEnv e a).hands.getD e.current_player 0).testBit a = true ∧
      (stepEnv e a).played_mask.testBit a = true := by
  have hstep : stepEnv e a = playCard e e.current_player a := by
    simp [stepEnv, hdone, hphase]
  have hres : stepEnv e a = { e with
      hands := e.hands.set e.current_player (e.hands.getD e.current_player 0 ^^^ (1 <<< a))
      played_mask := e.played_mask ||| (1 <<< a)
      trick_cards := e.trick_cards.set e.trick_len ((a : Nat) : Int)
      trick_players := e.trick_players.set e.trick_len ((e.current_player : Nat) : Int)
      trick_len := e.trick_len + 1
      lead_suit := if e.trick_len = 0 then cardSuit ((a : Nat) : Int) else e.lead_suit
      current_player := (e.current_player + 1) % 4 } := by
    rw [hstep]
    simp only [playCard, if_pos htl]
  refine ⟨?_, ?_, ?_, ?_⟩
  · intro h
    have := legal_testBit e e.current_player a hphase h
    rw [hbit] at this
    exact absurd this (by decide)
  · have h1 : (stepEnv e a).trick_len = e.trick_len + 1 := by rw [hres]
    intro hEq
    rw [hEq] at h1
    omega
  · rw [hres]
    show ((e.hands.set e.current_player
      (e.hands.getD e.current_player 0 ^^^ (1 <<< a))).getD e.current_player 0).testBit a = true
    rw [getD_set_self e.hands e.current_player _ 0 hcp, testBit_xor_pow, hbit]
    simp
  · rw [hres]
    show (e.played_mask ||| (1 <<< a)).testBit a = true
    rw [Nat.testBit_or, testBit_one_shiftLeft]
    simp

/-- A concrete play-phase state for C5: each player holds one card, player 0
holds only card 1 (mask 2), so card 0 is not legal for player 0. -/
def witEnvC5 : Env :=
  { hands := [2, 4, 8, 16]
    current_player := 0
    declarer := 0
    choose_trump_phase := false
    trump_suit := 0
    trick_cards := [-1, -1, -1, -1]
    trick_players := [-1, -1, -1, -1]
    trick_len := 0
    lead_suit := -1
    trick_index := 9
    scores_thirds := [16, 16]
    bonus_team := -1
    played_mask := 0xFFFFFFFEE
    trick_history := []
    done := false }

/-- Counterexample to C5 as written: stepping the illegal action 0 raises no
error and does not leave the state unchanged — it silently toggles card 0
into player 0's hand and marks it played. -/
theorem C5_invalid_action_cex :
    0 ∉ legalActions witEnvC5 witEnvC5.current_player ∧
      stepEnv witEnvC5 0 ≠ witEnvC5 ∧
      ((stepEnv witEnvC5 0).hands.getD witEnvC5.current_player 0).testBit 0 = true ∧
      (stepEnv witEnvC5 0).played_mask.testBit 0 = true := by
  decide

theorem C5_invalid_action_witness :
    (witEnvC5.choose_trump_phase = false ∧ witEnvC5.done = false ∧
      witEnvC5.current_player < witEnvC5.hands.length ∧ witEnvC5.trick_len + 1 < 4 ∧
      (witEnvC5.hands.getD witEnvC5.current_player 0).testBit 3 = false) ∧
    (3 ∉ legalActions witEnvC5 witEnvC5.current_player ∧ stepEnv witEnvC5 3 ≠ witEnvC5 ∧
      ((stepEnv witEnvC5 3).hands.getD witEnvC5.current_player 0).testBit 3 = true ∧
      (stepEnv witEnvC5 3).played_mask.testBit 3 = true) :=
  ⟨⟨by decide, by decide, by decide, by decide, by decide⟩,
    C5_invalid_action witEnvC5 3 (by decide) (by decide) (by decide) (by decide) (by decide)⟩

/-! ## C6: bonus team at trump declaration, bonus credit on the last trick. -/

/-- Spec-side predicate: team t (players t and t+2) together hold all three
top-ranked cards of suit s — ranks 3, 2 and the ace, i.e. card ids s*10,
s*10+1, s*10+2. -/
def teamHoldsMaraffa (e : Env) (t s : Nat) : Prop :=
  ∀ r, r < 3 → (e.hands.getD t 0 ||| e.hands.getD (t + 2) 0).testBit (s * 10 + r) = true

theorem and_eq_self_iff_subset (t m : Nat) :
    t &&& m = m ↔ ∀ i, m.testBit i = true → t.testBit i = true := by
  constructor
  · intro h i hm
    have hbit := congrArg (fun x => x.testBit i) h
    simp only [Nat.testBit_and] at hbit
    rw [hm] at hbit
    simpa using hbit
  · intro h
    apply Nat.eq_of_testBit_eq
    intro i
    rw [Nat.testBit_and]
    cases hm : m.testBit i
    · simp
    · simp [h i hm]

theorem testBit_maraffaMask (s i : Nat) :
    (maraffaMask s).testBit i = true ↔ (i = s * 10 ∨ i = s * 10 + 1 ∨ i = s * 10 + 2) := by
  unfold maraffaMask
  simp only [Nat.testBit_or, testBit_one_shiftLeft, Bool.or_eq_true, decide_eq_true_eq]
  rw [or_assoc]

theorem holds_mask_iff (e : Env) (t s : Nat) :
    (e.hands.getD t 0 ||| e.hands.getD (t + 2) 0) &&& maraffaMask s = maraffaMask s ↔
      teamHoldsMaraffa e t s := by
  rw [and_eq_self_iff_subset]
  constructor
  · intro h r hr
    exact h _ ((testBit_maraffaMask s (s * 10 + r)).mpr (by omega))
  · intro h i hbit
    rw [testBit_maraffaMask] at hbit
    rcases hbit with h0 | h1 | h2
    · rw [h0]
      simpa using h 0 (by decide)
    · rw [h1]
      exact h 1 (by decide)
    · rw [h2]
      exact h 2 (by decide)

/-- The intermediate state e1 of _play_card once the fourth card is on the
table, before the trick is resolved. -/
def trickEnv1 (e : Env) (a : Nat) : Env :=
  { e with
    hands := e.hands.set e.current_player (e.hands.getD e.current_player 0 ^^^ (1 <<< a))
    played_mask := e.played_mask ||| (1 <<< a)
    trick_cards := e.trick_cards.set e.trick_len ((a : Nat) : Int)
    trick_players := e.trick_players.set e.trick_len ((e.current_player : Nat) : Int)
    trick_len := e.trick_len + 1
    lead_suit := if e.trick_len = 0 then cardSuit ((a : Nat) : Int) else e.lead_suit }

/-- The score list after the trick value is credited to the winner's team. -/
def scoresAfterTrick (e : Env) (a : Nat) : List Nat :=
  e.scores_thirds.set (teamOf (resolveTrick (trickEnv1 e a)).1).toNat
    (e.scores_thirds.getD (teamOf (resolveTrick (trickEnv1 e a)).1).toNat 0 +
      (resolveTrick (trickEnv1 e a)).2)

theorem playCard_complete_eq (e : Env) (a : Nat) (hlt : ¬ e.trick_len + 1 < 4) :
    playCard e e.current_player a =
      (if e.trick_index + 1 = 10 then
        (if e.bonus_team = 0 ∨ e.bonus_team = 1 then
          { trickEnv1 e a with
            trick_cards := [-1, -1, -1, -1]
            trick_players := [-1, -1, -1, -1]
            trick_len := 0
            lead_suit := -1
            trick_index := e.trick_index + 1
            current_player := (resolveTrick (trickEnv1 e a)).1.toNat
            trick_history := e.trick_history ++
              [((trickEnv1 e a).lead_suit, (trickEnv1 e a).trick_players,
                (trickEnv1 e a).trick_cards)]
            scores_thirds := (scoresAfterTrick e a).set e.bonus_team.toNat
              ((scoresAfterTrick e a).getD e.bonus_team.toNat 0 + 9)
            done := true }
        else
          { trickEnv1 e a with
            trick_cards := [-1, -1, -1, -1]
            trick_players := [-1, -1, -1, -1]
            trick_len := 0
            lead_suit := -1
            trick_index := e.trick_index + 1
            current_player := (resolveTrick (trickEnv1 e a)).1.toNat
            trick_history := e.trick_history ++
              [((trickEnv1 e a).lead_suit, (trickEnv1 e a).trick_players,
                (trickEnv1 e a).trick_cards)]
            scores_thirds := scoresAfterTrick e a
            done := true })
      else
        { trickEnv1 e a with
          trick_cards := [-1, -1, -1, -1]
          trick_players := [-1, -1, -1, -1]
          trick_len := 0
          lead_suit := -1
          trick_index := e.trick_index + 1
          current_player := (resolveTrick (trickEnv1 e a)).1.toNat
          trick_history := e.trick_history ++
            [((trickEnv1 e a).lead_suit, (trickEnv1 e a).trick_players,
              (trickEnv1 e a).trick_cards)]
          scores_thirds := scoresAfterTrick e a }) := by
  simp only [playCard, if_neg hlt]
  rfl

theorem playCard_complete (e : Env) (a : Nat) (hlt : ¬ e.trick_len + 1 < 4) :
    (playCard e e.current_player a).done =
      (if e.trick_index + 1 = 10 then true else e.done) ∧
    (playCard e e.current_player a).scores_thirds =
      (if e.trick_index + 1 = 10 ∧ (e.bonus_team = 0 ∨ e.bonus_team = 1) then
        (scoresAfterTrick e a).set e.bonus_team.toNat
          ((scoresAfterTrick e a).getD e.bonus_team.toNat 0 + 9)
       else scoresAfterTrick e a) := by
  rw [playCard_complete_eq e a hlt]
  by_cases hti : e.trick_index + 1 = 10 <;> by_cases hb : e.bonus_team = 0 ∨ e.bonus_team = 1 <;>
    constructor <;> simp [hti, hb, trickEnv1]

theorem scoresAfterTrick_len (e : Env) (a : Nat) (hl : e.scores_thirds.length = 2) :
    (scoresAfterTrick e a).length = 2 := by
  unfold scoresAfterTrick
  simpa using hl

theorem scoresAfterTrick_sum (e : Env) (a : Nat) (hl : e.scores_thirds.length = 2) :
    (scoresAfterTrick e a).getD 0 0 + (scoresAfterTrick e a).getD 1 0 =
      sumScores e + (resolveTrick (trickEnv1 e a)).2 := by
  unfold scoresAfterTrick
  rw [scores_set_sum e.scores_thirds hl _ _ (teamOf_toNat_lt _)]
  rfl

theorem resolveTrick_trickEnv1_snd (e : Env) (a : Nat) (htc : e.trick_cards.length = 4)
    (htl : e.trick_len = 3) :
    (resolveTrick (trickEnv1 e a)).2 = trickPoints e + cardPoints ((a : Nat) : Int) := by
  show ((e.trick_cards.set e.trick_len ((a : Nat) : Int)).map cardPoints).sum = _
  rw [htl]
  have h1 := map_getD_range_sum cardPoints (e.trick_cards.set 3 ((a : Nat) : Int))
  have hlen2 : (e.trick_cards.set 3 ((a : Nat) : Int)).length = 4 := by simpa using htc
  rw [← h1, hlen2]
  have h2 := rangeSum_set e.trick_cards 3 ((a : Nat) : Int) (by omega)
  rw [show (4 : Nat) = 3 + 1 from rfl, h2]
  have htpe : trickPoints e =
      ((List.range 3).map (fun i => cardPoints (e.trick_cards.getD i (-1)))).sum := by
    unfold trickPoints
    rw [htl]
  rw [htpe]

/-- C6: (1) declaring trump sets bonus_team to 0 when players 0 and 2
together hold the three maraffa cards of the trump suit, to 1 when they do
not but players 1 and 3 do, and to -1 otherwise; (2) when the fourth card of
the tenth trick is played the state becomes terminal and, entry by entry,
the trick value is credited to the winning team's score slot while 9 thirds
go to the bonus team's own slot (if a bonus team is set) and every other
slot is untouched; consequently the score total grows by the trick value
plus 9 thirds with a bonus team, by the trick value alone otherwise. -/
theorem C6_bonus_team :
    (∀ (e : Env) (s : Nat),
      ((declareTrump e s).bonus_team = 0 ↔ teamHoldsMaraffa e 0 s) ∧
      ((declareTrump e s).bonus_team = 1 ↔
        (¬ teamHoldsMaraffa e 0 s ∧ teamHoldsMaraffa e 1 s)) ∧
      ((declareTrump e s).bonus_team = -1 ↔
        (¬ teamHoldsMaraffa e 0 s ∧ ¬ teamHoldsMaraffa e 1 s))) ∧
    (∀ (e : Env) (a : Nat), e.scores_thirds.length = 2 → e.trick_cards.length = 4 →
      e.trick_len = 3 → e.trick_index = 9 →
      (playCard e e.current_player a).done = true ∧
      (∀ t, t < 2 →
        (playCard e e.current_player a).scores_thirds.getD t 0 =
          e.scores_thirds.getD t 0 +
          (if t = (teamOf (resolveTrick (trickEnv1 e a)).1).toNat
            then (resolveTrick (trickEnv1 e a)).2 else 0) +
          (if (e.bonus_team = 0 ∨ e.bonus_team = 1) ∧ t = e.bonus_team.toNat
            then 9 else 0)) ∧
      ((e.bonus_team = 0 ∨ e.bonus_team = 1) →
        sumScores (playCard e e.current_player a) =
          sumScores e + trickPoints e + cardPoints ((a : Nat) : Int) + 9) ∧
      (¬ (e.bonus_team = 0 ∨ e.bonus_team = 1) →
        sumScores (playCard e e.current_player a) =
          sumScores e + trickPoints e + cardPoints ((a : Nat) : Int))) := by
  constructor
  · intro e s
    have h0 := holds_mask_iff e 0 s
    have h1 := holds_mask_iff e 1 s
    have hbt : (declareTrump e s).bonus_team =
        (if (e.hands.getD 0 0 ||| e.hands.getD 2 0) &&& maraffaMask s = maraffaMask s then 0
         else if (e.hands.getD 1 0 ||| e.hands.getD 3 0) &&& maraffaMask s = maraffaMask s
           then (1 : Int) else -1) := rfl
    by_cases c0 : (e.hands.getD 0 0 ||| e.hands.getD 2 0) &&& maraffaMask s = maraffaMask s
    · have hb : (declareTrump e s).bonus_team = 0 := by rw [hbt, if_pos c0]
      have hh0 : teamHoldsMaraffa e 0 s := h0.mp c0
      refine ⟨⟨fun _ => hh0, fun _ => hb⟩, ?_, ?_⟩
      · constructor
        · intro h
          rw [hb] at h
          exact absurd h (by decide)
        · rintro ⟨hn0, -⟩
          exact absurd hh0 hn0
      · constructor
        · intro h
          rw [hb] at h
          exact absurd h (by decide)
        · rintro ⟨hn0, -⟩
          exact absurd hh0 hn0
    · have hn0 : ¬ teamHoldsMaraffa e 0 s := fun h => c0 (h0.mpr h)
      by_cases c1 : (e.hands.getD 1 0 ||| e.hands.getD 3 0) &&& maraffaMask s = maraffaMask s
      · have hb : (declareTrump e s).bonus_team = 1 := by rw [hbt, if_neg c0, if_pos c1]
        have hh1 : teamHoldsMaraffa e 1 s := h1.mp c1
        refine ⟨?_, ⟨fun _ => ⟨hn0, hh1⟩, fun _ => hb⟩, ?_⟩
        · constructor
          · intro h
            rw [hb] at h
            exact absurd h (by decide)
          · intro h
            exact absurd h hn0
        · constructor
          · intro h
            rw [hb] at h
            exact absurd h (by decide)
          · rintro ⟨-, hn1⟩
            exact absurd hh1 hn1
      · have hb : (declareTrump e s).bonus_team = -1 := by rw [hbt, if_neg c0, if_neg c1]
        have hn1 : ¬ teamHoldsMaraffa e 1 s := fun h => c1 (h1.mpr h)
        refine ⟨?_, ?_, ⟨fun _ => ⟨hn0, hn1⟩, fun _ => hb⟩⟩
        · constructor
          · intro h
            rw [hb] at h
            exact absurd h (by decide)
          · intro h
            exact absurd h hn0
        · constructor
          · intro h
            rw [hb] at h
            exact absurd h (by decide)
          · rintro ⟨-, hh1⟩
            exact absurd hh1 hn1
  · intro e a hsl htc htl3 hti9
    have hlt : ¬ e.trick_len + 1 < 4 := by omega
    have hpc := playCard_complete e a hlt
    have hti10 : e.trick_index + 1 = 10 := by omega
    have hsum1 := scoresAfterTrick_sum e a hsl
    have hsnd := resolveTrick_trickEnv1_snd e a htc htl3
    have hslen := scoresAfterTrick_len e a hsl
    have hsat_getD : ∀ u : Nat, (scoresAfterTrick e a).getD u 0 =
        if u = (teamOf (resolveTrick (trickEnv1 e a)).1).toNat
        then e.scores_thirds.getD (teamOf (resolveTrick (trickEnv1 e a)).1).toNat 0 +
          (resolveTrick (trickEnv1 e a)).2
        else e.scores_thirds.getD u 0 := by
      intro u
      unfold scoresAfterTrick
      exact scores_set_getD e.scores_thirds _ _ u (by rw [hsl]; exact teamOf_toNat_lt _)
    refine ⟨?_, ?_, ?_, ?_⟩
    · rw [hpc.1, if_pos hti10]
    · intro t ht2
      by_cases hb : e.bonus_team = 0 ∨ e.bonus_team = 1
      · have hsc := hpc.2
        rw [if_pos ⟨hti10, hb⟩] at hsc
        have hbt2 : e.bonus_team.toNat < 2 := by
          rcases hb with h | h <;> rw [h] <;> decide
        rw [hsc, scores_set_getD (scoresAfterTrick e a) _ e.bonus_team.toNat t
          (by rw [hslen]; exact hbt2)]
        by_cases htb : t = e.bonus_team.toNat
        · rw [if_pos htb, htb,
            if_pos (⟨hb, rfl⟩ : (e.bonus_team = 0 ∨ e.bonus_team = 1) ∧
              e.bonus_team.toNat = e.bonus_team.toNat),
            hsat_getD e.bonus_team.toNat]
          by_cases hw : e.bonus_team.toNat = (teamOf (resolveTrick (trickEnv1 e a)).1).toNat
          · rw [if_pos hw, if_pos hw, hw] <;> omega
          · rw [if_neg hw, if_neg hw] <;> omega
        · rw [if_neg htb,
            if_neg (show ¬ ((e.bonus_team = 0 ∨ e.bonus_team = 1) ∧
              t = e.bonus_team.toNat) from fun hc => htb hc.2),
            hsat_getD t]
          by_cases hw : t = (teamOf (resolveTrick (trickEnv1 e a)).1).toNat
          · rw [if_pos hw, if_pos hw, hw] <;> omega
          · rw [if_neg hw, if_neg hw] <;> omega
      · have hsc := hpc.2
        rw [if_neg (fun hc => hb hc.2)] at hsc
        rw [hsc,
          if_neg (show ¬ ((e.bonus_team = 0 ∨ e.bonus_team = 1) ∧
            t = e.bonus_team.toNat) from fun hc => hb hc.1),
          hsat_getD t]
        by_cases hw : t = (teamOf (resolveTrick (trickEnv1 e a)).1).toNat
        · rw [if_pos hw, if_pos hw, hw] <;> omega
        · rw [if_neg hw, if_neg hw] <;> omega
    · intro hb
      have hsc := hpc.2
      rw [if_pos ⟨hti10, hb⟩] at hsc
      have hbt2 : e.bonus_team.toNat < 2 := by
        rcases hb with h | h <;> rw [h] <;> decide
      have h9 := scores_set_sum (scoresAfterTrick e a) hslen 9 e.bonus_team.toNat hbt2
      show (playCard e e.current_player a).scores_thirds.getD 0 0 +
          (playCard e e.current_player a).scores_thirds.getD 1 0 =
        sumScores e + trickPoints e + cardPoints ((a : Nat) : Int) + 9
      rw [hsc, h9, hsum1, hsnd]
      omega
    · intro hb
      have hsc := hpc.2
      rw [if_neg (fun hc => hb hc.2)] at hsc
      show (playCard e e.current_player a).scores_thirds.getD 0 0 +
          (playCard e e.current_player a).scores_thirds.getD 1 0 =
        sumScores e + trickPoints e + cardPoints ((a : Nat) : Int)
      rw [hsc, hsum1, hsnd]
      omega

/-- A concrete state on the last card of the tenth trick, bonus team 0. -/
def witEnvC6 : Env :=
  { hands := [0, 0, 0, 1 <<< 33]
    current_player := 3
    declarer := 0
    choose_trump_phase := false
    trump_suit := 0
    trick_cards := [0, 11, 22, -1]
    trick_players := [0, 1, 2, -1]
    trick_len := 3
    lead_suit := 0
    trick_index := 9
    scores_thirds := [10, 12]
    bonus_team := 0
    played_mask := FULL_MASK ^^^ (1 <<< 33) ^^^ (1 <<< 0) ^^^ (1 <<< 11) ^^^ (1 <<< 22)
    trick_history := []
    done := false }

theorem C6_bonus_team_witness :
    ((declareTrump demoEnv 0).bonus_team = 0 ↔ teamHoldsMaraffa demoEnv 0 0) ∧
    (witEnvC6.scores_thirds.length = 2 ∧ witEnvC6.trick_cards.length = 4 ∧
      witEnvC6.trick_len = 3 ∧ witEnvC6.trick_index = 9 ∧
      (playCard witEnvC6 witEnvC6.current_player 33).done = true ∧
      (∀ t, t < 2 →
        (playCard witEnvC6 witEnvC6.current_player 33).scores_thirds.getD t 0 =
          witEnvC6.scores_thirds.getD t 0 +
          (if t = (teamOf (resolveTrick (trickEnv1 witEnvC6 33)).1).toNat
            then (resolveTrick (trickEnv1 witEnvC6 33)).2 else 0) +
          (if (witEnvC6.bonus_team = 0 ∨ witEnvC6.bonus_team = 1) ∧
              t = witEnvC6.bonus_team.toNat then 9 else 0)) ∧
      ((witEnvC6.bonus_team = 0 ∨ witEnvC6.bonus_team = 1) →
        sumScores (playCard witEnvC6 witEnvC6.current_player 33) =
          sumScores witEnvC6 + trickPoints witEnvC6 + cardPoints ((33 : Nat) : Int) + 9)) :=
  ⟨(C6_bonus_team.1 demoEnv 0).1,
    by decide, by decide, by decide, by decide,
    (C6_bonus_team.2 witEnvC6 33 (by decide) (by decide) (by decide) (by decide)).1,
    (C6_bonus_team.2 witEnvC6 33 (by decide) (by decide) (by decide) (by decide)).2.1,
    (C6_bonus_team.2 witEnvC6 33 (by decide) (by decide) (by decide) (by decide)).2.2.1⟩

/-! ## C9: void-suit inference (hero._public_void_suits) is sound. -/

/-- The observation dictionary env.obs(player) as a structure. -/
structure Obs where
  current_player : Nat
  declarer : Nat
  choose_trump_phase : Bool
  trump_suit : Int
  trick_cards : List Int
  trick_players : List Int
  trick_len : Nat
  lead_suit : Int
  trick_index : Nat
  scores_thirds : List Nat
  bonus_team : Int
  played_mask : Nat
  trick_history : List (Int × List Int × List Int)
  done : Bool
  player : Nat
  hand_mask : Nat
deriving DecidableEq

def obsOf (e : Env) (player : Nat) : Obs :=
  { current_player := e.current_player
    declarer := e.declarer
    choose_trump_phase := e.choose_trump_phase
    trump_suit := e.trump_suit
    trick_cards := e.trick_cards
    trick_players := e.trick_players
    trick_len := e.trick_len
    lead_suit := e.lead_suit
    trick_index := e.trick_index
    scores_thirds := e.scores_thirds
    bonus_team := e.bonus_team
    played_mask := e.played_mask
    trick_history := e.trick_history
    done := e.done
    player := player
    hand_mask := e.hands.getD player 0 }

def voidInit : List (List Bool) :=
  [[false, false, false, false], [false, false, false, false],
   [false, false, false, false], [false, false, false, false]]

/-- void[p][ls] = True (Python list indexing emulated with emod 4). -/
def markVoid (v : List (List Bool)) (p ls : Int) : List (List Bool) :=
  v.set (p.emod 4).toNat ((v.getD (p.emod 4).toNat []).set (ls.emod 4).toNat true)

/-- The body of the history loop of _public_void_suits for one (p, c) pair. -/
def markVoidEntry (ls : Int) (v : List (List Bool)) (pc : Int × Int) : List (List Bool) :=
  if pc.2 < 0 then v
  else if cardSuit pc.2 ≠ ls then markVoid v pc.1 ls
  else v

def voidFromHistory : List (Int × List Int × List Int) → List (List Bool) → List (List Bool)
  | [], v => v
  | h :: rest, v => voidFromHistory rest ((h.2.1.zip h.2.2).foldl (markVoidEntry h.1) v)

/-- The body of the current-trick loop of _public_void_suits for index i. -/
def markVoidCur (o : Obs) (v : List (List Bool)) (i : Nat) : List (List Bool) :=
  if 0 ≤ o.trick_cards.getD i (-1) ∧ cardSuit (o.trick_cards.getD i (-1)) ≠ o.lead_suit then
    markVoid v (o.trick_players.getD i (-1)) o.lead_suit
  else v

/-- _public_void_suits(obs). -/
def publicVoidSuits (o : Obs) : List (List Bool) :=
  let v1 := voidFromHistory o.trick_history voidInit
  if 0 < o.trick_len then (List.range o.trick_len).foldl (markVoidCur o) v1 else v1

def voidAt (v : List (List Bool)) (p s : Nat) : Bool := (v.getD p []).getD s false

theorem row_false (s : Nat) : ([false, false, false, false] : List Bool).getD s false = false := by
  rcases s with _ | _ | _ | _ | s <;> rfl

theorem voidInit_false (p s : Nat) : voidAt voidInit p s = false := by
  unfold voidAt voidInit
  rcases p with _ | _ | _ | _ | p
  · exact row_false s
  · exact row_false s
  · exact row_false s
  · exact row_false s
  · rfl

theorem markVoid_inv (v : List (List Bool)) (p0 ls : Int) (p s : Nat)
    (h : voidAt (markVoid v p0 ls) p s = true) :
    voidAt v p s = true ∨ ((p0.emod 4).toNat = p ∧ (ls.emod 4).toNat = s) := by
  unfold voidAt markVoid at h
  by_cases hP : (p0.emod 4).toNat = p
  · by_cases hS : (ls.emod 4).toNat = s
    · exact Or.inr ⟨hP, hS⟩
    · left
      rw [hP] at h
      rcases Nat.lt_or_ge p v.length with hlen | hlen
      · rw [getD_set_self v p _ [] hlen] at h
        rw [getD_set_ne _ _ _ hS] at h
        exact h
      · rw [List.getD_eq_default (v.set p ((v.getD p []).set (ls.emod 4).toNat true)) []
            (by rw [List.length_set]; omega)] at h
        exact absurd (show (false : Bool) = true from h) (by decide)
  · left
    rw [getD_set_ne v _ p hP] at h
    exact h

theorem markVoidEntry_inv (ls : Int) (v : List (List Bool)) (pc : Int × Int) (p s : Nat)
    (h : voidAt (markVoidEntry ls v pc) p s = true) :
    voidAt v p s = true ∨
      (0 ≤ pc.2 ∧ cardSuit pc.2 ≠ ls ∧ (pc.1.emod 4).toNat = p ∧ (ls.emod 4).toNat = s) := by
  unfold markVoidEntry at h
  by_cases hc : pc.2 < 0
  · rw [if_pos hc] at h
    exact Or.inl h
  · rw [if_neg hc] at h
    by_cases hsuit : cardSuit pc.2 ≠ ls
    · rw [if_pos hsuit] at h
      rcases markVoid_inv v pc.1 ls p s h with h1 | ⟨h2, h3⟩
      · exact Or.inl h1
      · exact Or.inr ⟨by omega, hsuit, h2, h3⟩
    · rw [if_neg hsuit] at h
      exact Or.inl h

theorem foldl_markVoidEntry_inv (ls : Int) :
    ∀ (l : List (Int × Int)) (v : List (List Bool)) (p s : Nat),
      voidAt (l.foldl (markVoidEntry ls) v) p s = true →
      voidAt v p s = true ∨
        ∃ pc ∈ l, 0 ≤ pc.2 ∧ cardSuit pc.2 ≠ ls ∧ (pc.1.emod 4).toNat = p ∧
          (ls.emod 4).toNat = s := by
  intro l
  induction l with
  | nil =>
      intro v p s h
      exact Or.inl h
  | cons pc rest ih =>
      intro v p s h
      rw [List.foldl_cons] at h
      rcases ih (markVoidEntry ls v pc) p s h with h1 | ⟨x, hx, hprops⟩
      · rcases markVoidEntry_inv ls v pc p s h1 with h2 | h3
        · exact Or.inl h2
        · exact Or.inr ⟨pc, List.mem_cons_self pc rest, h3⟩
      · exact Or.inr ⟨x, List.mem_cons_of_mem pc hx, hprops⟩

theorem voidFromHistory_inv :
    ∀ (hist : List (Int × List Int × List Int)) (v : List (List Bool)) (p s : Nat),
      voidAt (voidFromHistory hist v) p s = true →
      voidAt v p s = true ∨
        ∃ h ∈ hist, ∃ pc ∈ h.2.1.zip h.2.2, 0 ≤ pc.2 ∧ cardSuit pc.2 ≠ h.1 ∧
          (pc.1.emod 4).toNat = p ∧ (h.1.emod 4).toNat = s := by
  intro hist
  induction hist with
  | nil =>
      intro v p s h
      exact Or.inl h
  | cons hd rest ih =>
      intro v p s h
      simp only [voidFromHistory] at h
      rcases ih _ p s h with h1 | ⟨x, hx, rest2⟩
      · rcases foldl_markVoidEntry_inv hd.1 (hd.2.1.zip hd.2.2) v p s h1 with h2 | ⟨pc, hpc, hpr⟩
        · exact Or.inl h2
        · exact Or.inr ⟨hd, List.mem_cons_self hd rest, pc, hpc, hpr⟩
      · exact Or.inr ⟨x, List.mem_cons_of_mem hd hx, rest2⟩

theorem markVoidCur_inv (o : Obs) (v : List (List Bool)) (i : Nat) (p s : Nat)
    (h : voidAt (markVoidCur o v i) p s = true) :
    voidAt v p s = true ∨
      (0 ≤ o.trick_cards.getD i (-1) ∧ cardSuit (o.trick_cards.getD i (-1)) ≠ o.lead_suit ∧
        ((o.trick_players.getD i (-1)).emod 4).toNat = p ∧
        (o.lead_suit.emod 4).toNat = s) := by
  unfold markVoidCur at h
  by_cases hc : 0 ≤ o.trick_cards.getD i (-1) ∧
      cardSuit (o.trick_cards.getD i (-1)) ≠ o.lead_suit
  · rw [if_pos hc] at h
    rcases markVoid_inv v _ _ p s h with h1 | ⟨h2, h3⟩
    · exact Or.inl h1
    · exact Or.inr ⟨hc.1, hc.2, h2, h3⟩
  · rw [if_neg hc] at h
    exact Or.inl h

theorem foldl_markVoidCur_inv (o : Obs) :
    ∀ (idxs : List Nat) (v : List (List Bool)) (p s : Nat),
      voidAt (idxs.foldl (markVoidCur o) v) p s = true →
      voidAt v p s = true ∨
        ∃ i ∈ idxs, 0 ≤ o.trick_cards.getD i (-1) ∧
          cardSuit (o.trick_cards.getD i (-1)) ≠ o.lead_suit ∧
          ((o.trick_players.getD i (-1)).emod 4).toNat = p ∧
          (o.lead_suit.emod 4).toNat = s := by
  intro idxs
  induction idxs with
  | nil =>
      intro v p s h
      exact Or.inl h
  | cons i rest ih =>
      intro v p s h
      rw [List.foldl_cons] at h
      rcases ih (markVoidCur o v i) p s h with h1 | ⟨x, hx, hprops⟩
      · rcases markVoidCur_inv o v i p s h1 with h2 | h3
        · exact Or.inl h2
        · exact Or.inr ⟨i, List.mem_cons_self i rest, h3⟩
      · exact Or.inr ⟨x, List.mem_cons_of_mem i hx, hprops⟩

theorem mem_zip_getD : ∀ {l1 l2 : List Int} {pc : Int × Int}, pc ∈ l1.zip l2 →
    ∃ j, j < l1.length ∧ j < l2.length ∧ l1.getD j (-1) = pc.1 ∧ l2.getD j (-1) = pc.2 := by
  intro l1
  induction l1 with
  | nil =>
      intro l2 pc h
      simp [List.zip] at h
  | cons a t ih =>
      intro l2 pc h
      cases l2 with
      | nil => simp [List.zip] at h
      | cons b t2 =>
          rw [List.zip_cons_cons] at h
          rcases List.mem_cons.mp h with h1 | h2
          · subst h1
            exact ⟨0, Nat.succ_pos _, Nat.succ_pos _, rfl, rfl⟩
          · obtain ⟨j, hj1, hj2, hp, hc⟩ := ih h2
            exact ⟨j + 1, Nat.succ_lt_succ hj1, Nat.succ_lt_succ hj2, hp, hc⟩

/-- The hands update of _play_card, on every control path. -/
theorem playCard_hands (e : Env) (p a : Nat) :
    (playCard e p a).hands = e.hands.set p (e.hands.getD p 0 ^^^ (1 <<< a)) := by
  simp only [playCard]
  split
  · rfl
  · split
    · split
      · rfl
      · rfl
    · rfl

theorem stepEnv_hands_mask (e : Env) (a : Nat) (ha : a ∈ legalActions e e.current_player)
    (p m : Nat) (h : e.hands.getD p 0 &&& m = 0) :
    (stepEnv e a).hands.getD p 0 &&& m = 0 := by
  by_cases hd : e.done = true
  · have hstep : stepEnv e a = e := by simp [stepEnv, hd]
    rw [hstep]
    exact h
  · have hd2 : e.done = false := by
      rcases Bool.eq_false_or_eq_true e.done with hh | hh
      · exact absurd hh hd
      · exact hh
    by_cases hp : e.choose_trump_phase = true
    · have hstep : stepEnv e a =
          { declareTrump e a with current_player := (declareTrump e a).declarer } := by
        simp [stepEnv, hd2, hp]
      rw [hstep]
      exact h
    · have hp2 : e.choose_trump_phase = false := by
        rcases Bool.eq_false_or_eq_true e.choose_trump_phase with hh | hh
        · exact absurd hh hp
        · exact hh
      have hstep : stepEnv e a = playCard e e.current_player a := by
        simp [stepEnv, hd2, hp2]
      rw [hstep, playCard_hands]
      by_cases hpc : e.current_player = p
      · subst hpc
        rcases Nat.lt_or_ge e.current_player e.hands.length with hlen | hlen
        · rw [getD_set_self e.hands e.current_player _ 0 hlen]
          exact erase_preserves_disjoint _ _ a h (legal_testBit e e.current_player a hp2 ha)
        · rw [List.getD_eq_default _ _ (by rw [List.length_set]; omega)]
          exact Nat.zero_and m
      · rw [getD_set_ne e.hands _ _ hpc]
        exact h

/-- Cards of a given suit never reappear in a hand that lost them, along any
legal continuation. -/
theorem hands_mask_monotone (p m : Nat) :
    ∀ (acts : List Nat) (e : Env), legalRun e acts = true →
      e.hands.getD p 0 &&& m = 0 → (runActs e acts).hands.getD p 0 &&& m = 0 := by
  intro acts
  induction acts with
  | nil =>
      intro e _ h
      exact h
  | cons a rest ih =>
      intro e hl h
      rw [legalRun, Bool.and_eq_true] at hl
      exact ih (stepEnv e a) hl.2 (stepEnv_hands_mask e a (of_decide_eq_true hl.1) p m h)

/-- C9: if public void inference marks player p void in suit s in a
reachable state, then p's hand holds no card of suit s, and along every
legal continuation no legal action of p is a card of suit s. -/
theorem C9_void_inference (e : Env) (me : Nat) (p s : Nat) (hr : Reachable e)
    (hv : voidAt (publicVoidSuits (obsOf e me)) p s = true) :
    e.hands.getD p 0 &&& suitMaskAt ((s : Nat) : Int) = 0 ∧
      ∀ acts, legalRun e acts = true →
        (runActs e acts).choose_trump_phase = false →
        ∀ a ∈ legalActions (runActs e acts) p,
          cardSuit ((a : Nat) : Int) ≠ ((s : Nat) : Int) := by
  have hwf := reachable_wf e hr
  have hmain : e.hands.getD p 0 &&& suitMaskAt ((s : Nat) : Int) = 0 ∧ s < 4 := by
    unfold publicVoidSuits at hv
    have hcases : voidAt (voidFromHistory e.trick_history voidInit) p s = true ∨
        (∃ i, i < e.trick_len ∧ 0 ≤ e.trick_cards.getD i (-1) ∧
          cardSuit (e.trick_cards.getD i (-1)) ≠ e.lead_suit ∧
          ((e.trick_players.getD i (-1)).emod 4).toNat = p ∧
          (e.lead_suit.emod 4).toNat = s) := by
      by_cases htl : 0 < e.trick_len
      · rw [if_pos (show 0 < (obsOf e me).trick_len from htl)] at hv
        rcases foldl_markVoidCur_inv (obsOf e me) (List.range (obsOf e me).trick_len)
            _ p s hv with h1 | ⟨i, hi, h2, h3, h4, h5⟩
        · exact Or.inl h1
        · exact Or.inr ⟨i, List.mem_range.mp hi, h2, h3, h4, h5⟩
      · rw [if_neg (show ¬ 0 < (obsOf e me).trick_len from htl)] at hv
        exact Or.inl hv
    rcases hcases with hhist | ⟨i, hi, hc0, hcs, hp1, hs1⟩
    · rcases voidFromHistory_inv e.trick_history voidInit p s hhist with hbase | hfound
      · rw [voidInit_false p s] at hbase
        exact absurd hbase (by decide)
      · obtain ⟨hentry, hmem, pc, hpc, hc0, hcs, hp1, hs1⟩ := hfound
        obtain ⟨j, hj1, hj2, hjp, hjc⟩ := mem_zip_getD hpc
        obtain ⟨hl0, hl4, hpl, hcl, hrng⟩ := hwf.hist hentry hmem
        have hj4 : j < 4 := by omega
        obtain ⟨hq0, hq4, hr0, hr40⟩ := hrng j hj4
        have hlead_id : hentry.1.emod 4 = hentry.1 := Int.emod_eq_of_lt hl0 hl4
        have hlead_eq : hentry.1 = ((s : Nat) : Int) := by
          rw [← hs1, hlead_id]
          exact (Int.toNat_of_nonneg hl0).symm
        have hpl_id : pc.1.emod 4 = pc.1 := by
          rw [← hjp]
          exact Int.emod_eq_of_lt hq0 hq4
        have hcard_ne : cardSuit (hentry.2.2.getD j (-1)) ≠ hentry.1 := by
          rw [hjc]
          exact hcs
        have hvd := hwf.void_hist hentry hmem j hj4 hcard_ne
        have hidx : (hentry.2.1.getD j (-1)).toNat = p := by
          rw [← hp1, hpl_id, hjp]
        rw [hidx, hlead_eq] at hvd
        refine ⟨hvd, ?_⟩
        have : ((s : Nat) : Int) < 4 := hlead_eq ▸ hl4
        exact_mod_cast this
    · have htl0 : e.trick_len ≠ 0 := by omega
      obtain ⟨-, hl0, hl4⟩ := hwf.lead1 htl0
      obtain ⟨hc0', hc40, hq0, hq4, -⟩ := hwf.slots i hi
      have hlead_id : e.lead_suit.emod 4 = e.lead_suit := Int.emod_eq_of_lt hl0 hl4
      have hlead_eq : e.lead_suit = ((s : Nat) : Int) := by
        rw [← hs1, hlead_id]
        exact (Int.toNat_of_nonneg hl0).symm
      have hvd := hwf.void_cur i hi hcs
      have hpl_id : (e.trick_players.getD i (-1)).emod 4 = e.trick_players.getD i (-1) :=
        Int.emod_eq_of_lt hq0 hq4
      have hidx : (e.trick_players.getD i (-1)).toNat = p := by
        rw [← hp1, hpl_id]
      rw [hidx, hlead_eq] at hvd
      refine ⟨hvd, ?_⟩
      have : ((s : Nat) : Int) < 4 := hlead_eq ▸ hl4
      exact_mod_cast this
  refine ⟨hmain.1, ?_⟩
  intro acts hlr hphase a ha
  intro hsuit_eq
  have hmono := hands_mask_monotone p (suitMaskAt ((s : Nat) : Int)) acts e hlr hmain.1
  have hr2 := runActs_reachable e hr acts hlr
  have hwf2 := reachable_wf _ hr2
  have hbit := legal_testBit _ p a hphase ha
  have ha40 : a < 40 := testBit_lt_of_lt_two_pow (hwf2.hand_lt p) hbit
  have hmask : (suitMaskAt ((s : Nat) : Int)).testBit a = true :=
    (testBit_suitMaskAt _ (Int.natCast_nonneg s) (by exact_mod_cast hmain.2) a).mpr
      ⟨ha40, hsuit_eq⟩
  exact (and_eq_zero_iff_testBit _ _).mp hmono a ⟨hbit, hmask⟩

/-- The demo state after the trump declaration and two cards: player 1 has
discarded off-suit, so void inference marks them void in the lead suit. -/
def demoMid : Env := runActs demoEnv (greedyActs demoEnv 3)

theorem C9_void_inference_witness :
    Reachable demoMid ∧
    voidAt (publicVoidSuits (obsOf demoMid 0)) 1 0 = true ∧
    (demoMid.hands.getD 1 0 &&& suitMaskAt ((0 : Nat) : Int) = 0 ∧
      ∀ acts, legalRun demoMid acts = true →
        (runActs demoMid acts).choose_trump_phase = false →
        ∀ a ∈ legalActions (runActs demoMid acts) 1,
          cardSuit ((a : Nat) : Int) ≠ ((0 : Nat) : Int)) :=
  have hr : Reachable demoMid :=
    runActs_reachable demoEnv (Reachable.init demoDeck 0 (by decide) (by decide))
      (greedyActs demoEnv 3) (by decide)
  ⟨hr, by decide, C9_void_inference demoMid 0 1 0 hr (by decide)⟩

/-! ## C7/C8: the determinizer _build_determinized_env_from_obs.

The Python rng is modeled by a family of shuffle functions
`shuf : Nat → List Nat → List Nat`: call number k applies `shuf k` to the
list being shuffled, and a counter threads the call number through the
code exactly in Python call order (four pool shuffles per try, then one
shuffle of `remaining` in the fallback). -/

/-- unavailable = played_mask | my hand | cards of the current trick. -/
def unavailableOf (o : Obs) : Nat :=
  o.trick_cards.foldl (fun (m : Nat) (c : Int) => if 0 ≤ c then m ||| (1 <<< c.toNat) else m)
    (o.played_mask ||| o.hand_mask)

def remainingOf (o : Obs) : List Nat :=
  (List.range 40).filter (fun c => !(unavailableOf o).testBit c)

def bySuit (o : Obs) (s : Nat) : List Nat :=
  (remainingOf o).filter (fun c => cardSuit ((c : Nat) : Int) == ((s : Nat) : Int))

/-- played_by(p): completed tricks plus presence in the current trick. -/
def playedBy (o : Obs) (p : Nat) : Nat :=
  o.trick_index + (if ((p : Nat) : Int) ∈ o.trick_players.take o.trick_len then 1 else 0)

/-- need[p] = 10 - played_by(p) for the hidden players, 0 for the observer
(Python's range over a negative count runs zero times, like Nat
truncated subtraction). -/
def needOf (o : Obs) : List Nat :=
  (List.range 4).map (fun p => if p = o.player then 0 else 10 - playedBy o p)

/-- max(allowed, key=len ∘ pools): Python max keeps the first maximum. -/
def maxByLen (pools : List (List Nat)) : List Nat → Nat → Nat
  | [], best => best
  | s :: rest, best =>
      if (pools.getD best []).length < (pools.getD s []).length then maxByLen pools rest s
      else maxByLen pools rest best

/-- The inner dealing loop for one hidden player: k cards drawn, each from
the allowed suit with the largest pool, popping the pool's last element. -/
def dealPlayer (void : List (List Bool)) (p : Nat) :
    Nat → Nat → List (List Nat) → Option (Nat × List (List Nat))
  | 0, m, pools => some (m, pools)
  | k + 1, m, pools =>
      match (List.range 4).filter
          (fun s => !voidAt void p s && !(pools.getD s []).isEmpty) with
      | [] => none
      | s0 :: restAllowed =>
          let s := maxByLen pools restAllowed s0
          let lst := pools.getD s []
          let c := lst.getD (lst.length - 1) 0
          dealPlayer void p k (m ||| (1 <<< c)) (pools.set s lst.dropLast)

/-- The loop over players of one deal attempt. -/
def dealLoop (void : List (List Bool)) (me : Nat) (need : List Nat) :
    List Nat → List Nat → List (List Nat) → Option (List Nat × List (List Nat))
  | [], hands, pools => some (hands, pools)
  | p :: rest, hands, pools =>
      if p = me then dealLoop void me need rest hands pools
      else
        match dealPlayer void p (need.getD p 0) 0 pools with
        | none => none
        | some (m, pools2) => dealLoop void me need rest (hands.set p m) pools2

/-- The retry loop: returns the dealt hands and the next rng call number. -/
def buildTries (o : Obs) (shuf : Nat → List Nat → List Nat) :
    Nat → Nat → Option (List Nat) × Nat
  | 0, k => (none, k)
  | t + 1, k =>
      let pools := [shuf k (bySuit o 0), shuf (k + 1) (bySuit o 1),
                    shuf (k + 2) (bySuit o 2), shuf (k + 3) (bySuit o 3)]
      match dealLoop (publicVoidSuits o) o.player (needOf o) [0, 1, 2, 3]
          ([0, 0, 0, 0].set o.player o.hand_mask) pools with
      | some (hands, _) => (some hands, k + 4)
      | none => buildTries o shuf t (k + 4)

/-- The env built from the observation with the given hands: every other
field is copied from the observation verbatim, on the success path and the
fallback path alike. -/
def envFromObs (o : Obs) (hands : List Nat) : Env :=
  { hands := hands
    current_player := o.current_player
    declarer := o.declarer
    choose_trump_phase := o.choose_trump_phase
    trump_suit := o.trump_suit
    trick_cards := o.trick_cards
    trick_players := o.trick_players
    trick_len := o.trick_len
    lead_suit := o.lead_suit
    trick_index := o.trick_index
    scores_thirds := o.scores_thirds
    bonus_team := o.bonus_team
    played_mask := o.played_mask
    trick_history := o.trick_history
    done := o.done }

/-- The fallback deal: cards taken sequentially from the shuffled remaining
list, ignoring void inference. -/
def fallbackLoop (me : Nat) (need : List Nat) (rem : List Nat) :
    List Nat → Nat → List Nat → List Nat
  | [], _, hands => hands
  | p :: rest, idx, hands =>
      if p = me then fallbackLoop me need rem rest idx hands
      else
        let k := need.getD p 0
        let m := ((List.range k).map (fun j => 1 <<< rem.getD (idx + j) 0)).foldl
          (fun acc b => acc ||| b) 0
        fallbackLoop me need rem rest (idx + k) (hands.set p m)

/-- _build_determinized_env_from_obs with the rng call counter threaded;
returns the environment and the next call number. -/
def buildDeterminizedEnvK (o : Obs) (shuf : Nat → List Nat → List Nat) (k : Nat) :
    Env × Nat :=
  match buildTries o shuf 80 k with
  | (some hands, k2) => (envFromObs o hands, k2)
  | (none, k2) =>
      (envFromObs o (fallbackLoop o.player (needOf o) (shuf k2 (remainingOf o))
        [0, 1, 2, 3] 0 ([0, 0, 0, 0].set o.player o.hand_mask)), k2 + 1)

def buildDeterminizedEnv (o : Obs) (shuf : Nat → List Nat → List Nat) : Env :=
  (buildDeterminizedEnvK o shuf 0).1

/-- C8 (corrected): when all 80 constrained tries fail, the determinizer
falls back to an unconstrained deal of the shuffled remaining cards that
ignores void inference — but nothing surfaces this to the caller: the
return value is a plain environment built by the same envFromObs
constructor as a constrained success, with no flag, log or error. -/
theorem C8_fallback_not_surfaced (o : Obs) (shuf : Nat → List Nat → List Nat) (k : Nat)
    (hfail : (buildTries o shuf 80 k).1 = none) :
    buildDeterminizedEnvK o shuf k =
      (envFromObs o (fallbackLoop o.player (needOf o)
        (shuf (buildTries o shuf 80 k).2 (remainingOf o)) [0, 1, 2, 3] 0
        ([0, 0, 0, 0].set o.player o.hand_mask)),
       (buildTries o shuf 80 k).2 + 1) := by
  cases hres : buildTries o shuf 80 k with
  | mk r k2 =>
      rw [hres] at hfail
      cases r with
      | some v => simp at hfail
      | none =>
          unfold buildDeterminizedEnvK
          rw [hres]

def shufId : Nat → List Nat → List Nat := fun _ l => l

/-- An observation after four completed tricks in which players 1, 2 and 3
each discarded off-suit on every lead: void inference marks them void in
every suit, so every constrained try fails at the first draw. -/
def obsC8 : Obs :=
  { current_player := 0
    declarer := 0
    choose_trump_phase := false
    trump_suit := 0
    trick_cards := [-1, -1, -1, -1]
    trick_players := [-1, -1, -1, -1]
    trick_len := 0
    lead_suit := -1
    trick_index := 4
    scores_thirds := [8, 8]
    bonus_team := -1
    played_mask := (1 <<< 0) ||| (1 <<< 10) ||| (1 <<< 20) ||| (1 <<< 30) |||
      (1 <<< 11) ||| (1 <<< 21) ||| (1 <<< 31) ||| (1 <<< 1) |||
      (1 <<< 22) ||| (1 <<< 32) ||| (1 <<< 2) ||| (1 <<< 12) |||
      (1 <<< 33) ||| (1 <<< 3) ||| (1 <<< 13) ||| (1 <<< 23)
    trick_history :=
      [(0, [0, 1, 2, 3], [0, 10, 20, 30]),
       (1, [0, 1, 2, 3], [11, 21, 31, 1]),
       (2, [0, 1, 2, 3], [22, 32, 2, 12]),
       (3, [0, 1, 2, 3], [33, 3, 13, 23])]
    done := false
    player := 0
    hand_mask := (1 <<< 4) ||| (1 <<< 5) ||| (1 <<< 6) ||| (1 <<< 7) |||
      (1 <<< 8) ||| (1 <<< 9) }

/-- On obsC8 every constrained try fails, the fallback deals player 1 cards
of a suit they are inferred void in, and the returned environment is built
from the observation exactly like a success — indistinguishable to the
caller. -/
theorem C8_fallback_cex :
    (buildTries obsC8 shufId 80 0).1 = none ∧
    voidAt (publicVoidSuits obsC8) 1 1 = true ∧
    (buildDeterminizedEnv obsC8 shufId).hands.getD 1 0 &&& suitMask 1 ≠ 0 ∧
    buildDeterminizedEnv obsC8 shufId =
      envFromObs obsC8 (buildDeterminizedEnv obsC8 shufId).hands := by
  decide

theorem C8_fallback_not_surfaced_witness :
    (buildTries obsC8 shufId 80 0).1 = none ∧
    buildDeterminizedEnvK obsC8 shufId 0 =
      (envFromObs obsC8 (fallbackLoop obsC8.player (needOf obsC8)
        (shufId (buildTries obsC8 shufId 80 0).2 (remainingOf obsC8)) [0, 1, 2, 3] 0
        ([0, 0, 0, 0].set obsC8.player obsC8.hand_mask)),
       (buildTries obsC8 shufId 80 0).2 + 1) :=
  ⟨by decide, C8_fallback_not_surfaced obsC8 shufId 0 (by decide)⟩

/-! ## C7: the determinizer success path. -/

def PoolsSuit (pools : List (List Nat)) : Prop :=
  ∀ s, s < 4 → ∀ c ∈ pools.getD s [], c < 40 ∧ cardSuit ((c : Nat) : Int) = ((s : Nat) : Int)

def PoolsNodup (pools : List (List Nat)) : Prop :=
  ∀ s, s < 4 → (pools.getD s []).Nodup

def PoolsFresh (m : Nat) (pools : List (List Nat)) : Prop :=
  ∀ s, s < 4 → ∀ c ∈ pools.getD s [], m.testBit c = false

theorem getD_last_mem (l : List Nat) (h : l ≠ []) : l.getD (l.length - 1) 0 ∈ l := by
  have hlen : l.length - 1 < l.length := by
    cases l
    · simp at h
    · simp
  rw [List.getD_eq_getElem l 0 hlen]
  exact List.getElem_mem hlen

theorem getLast_not_mem_dropLast (l : List Nat) (h : l ≠ []) (hnd : l.Nodup) :
    l.getD (l.length - 1) 0 ∉ l.dropLast := by
  have heq := List.dropLast_append_getLast h
  have hlen : l.length - 1 < l.length := by
    cases l
    · simp at h
    · simp
  have hget : l.getD (l.length - 1) 0 = l.getLast h := by
    rw [List.getD_eq_getElem l 0 hlen]
    rw [List.getLast_eq_getElem]
  rw [hget]
  intro hmem
  rw [← heq] at hnd
  have hdisj := (List.nodup_append.mp hnd).2.2
  exact hdisj hmem (List.mem_singleton_self _)

theorem getD_set_sub (pools : List (List Nat)) (i : Nat) (v : List Nat)
    (hv : ∀ x ∈ v, x ∈ pools.getD i []) :
    ∀ j x, x ∈ (pools.set i v).getD j [] → x ∈ pools.getD j [] := by
  intro j x hx
  by_cases hij : i = j
  · subst hij
    rcases Nat.lt_or_ge i pools.length with hlen | hlen
    · rw [getD_set_self pools i v [] hlen] at hx
      exact hv x hx
    · rw [List.getD_eq_default _ _ (by rw [List.length_set]; omega)] at hx
      simp at hx
  · rw [getD_set_ne pools i j hij] at hx
    exact hx

theorem maxByLen_mem (pools : List (List Nat)) :
    ∀ (l : List Nat) (b : Nat), maxByLen pools l b = b ∨ maxByLen pools l b ∈ l := by
  intro l
  induction l with
  | nil =>
      intro b
      exact Or.inl rfl
  | cons s rest ih =>
      intro b
      simp only [maxByLen]
      by_cases h : (pools.getD b []).length < (pools.getD s []).length
      · rw [if_pos h]
        rcases ih s with h1 | h2
        · exact Or.inr (by rw [h1]; exact List.mem_cons_self s rest)
        · exact Or.inr (List.mem_cons_of_mem s h2)
      · rw [if_neg h]
        rcases ih b with h1 | h2
        · exact Or.inl h1
        · exact Or.inr (List.mem_cons_of_mem s h2)

theorem maxByLen_ge (pools : List (List Nat)) :
    ∀ (l : List Nat) (b : Nat),
      (pools.getD b []).length ≤ (pools.getD (maxByLen pools l b) []).length ∧
      ∀ s ∈ l, (pools.getD s []).length ≤ (pools.getD (maxByLen pools l b) []).length := by
  intro l
  induction l with
  | nil =>
      intro b
      exact ⟨Nat.le_refl _, fun s hs => absurd hs (List.not_mem_nil s)⟩
  | cons s rest ih =>
      intro b
      simp only [maxByLen]
      by_cases h : (pools.getD b []).length < (pools.getD s []).length
      · rw [if_pos h]
        obtain ⟨h1, h2⟩ := ih s
        refine ⟨le_trans (le_of_lt h) h1, ?_⟩
        intro t ht
        rcases List.mem_cons.mp ht with h3 | h4
        · exact h3 ▸ h1
        · exact h2 t h4
      · rw [if_neg h]
        obtain ⟨h1, h2⟩ := ih b
        refine ⟨h1, ?_⟩
        intro t ht
        rcases List.mem_cons.mp ht with h3 | h4
        · exact h3 ▸ le_trans (Nat.le_of_not_lt h) h1
        · exact h2 t h4

theorem dealPlayer_spec (void : List (List Bool)) (p : Nat) :
    ∀ (k m : Nat) (pools : List (List Nat)) (res : Nat × List (List Nat)),
      dealPlayer void p k m pools = some res →
      PoolsSuit pools → PoolsNodup pools → PoolsFresh m pools → m < 2 ^ 40 →
      countMask res.1 = countMask m + k ∧ res.1 < 2 ^ 40 ∧
      PoolsSuit res.2 ∧ PoolsNodup res.2 ∧ PoolsFresh res.1 res.2 ∧
      (∀ i, res.1.testBit i = true →
        m.testBit i = true ∨ ∃ s, s < 4 ∧ voidAt void p s = false ∧ i ∈ pools.getD s []) := by
  intro k
  induction k with
  | zero =>
      intro m pools res hres hsuit hnd hfresh hmlt
      simp only [dealPlayer] at hres
      cases hres
      exact ⟨by simp, hmlt, hsuit, hnd, hfresh, fun i hb => Or.inl hb⟩
  | succ k ih =>
      intro m pools res hres hsuit hnd hfresh hmlt
      simp only [dealPlayer] at hres
      cases hallow : (List.range 4).filter
          (fun s => !voidAt void p s && !(pools.getD s []).isEmpty) with
      | nil =>
          rw [hallow] at hres
          exact absurd hres (by simp)
      | cons s0 restAllowed =>
          rw [hallow] at hres
          simp only [] at hres
          have hsmem0 : maxByLen pools restAllowed s0 ∈ s0 :: restAllowed := by
            rcases maxByLen_mem pools restAllowed s0 with h1 | h2
            · rw [h1]
              exact List.mem_cons_self s0 restAllowed
            · exact List.mem_cons_of_mem s0 h2
          have hsmem : maxByLen pools restAllowed s0 ∈ (List.range 4).filter
              (fun s => !voidAt void p s && !(pools.getD s []).isEmpty) := by
            rw [hallow]
            exact hsmem0
          obtain ⟨hsrange, hscond⟩ := List.mem_filter.mp hsmem
          have hs4 : maxByLen pools restAllowed s0 < 4 := List.mem_range.mp hsrange
          rw [Bool.and_eq_true] at hscond
          obtain ⟨hnv, hnem⟩ := hscond
          have hvoidS : voidAt void p (maxByLen pools restAllowed s0) = false := by
            rcases Bool.eq_false_or_eq_true (voidAt void p (maxByLen pools restAllowed s0))
              with hh | hh
            · rw [hh] at hnv
              exact absurd hnv (by decide)
            · exact hh
          have hlst_ne : pools.getD (maxByLen pools restAllowed s0) [] ≠ [] := by
            intro hnil
            rw [hnil] at hnem
            exact absurd hnem (by decide)
          have hcmem := getD_last_mem (pools.getD (maxByLen pools restAllowed s0) []) hlst_ne
          obtain ⟨hc40, hcsuit⟩ := hsuit _ hs4 _ hcmem
          have hcfresh := hfresh _ hs4 _ hcmem
          have hm2 : (m ||| 1 <<< (pools.getD (maxByLen pools restAllowed s0) []).getD
              ((pools.getD (maxByLen pools restAllowed s0) []).length - 1) 0) < 2 ^ 40 :=
            or_pow_lt_two_pow hmlt hc40
          have hcount2 := countMask_or m _ hc40 hcfresh
          have hsub := getD_set_sub pools (maxByLen pools restAllowed s0)
            (pools.getD (maxByLen pools restAllowed s0) []).dropLast
            (fun x hx => (List.dropLast_sublist _).subset hx)
          have hsuit2 : PoolsSuit (pools.set (maxByLen pools restAllowed s0)
              (pools.getD (maxByLen pools restAllowed s0) []).dropLast) := by
            intro s hs c' hc'
            exact hsuit s hs c' (hsub s c' hc')
          have hnd2 : PoolsNodup (pools.set (maxByLen pools restAllowed s0)
              (pools.getD (maxByLen pools restAllowed s0) []).dropLast) := by
            intro s hs
            by_cases hss : maxByLen pools restAllowed s0 = s
            · subst hss
              rcases Nat.lt_or_ge (maxByLen pools restAllowed s0) pools.length with hlen | hlen
              · rw [getD_set_self pools _ _ [] hlen]
                exact List.Sublist.nodup (List.dropLast_sublist _) (hnd _ hs)
              · rw [List.getD_eq_default _ _ (by rw [List.length_set]; omega)]
                exact List.nodup_nil
            · rw [getD_set_ne pools _ s hss]
              exact hnd s hs
          have hfresh2 : PoolsFresh (m ||| 1 <<< (pools.getD (maxByLen pools restAllowed s0)
              []).getD ((pools.getD (maxByLen pools restAllowed s0) []).length - 1) 0)
              (pools.set (maxByLen pools restAllowed s0)
                (pools.getD (maxByLen pools restAllowed s0) []).dropLast) := by
            intro s hs c' hc'
            have hc'mem := hsub s c' hc'
            have hbase := hfresh s hs c' hc'mem
            by_cases hcc : c' = (pools.getD (maxByLen pools restAllowed s0) []).getD
                ((pools.getD (maxByLen pools restAllowed s0) []).length - 1) 0
            · exfalso
              by_cases hss : maxByLen pools restAllowed s0 = s
              · subst hss
                rcases Nat.lt_or_ge (maxByLen pools restAllowed s0) pools.length
                  with hlen | hlen
                · rw [getD_set_self pools _ _ [] hlen] at hc'
                  rw [hcc] at hc'
                  exact getLast_not_mem_dropLast _ hlst_ne (hnd _ hs) hc'
                · rw [List.getD_eq_default _ _ (by rw [List.length_set]; omega)] at hc'
                  simp at hc'
              · have h1 := (hsuit s hs c' hc'mem).2
                rw [hcc] at h1
                have h2 : ((s : Nat) : Int) = ((maxByLen pools restAllowed s0 : Nat) : Int) :=
                  h1.symm.trans hcsuit
                have : s = maxByLen pools restAllowed s0 := by exact_mod_cast h2
                exact hss this.symm
            · rw [Nat.testBit_or, testBit_one_shiftLeft, hbase, Bool.false_or]
              exact decide_eq_false hcc
          obtain ⟨hcnt, hlt2, hsC, hnC, hfC, hprov⟩ := ih _ _ res hres hsuit2 hnd2 hfresh2 hm2
          refine ⟨by omega, hlt2, hsC, hnC, hfC, ?_⟩
          intro i hb
          rcases hprov i hb with hb2 | ⟨s, hs, hv, hmem⟩
          · rw [Nat.testBit_or, testBit_one_shiftLeft, Bool.or_eq_true] at hb2
            rcases hb2 with hb3 | hb4
            · exact Or.inl hb3
            · have hieq : i = (pools.getD (maxByLen pools restAllowed s0) []).getD
                  ((pools.getD (maxByLen pools restAllowed s0) []).length - 1) 0 :=
                of_decide_eq_true hb4
              refine Or.inr ⟨maxByLen pools restAllowed s0, hs4, hvoidS, ?_⟩
              rw [hieq]
              exact hcmem
          · exact Or.inr ⟨s, hs, hv, hsub s i hmem⟩

theorem dealLoop_spec (void : List (List Bool)) (me : Nat) (need : List Nat) :
    ∀ (ps : List Nat) (hands : List Nat) (pools : List (List Nat))
      (res : List Nat × List (List Nat)),
      dealLoop void me need ps hands pools = some res →
      ps.Nodup → PoolsSuit pools → PoolsNodup pools →
      (∀ q, q ∉ ps → res.1.getD q 0 = hands.getD q 0) ∧
      res.1.getD me 0 = hands.getD me 0 ∧
      (∀ q ∈ ps, q ≠ me → q < hands.length →
        countMask (res.1.getD q 0) = need.getD q 0 ∧
        (∀ s, s < 4 → voidAt void q s = true → res.1.getD q 0 &&& suitMask s = 0)) := by
  intro ps
  induction ps with
  | nil =>
      intro hands pools res hres _ _ _
      simp only [dealLoop] at hres
      cases hres
      exact ⟨fun q _ => rfl, rfl, fun q hq => absurd hq (List.not_mem_nil q)⟩
  | cons p rest ih =>
      intro hands pools res hres hnodup hsuit hnd
      simp only [dealLoop] at hres
      by_cases hpme : p = me
      · rw [if_pos hpme] at hres
        obtain ⟨hun, hmeq, hmem⟩ := ih hands pools res hres (List.nodup_cons.mp hnodup).2
          hsuit hnd
        refine ⟨?_, hmeq, ?_⟩
        · intro q hq
          exact hun q (fun h => hq (List.mem_cons_of_mem p h))
        · intro q hq hqme hqlen
          rcases List.mem_cons.mp hq with h1 | h2
          · exact absurd (h1.trans hpme) hqme
          · exact hmem q h2 hqme hqlen
      · rw [if_neg hpme] at hres
        cases hdp : dealPlayer void p (need.getD p 0) 0 pools with
        | none =>
            rw [hdp] at hres
            exact absurd hres (by simp)
        | some mp =>
            obtain ⟨m, pools2⟩ := mp
            rw [hdp] at hres
            simp only [] at hres
            obtain ⟨hcnt, hlt2, hsC, hnC, hfC, hprov⟩ :=
              dealPlayer_spec void p (need.getD p 0) 0 pools (m, pools2) hdp hsuit hnd
                (fun s hs c hc => Nat.zero_testBit c) (by positivity)
            obtain ⟨hun, hmeq, hmem⟩ := ih (hands.set p m) pools2 res hres
              (List.nodup_cons.mp hnodup).2 hsC hnC
            refine ⟨?_, ?_, ?_⟩
            · intro q hq
              have hq1 : q ≠ p := fun h => hq (h ▸ List.mem_cons_self p rest)
              have hq2 : q ∉ rest := fun h => hq (List.mem_cons_of_mem p h)
              rw [hun q hq2, getD_set_ne hands p q (fun h => hq1 h.symm)]
            · rw [hmeq, getD_set_ne hands p me hpme]
            · intro q hq hqme hqlen
              rcases List.mem_cons.mp hq with h1 | h2
              · subst h1
                have hpn : q ∉ rest := (List.nodup_cons.mp hnodup).1
                rw [hun q hpn, getD_set_self hands q m 0 hqlen]
                constructor
                · have := hcnt
                  rw [countMask_zero] at this
                  simpa using this
                · intro s hs hvs
                  rw [and_eq_zero_iff_testBit]
                  rintro i ⟨hbit, hmask⟩
                  rcases hprov i hbit with h0 | ⟨t, ht, hv, hmemi⟩
                  · rw [Nat.zero_testBit] at h0
                    exact absurd h0 (by decide)
                  · obtain ⟨hrange, _⟩ := (testBit_suitMask s i).mp hmask
                    have hi40 : i < 40 := by
                      have := (testBit_suitMask s i).mp hmask
                      omega
                    have hsuit_i := (hsuit t ht i hmemi).2
                    have hsuit_s : cardSuit ((i : Nat) : Int) = ((s : Nat) : Int) := by
                      rw [cardSuit_ofNat i hi40]
                      have : i / 10 = s := by
                        have := (testBit_suitMask s i).mp hmask
                        omega
                      rw [this]
                    have hts : t = s := by
                      have := hsuit_i.symm.trans hsuit_s
                      exact_mod_cast this
                    rw [hts] at hv
                    rw [hvs] at hv
                    exact absurd hv (by decide)
              · exact hmem q h2 hqme (by rw [List.length_set]; exact hqlen)

theorem nodup_bySuit (o : Obs) (s : Nat) : (bySuit o s).Nodup :=
  List.Nodup.filter _ (List.Nodup.filter _ (List.nodup_range 40))

theorem mem_bySuit (o : Obs) (s : Nat) (c : Nat) (hc : c ∈ bySuit o s) :
    c < 40 ∧ cardSuit ((c : Nat) : Int) = ((s : Nat) : Int) := by
  obtain ⟨hrem, hcond⟩ := List.mem_filter.mp hc
  obtain ⟨hrange, -⟩ := List.mem_filter.mp hrem
  exact ⟨List.mem_range.mp hrange, by exact_mod_cast of_decide_eq_true hcond⟩

theorem buildTries_spec (o : Obs) (shuf : Nat → List Nat → List Nat)
    (hperm : ∀ k l, (shuf k l).Perm l) (hme : o.player < 4) :
    ∀ (t k : Nat) (hands : List Nat), (buildTries o shuf t k).1 = some hands →
      hands.getD o.player 0 = o.hand_mask ∧
      (∀ p, p < 4 → p ≠ o.player → countMask (hands.getD p 0) = (needOf o).getD p 0) ∧
      (∀ p s, p < 4 → p ≠ o.player → s < 4 → voidAt (publicVoidSuits o) p s = true →
        hands.getD p 0 &&& suitMask s = 0) := by
  intro t
  induction t with
  | zero =>
      intro k hands h
      simp [buildTries] at h
  | succ t ih =>
      intro k hands h
      simp only [buildTries] at h
      cases hdl : dealLoop (publicVoidSuits o) o.player (needOf o) [0, 1, 2, 3]
          ([0, 0, 0, 0].set o.player o.hand_mask)
          [shuf k (bySuit o 0), shuf (k + 1) (bySuit o 1),
           shuf (k + 2) (bySuit o 2), shuf (k + 3) (bySuit o 3)] with
      | none =>
          rw [hdl] at h
          exact ih (k + 4) hands h
      | some r =>
          obtain ⟨hands2, pools2⟩ := r
          rw [hdl] at h
          simp only [] at h
          have hh : hands = hands2 := by
            have h2 := h
            simp at h2
            first
            | exact h2
            | exact h2.symm
          subst hh
          have hpoolsuit : PoolsSuit [shuf k (bySuit o 0), shuf (k + 1) (bySuit o 1),
              shuf (k + 2) (bySuit o 2), shuf (k + 3) (bySuit o 3)] := by
            intro s hs c hc
            interval_cases s
            · exact mem_bySuit o 0 c ((hperm k (bySuit o 0)).mem_iff.mp hc)
            · exact mem_bySuit o 1 c ((hperm (k + 1) (bySuit o 1)).mem_iff.mp hc)
            · exact mem_bySuit o 2 c ((hperm (k + 2) (bySuit o 2)).mem_iff.mp hc)
            · exact mem_bySuit o 3 c ((hperm (k + 3) (bySuit o 3)).mem_iff.mp hc)
          have hpoolnodup : PoolsNodup [shuf k (bySuit o 0), shuf (k + 1) (bySuit o 1),
              shuf (k + 2) (bySuit o 2), shuf (k + 3) (bySuit o 3)] := by
            intro s hs
            interval_cases s
            · exact ((hperm k (bySuit o 0)).nodup_iff).mpr (nodup_bySuit o 0)
            · exact ((hperm (k + 1) (bySuit o 1)).nodup_iff).mpr (nodup_bySuit o 1)
            · exact ((hperm (k + 2) (bySuit o 2)).nodup_iff).mpr (nodup_bySuit o 2)
            · exact ((hperm (k + 3) (bySuit o 3)).nodup_iff).mpr (nodup_bySuit o 3)
          obtain ⟨hun, hmeq, hmem⟩ := dealLoop_spec (publicVoidSuits o) o.player (needOf o)
            [0, 1, 2, 3] ([0, 0, 0, 0].set o.player o.hand_mask) _ (hands, pools2) hdl
            (by decide) hpoolsuit hpoolnodup
          have hlen4 : ([0, 0, 0, 0].set o.player o.hand_mask).length = 4 := by
            rw [List.length_set]
            rfl
          refine ⟨?_, ?_, ?_⟩
          · rw [hmeq, getD_set_self [0, 0, 0, 0] o.player o.hand_mask 0 (by simpa using hme)]
          · intro p hp hpme
            have hpm : p ∈ [0, 1, 2, 3] := by
              interval_cases p <;> decide
            exact (hmem p hpm hpme (by rw [List.length_set]; simpa using hp)).1
          · intro p s hp hpme hs hvd
            have hpm : p ∈ [0, 1, 2, 3] := by
              interval_cases p <;> decide
            exact (hmem p hpm hpme (by rw [List.length_set]; simpa using hp)).2 s hs hvd

theorem needOf_getD (o : Obs) (p : Nat) (hp : p < 4) :
    (needOf o).getD p 0 = if p = o.player then 0 else 10 - playedBy o p := by
  unfold needOf
  interval_cases p <;> rfl

/-- C7: on the success path of the determinizer (within the 80 bounded
tries, with permutation shuffles), the dealt hands keep the observer's hand
verbatim, give every hidden player exactly 10 minus their played-card count,
and respect every inferred void; moreover the suit-selection function is the
first argmax of pool length over the allowed list. -/
theorem C7_determinizer_success (o : Obs) (shuf : Nat → List Nat → List Nat)
    (hperm : ∀ k l, (shuf k l).Perm l) (hme : o.player < 4) (k : Nat) (hands : List Nat)
    (hsucc : (buildTries o shuf 80 k).1 = some hands) :
    (hands.getD o.player 0 = o.hand_mask ∧
      (∀ p, p < 4 → p ≠ o.player → countMask (hands.getD p 0) = 10 - playedBy o p) ∧
      (∀ p s, p < 4 → p ≠ o.player → s < 4 → voidAt (publicVoidSuits o) p s = true →
        hands.getD p 0 &&& suitMask s = 0)) ∧
    (∀ (pools : List (List Nat)) (l : List Nat) (b : Nat),
      (maxByLen pools l b = b ∨ maxByLen pools l b ∈ l) ∧
      (pools.getD b []).length ≤ (pools.getD (maxByLen pools l b) []).length ∧
      ∀ t ∈ l, (pools.getD t []).length ≤ (pools.getD (maxByLen pools l b) []).length) := by
  obtain ⟨h1, h2, h3⟩ := buildTries_spec o shuf hperm hme 80 k hands hsucc
  refine ⟨⟨h1, ?_, h3⟩, ?_⟩
  · intro p hp hpme
    have := h2 p hp hpme
    rw [needOf_getD o p hp, if_neg hpme] at this
    exact this
  · intro pools l b
    exact ⟨maxByLen_mem pools l b, (maxByLen_ge pools l b).1, (maxByLen_ge pools l b).2⟩

/-- A fresh post-declaration observation: observer 0 holds all of suit 0,
nothing played; every constrained try trivially succeeds. -/
def obsC7 : Obs :=
  { current_player := 0
    declarer := 0
    choose_trump_phase := false
    trump_suit := 0
    trick_cards := [-1, -1, -1, -1]
    trick_players := [-1, -1, -1, -1]
    trick_len := 0
    lead_suit := -1
    trick_index := 0
    scores_thirds := [0, 0]
    bonus_team := 0
    played_mask := 0
    trick_history := []
    done := false
    player := 0
    hand_mask := (1 <<< 10) - 1 }

set_option maxHeartbeats 4000000 in
theorem C7_determinizer_success_witness :
    ((buildTries obsC7 shufId 80 0).1 =
      some ((buildTries obsC7 shufId 80 0).1.getD [])) ∧
    ((((buildTries obsC7 shufId 80 0).1.getD []).getD obsC7.player 0 = obsC7.hand_mask ∧
      (∀ p, p < 4 → p ≠ obsC7.player →
        countMask (((buildTries obsC7 shufId 80 0).1.getD []).getD p 0) =
          10 - playedBy obsC7 p) ∧
      (∀ p s, p < 4 → p ≠ obsC7.player → s < 4 →
        voidAt (publicVoidSuits obsC7) p s = true →
        ((buildTries obsC7 shufId 80 0).1.getD []).getD p 0 &&& suitMask s = 0)) ∧
    (∀ (pools : List (List Nat)) (l : List Nat) (b : Nat),
      (maxByLen pools l b = b ∨ maxByLen pools l b ∈ l) ∧
      (pools.getD b []).length ≤ (pools.getD (maxByLen pools l b) []).length ∧
      ∀ t ∈ l, (pools.getD t []).length ≤ (pools.getD (maxByLen pools l b) []).length)) :=
  ⟨by decide,
    C7_determinizer_success obsC7 shufId (fun k l => List.Perm.refl l) (by decide) 0
      ((buildTries obsC7 shufId 80 0).1.getD []) (by decide)⟩

/-! ## C10: HeroAgent.play_card and its Monte-Carlo determinism.

Python float arithmetic on the heuristic weights is modeled by exact
rationals (the decimal literals of the source, read as rationals); this
does not affect the determinism property, which holds for any weights. -/

/-- agent.py PARAMS as exact rationals. -/
def qParams : List ℚ :=
  [11958994967541685 / 10 ^ 16, 23732132780136353 / 10 ^ 17, 13145561114881144 / 10 ^ 16,
   29150501916851876 / 10 ^ 16, 21061757294197907 / 10 ^ 16, 22683148287656025 / 10 ^ 16,
   1155172106006112 / 10 ^ 15, 7173930080513861 / 10 ^ 16, 40871172885377804 / 10 ^ 16,
   3641083368279365 / 10 ^ 16, 47583165471112804 / 10 ^ 17, 20887888800332526 / 10 ^ 16,
   8434659265083043 / 10 ^ 15, 10050785455262579 / 10 ^ 16, 9273591977417727 / 10 ^ 16,
   381876215038942 / 10 ^ 15, 7419534138672005 / 10 ^ 16, 14954955712462221 / 10 ^ 16,
   16991269397494742 / 10 ^ 16, 19500378843662873 / 10 ^ 16, 2259093493950632 / 10 ^ 15,
   -6452249782432833 / 10 ^ 16, 21809659381862323 / 10 ^ 16, 8862483106944297 / 10 ^ 16,
   9269978097802034 / 10 ^ 16, 21438463666192784 / 10 ^ 16]

def pQ (i : Nat) : ℚ := qParams.getD i 0

/-- Python min(key=...): the first element with the minimal key. -/
def minByKey (key : Nat → ℚ) : List Nat → Nat
  | [] => 0
  | c :: rest => rest.foldl (fun b x => if key x < key b then x else b) c

/-- The explicit best-so-far loops (init best_v = -1e18, strict replace). -/
def argmaxLoop (val : Nat → ℚ) : List Nat → Nat → ℚ → Nat
  | [], best, _ => best
  | c :: rest, best, bestV =>
      if bestV < val c then argmaxLoop val rest c (val c)
      else argmaxLoop val rest best bestV

/-- The winner scan over current-trick indices, shared verbatim by
agent._current_winning_team and hero._current_winner_team. -/
def winnerIdxLoop (hasTrump : Bool) (trump lead : Int) (cards : List Int) :
    List Nat → Nat → Int → Nat
  | [], bi, _ => bi
  | i :: rest, bi, bs =>
      let c := cards.getD i (-1)
      let suit := cardSuit c
      if (if hasTrump then suit != trump else suit != lead) then
        winnerIdxLoop hasTrump trump lead cards rest bi bs
      else if bs < cardStrength c then
        winnerIdxLoop hasTrump trump lead cards rest i (cardStrength c)
      else winnerIdxLoop hasTrump trump lead cards rest bi bs

def currentWinnerTeam (o : Obs) : Int :=
  if o.trick_len = 0 then -1
  else
    let hasTrump := (List.range o.trick_len).any
      (fun i => cardSuit (o.trick_cards.getD i (-1)) == o.trump_suit)
    let bi := winnerIdxLoop hasTrump o.trump_suit o.lead_suit o.trick_cards
      (List.range o.trick_len) 0 (-1)
    teamOf (o.trick_players.getD bi (-1))

/-- _wins_if_played, identical in agent.py and hero.py. -/
def winsIfPlayed (o : Obs) (player card : Int) : Bool :=
  if o.trick_len = 0 then false
  else
    let cards2 := o.trick_cards.take o.trick_len ++ [card]
    let players2 := o.trick_players.take o.trick_len ++ [player]
    let hasTrump := cards2.any (fun c => cardSuit c == o.trump_suit)
    let bi := bestEligible hasTrump o.trump_suit o.lead_suit cards2.enum 0 (-1)
    players2.getD bi (-1) == player

/-- Points currently on the table (in points, i.e. thirds / 3). -/
def pointsOnTable (o : Obs) : ℚ :=
  ((List.range o.trick_len).map (fun i =>
    if 0 ≤ o.trick_cards.getD i (-1) then
      ((cardPoints (o.trick_cards.getD i (-1)) : ℚ) / 3) else 0)).sum

/-- heuristic_v0 choose_trump. -/
def v0ChooseTrump (o : Obs) (legal : List Nat) : Nat :=
  let hand := o.hand_mask
  argmaxLoop (fun s =>
    let m := hand &&& suitMaskAt ((s : Nat) : Int)
    let cnt := countMask m
    let pts := ((iterCards m).map (fun c => (cardPoints ((c : Nat) : Int) : ℚ) / 3)).sum
    let strn := ((iterCards m).map
      (fun c => ((cardStrength ((c : Nat) : Int) : Int) : ℚ) / 9)).sum
    let has3 := (hand >>> (s * 10 + 0)) &&& 1
    let has2 := (hand >>> (s * 10 + 1)) &&& 1
    let hasA := (hand >>> (s * 10 + 2)) &&& 1
    pQ 0 * (cnt : ℚ) + pQ 1 * pts + pQ 2 * strn + pQ 3 * (has3 : ℚ) +
      pQ 4 * (has2 : ℚ) + pQ 5 * (hasA : ℚ))
    legal (legal.headD 0) (-(10 ^ 18 : ℚ))

/-- heuristic_v0 play_card. -/
def v0PlayCard (o : Obs) (legal : List Nat) : Nat :=
  if legal.length = 1 then legal.headD 0
  else
    let trump := o.trump_suit
    if o.trick_len = 0 then
      let endg : ℚ := if 7 ≤ o.trick_index then 1 else 0
      argmaxLoop (fun c =>
        let tr : ℚ := if cardSuit ((c : Nat) : Int) = trump then 1 else 0
        let suitCnt := countMask (o.hand_mask &&& suitMaskAt (cardSuit ((c : Nat) : Int)))
        pQ 6 * ((cardPoints ((c : Nat) : Int) : ℚ) / 3) +
          pQ 7 * (((cardStrength ((c : Nat) : Int) : Int) : ℚ) / 9) - pQ 8 * tr +
          pQ 9 * tr * endg + pQ 10 * ((suitCnt : ℚ) / 10))
        legal (legal.headD 0) (-(10 ^ 18 : ℚ))
    else
      let team := teamOf ((o.player : Nat) : Int)
      let partnerWinning := currentWinnerTeam o == team
      let points := pointsOnTable o
      let winners := legal.filter
        (fun c => winsIfPlayed o ((o.player : Nat) : Int) ((c : Nat) : Int))
      if partnerWinning then
        if ¬ winners.isEmpty ∧ (pQ 11 ≤ points ∨ pQ 12 ≤ (o.trick_index : ℚ)) then
          minByKey (fun c => pQ 13 * (cardPoints ((c : Nat) : Int) : ℚ) +
            pQ 14 * ((cardStrength ((c : Nat) : Int) : Int) : ℚ) - pQ 15 * points) winners
        else
          minByKey (fun c => pQ 16 * (cardPoints ((c : Nat) : Int) : ℚ) +
            pQ 17 * ((cardStrength ((c : Nat) : Int) : Int) : ℚ) +
            pQ 18 * (if cardSuit ((c : Nat) : Int) = trump then 1 else 0)) legal
      else if ¬ winners.isEmpty then
        minByKey (fun c => pQ 19 * (cardPoints ((c : Nat) : Int) : ℚ) +
          pQ 20 * ((cardStrength ((c : Nat) : Int) : Int) : ℚ) +
          pQ 21 * (if cardSuit ((c : Nat) : Int) = trump then 1 else 0) -
          pQ 22 * points) winners
      else
        minByKey (fun c => pQ 23 * (cardPoints ((c : Nat) : Int) : ℚ) +
          pQ 24 * ((cardStrength ((c : Nat) : Int) : Int) : ℚ) +
          pQ 25 * (if cardSuit ((c : Nat) : Int) = trump then 1 else 0)) legal

def seenCardsMask (o : Obs) : Nat :=
  o.trick_cards.foldl (fun (m : Nat) (c : Int) => if 0 ≤ c then m ||| (1 <<< c.toNat) else m)
    o.played_mask

def suitSeenCount (o : Obs) (s : Int) : Nat :=
  countMask ((seenCardsMask o &&& (((1 <<< 10) - 1) <<< (s.toNat * 10))) >>> (s.toNat * 10))

def highCardsSeenFraction (o : Obs) (s : Int) : ℚ :=
  ((((List.range 3).filter
    (fun i => (seenCardsMask o >>> (s.toNat * 10 + i)) &&& 1 = 1)).length : ℚ)) / 3

def voidRiskForLead (o : Obs) (s : Int) : ℚ :=
  ((([(o.player + 1) % 4, (o.player + 3) % 4] : List Nat).filter
    (fun q => voidAt (publicVoidSuits o) q (s.emod 4).toNat)).length : ℚ)

/-- HeroAgent._heuristic_play_card with the default weights. -/
def heroHeuristicPlay (o : Obs) (legal : List Nat) : Nat :=
  let me := o.player
  let trump := o.trump_suit
  if o.trick_len = 0 then
    let hand := o.hand_mask
    let endg : ℚ := if 7 ≤ o.trick_index then 1 else 0
    let void := publicVoidSuits o
    let oppVoidTotal : Nat :=
      ((List.range 4).filter (fun s => voidAt void ((me + 1) % 4) s)).length +
        ((List.range 4).filter (fun s => voidAt void ((me + 3) % 4) s)).length
    let haveTrump := hand &&& suitMaskAt trump ≠ 0
    argmaxLoop (fun c =>
      let s := cardSuit ((c : Nat) : Int)
      let tr : ℚ := if s = trump then 1 else 0
      let suitCnt := countMask (hand &&& suitMaskAt s)
      (11 / 10 : ℚ) * ((cardPoints ((c : Nat) : Int) : ℚ) / 3) +
        (7 / 10 : ℚ) * (((cardStrength ((c : Nat) : Int) : Int) : ℚ) / 9) -
        (7 / 2 : ℚ) * tr * (1 - endg) +
        (3 / 5 : ℚ) * ((suitCnt : ℚ) / 10) +
        (4 / 5 : ℚ) * highCardsSeenFraction o s -
        (6 / 5 : ℚ) * voidRiskForLead o s * (1 - endg) +
        (1 / 4 : ℚ) * ((suitSeenCount o s : ℚ) / 10) +
        (if haveTrump ∧ 0 < tr then
          (1 : ℚ) * ((oppVoidTotal : ℚ) / 8) * (1 - endg) else 0))
      legal (legal.headD 0) (-(10 ^ 18 : ℚ))
  else
    let team := teamOf ((me : Nat) : Int)
    let partnerWinning := currentWinnerTeam o == team
    let points := pointsOnTable o
    let winners := legal.filter (fun c => winsIfPlayed o ((me : Nat) : Int) ((c : Nat) : Int))
    if partnerWinning then
      if ¬ winners.isEmpty ∧ (3 / 2 : ℚ) ≤ points then
        minByKey (fun c => (13 / 10 : ℚ) * (cardPoints ((c : Nat) : Int) : ℚ) +
          1 * ((cardStrength ((c : Nat) : Int) : Int) : ℚ) - (4 / 5 : ℚ) * points) winners
      else
        minByKey (fun c => 1 * (cardPoints ((c : Nat) : Int) : ℚ) +
          (9 / 10 : ℚ) * ((cardStrength ((c : Nat) : Int) : Int) : ℚ) +
          (6 / 5 : ℚ) * (if cardSuit ((c : Nat) : Int) = trump then 1 else 0)) legal
    else if ¬ winners.isEmpty then
      minByKey (fun c => 1 * (cardPoints ((c : Nat) : Int) : ℚ) +
        (6 / 5 : ℚ) * ((cardStrength ((c : Nat) : Int) : Int) : ℚ) +
        (11 / 10 : ℚ) * (if cardSuit ((c : Nat) : Int) = trump then 1 else 0) -
        1 * points) winners
    else
      minByKey (fun c => (cardPoints ((c : Nat) : Int) : ℚ) +
        ((cardStrength ((c : Nat) : Int) : Int) : ℚ) +
        (if cardSuit ((c : Nat) : Int) = trump then 1 else 0)) legal

/-- The rollout loop of HeroAgent.play_card (fueled; a game lasts at most
41 steps, fuel 50 is never exhausted on real states). -/
def heroRollout : Nat → Env → Nat → Env
  | 0, env, _ => env
  | fuel + 1, env, target =>
      if env.done = false ∧ env.trick_index < target then
        let legal2 := legalActions env env.current_player
        if legal2.isEmpty then { env with done := true }
        else
          let o2 := obsOf env env.current_player
          let act := if env.choose_trump_phase then v0ChooseTrump o2 legal2
            else v0PlayCard o2 legal2
          heroRollout fuel (stepEnv env act) target
      else env

/-- The inner sample loop: mc_samples determinizations, each stepped with
the candidate action and rolled out one trick. -/
def mcSamples (shuf : Nat → List Nat → List Nat) (o : Obs) (a : Nat) (myTeam : Nat) :
    Nat → Nat → ℚ → ℚ × Nat
  | 0, k, acc => (acc, k)
  | n + 1, k, acc =>
      let ek := buildDeterminizedEnvK o shuf k
      let base : ℚ := ((ek.1.scores_thirds.getD myTeam 0 : ℚ) -
        (ek.1.scores_thirds.getD (1 - myTeam) 0 : ℚ)) / 3
      let env1 := stepEnv ek.1 a
      let env2 := heroRollout 50 env1 (env1.trick_index + 1)
      let val : ℚ := ((env2.scores_thirds.getD myTeam 0 : ℚ) -
        (env2.scores_thirds.getD (1 - myTeam) 0 : ℚ)) / 3 - base
      mcSamples shuf o a myTeam n ek.2 (acc + val)

def mcLoop (shuf : Nat → List Nat → List Nat) (o : Obs) (myTeam : Nat) :
    List Nat → Nat → Nat → ℚ → Nat
  | [], _, best, _ => best
  | a :: rest, k, best, bestV =>
      let r := mcSamples shuf o a myTeam 6 k 0
      let v := r.1 / 6
      if bestV < v then mcLoop shuf o myTeam rest r.2 a v
      else mcLoop shuf o myTeam rest r.2 best bestV

/-- rng = random.Random((played ^ (hand << 1) ^ 0xA11CE) & 0xFFFFFFFF). -/
def heroMcSeed (o : Obs) : Nat :=
  (o.played_mask ^^^ (o.hand_mask <<< 1) ^^^ 0xA11CE) % 2 ^ 32

def heroMCPlay (shuf : Nat → List Nat → List Nat) (o : Obs) (legal : List Nat) : Nat :=
  mcLoop shuf o (teamOf ((o.player : Nat) : Int)).toNat legal 0 (legal.headD 0)
    (-(10 ^ 18 : ℚ))

/-- HeroAgent.play_card with the default configuration (mc_enabled,
mc_samples = 6, mc_rollout_tricks = 1). The Python rng is modeled by the
family rngOf : seed → call number → shuffle; play_card seeds it with
heroMcSeed of the observation. -/
def heroPlayCard (rngOf : Nat → Nat → List Nat → List Nat) (o : Obs)
    (legal : List Nat) : Nat :=
  if legal.length = 1 then legal.headD 0
  else if 0 < o.trick_len ∧ (1 ≤ pointsOnTable o ∨ 3 ≤ legal.length) then
    heroMCPlay (rngOf (heroMcSeed o)) o legal
  else heroHeuristicPlay o legal

/-- C10: the Monte-Carlo play_card consumes randomness only through the
seed derived from the played mask, the own hand mask and the fixed salt
0xA11CE: two rng families that agree at that seed produce the same action
on the same observation and legal list, and the seed is exactly
(played ^ (hand << 1) ^ 0xA11CE) mod 2^32. -/
theorem C10_mc_determinism (r1 r2 : Nat → Nat → List Nat → List Nat) (o : Obs)
    (legal : List Nat) (h : r1 (heroMcSeed o) = r2 (heroMcSeed o)) :
    heroPlayCard r1 o legal = heroPlayCard r2 o legal ∧
      heroMcSeed o = (o.played_mask ^^^ (o.hand_mask <<< 1) ^^^ 0xA11CE) % 2 ^ 32 :=
  ⟨by unfold heroPlayCard; rw [h], rfl⟩

theorem C10_mc_determinism_witness :
    ((fun (_ : Nat) (l : List Nat) => l) =
      (fun (sd : Nat) => fun (_ : Nat) (l : List Nat) =>
        if sd = heroMcSeed obsC7 then l else l.reverse) (heroMcSeed obsC7)) ∧
    (heroPlayCard (fun (_ : Nat) (_ : Nat) (l : List Nat) => l) obsC7 [0, 1] =
      heroPlayCard (fun (sd : Nat) (_ : Nat) (l : List Nat) =>
        if sd = heroMcSeed obsC7 then l else l.reverse) obsC7 [0, 1] ∧
      heroMcSeed obsC7 =
        (obsC7.played_mask ^^^ (obsC7.hand_mask <<< 1) ^^^ 0xA11CE) % 2 ^ 32) := by
  have h : ((fun (_ : Nat) (l : List Nat) => l) : Nat → List Nat → List Nat) =
      (fun (sd : Nat) => fun (_ : Nat) (l : List Nat) =>
        if sd = heroMcSeed obsC7 then l else l.reverse) (heroMcSeed obsC7) := by
    funext k l
    show l = if heroMcSeed obsC7 = heroMcSeed obsC7 then l else l.reverse
    rw [if_pos rfl]
  exact ⟨h, C10_mc_determinism _ _ obsC7 [0, 1] h⟩

end Maraffa